import Mathlib

/-! gov4git: accounts, ballots, motions and their policies, mail, sync.

A shallow embedding of `proto/account/account.go`,
`proto/ballot/ballot/open.go`, `mod/ballot/vote.go`, `mod/ballot/tally.go`,
`proto/motion/motionpolicies/pmp_0/eligible.go`,
`proto/docket/policies/pmp/concern/concern.go`, `proto/docket/ops/open.go`,
`proto/collab/scoremotions.go`, `proto/sync/sync.go`, `gov4git/cmd/ballot.go`
and `services/gov/user/set.go`.

Conventions of the embedding.

* A Go function that panics through `must.Assertf`, `must.Errorf` or
  `must.Panic` returns `Except Err _`.
* The staged working tree of a clone is mutated in place by the Go code, so a
  function that stages returns the tree *after* the call together with its
  outcome: a panic does not undo the writes staged before it.
* The tree is typed by namespace: the account key-value namespace, the history
  log, the member groups and the remaining files by path.
* The account operations are embedded twice: under `account` the quantities are
  added exactly, under `account.f64` they are added as `float64` adds them, a
  finite `float64` being a whole number of units of 2^-1074.
* A slice is a window of a backing array of a heap, so that a function that
  writes to the elements of a slice returns the heap after the call.
-/

set_option linter.dupNamespace false
set_option exponentiation.threshold 4096
set_option maxRecDepth 100000

namespace Gov4Git

/-! ## Errors (`lib4git/must`, `lib4git/git`) -/

/-- The error carried by a panic of `lib4git/must`. -/
inductive Err where
  | notExist (path : String)
  | failed (msg : String)
  deriving DecidableEq, Repr

/-- The predicate `git.IsNotExist`. -/
def git.IsNotExist : Err → Bool
  | .notExist _ => true
  | .failed _ => false

/-- The function `must.Assertf`: panics with the message unless the condition holds. -/
def must.Assertf (cond : Bool) (msg : String) : Except Err Unit :=
  if cond then .ok () else .error (.failed msg)

/-! ## Context -/

/-- The part of `context.Context` the embedded code reads: whether history
logging has been muted for this call. -/
structure Context where
  muted : Bool
  deriving DecidableEq, Repr

/-! ## Holdings (`proto/account`) -/

abbrev account.Asset := String

abbrev account.AccountID := String

abbrev account.OwnerID := String

/-- Modelled from the spec: the declaration of `Holding` is not among the
sources. "Holdings have a signed Quantity of one Asset kind"; the quantity is
taken as an exact integer. The sources print a quantity as a floating-point
number (`%0.6f`): the operations under `account.f64` read the integer as the
units of 2^-1074 of a finite `float64` and round their sums, while the
operations under `account` add exactly. -/
structure account.Holding where
  Asset : account.Asset
  Quantity : Int
  deriving DecidableEq, Repr

namespace account

/-- Modelled from the spec: `ZeroHolding` is not among the sources; the holding
of quantity zero of the given asset. -/
def ZeroHolding (asset : Asset) : Holding :=
  { Asset := asset, Quantity := 0 }

/-- Modelled from the spec: `NegHolding` is not among the sources; "withdraw is
deposit of the negation": the same asset with the quantity negated. -/
def NegHolding (h : Holding) : Holding :=
  { Asset := h.Asset, Quantity := -h.Quantity }

/-- Modelled from the spec: `SumHolding` is not among the sources; the sum of
two holdings "of one Asset kind". It takes the context at its call site, so it
can panic: it does so when the two holdings are of different assets. -/
def SumHolding (g h : Holding) : Except Err Holding :=
  match must.Assertf (decide (g.Asset = h.Asset)) "asset mismatch" with
  | .error e => .error e
  | .ok _ => .ok { Asset := g.Asset, Quantity := g.Quantity + h.Quantity }

/-- The type `AssetHoldings`, a Go `map[Asset]Holding` in which a holding is
stored under its own asset: the list of the stored holdings, the entry of an
asset being the first holding of that asset in the list. -/
structure AssetHoldings where
  entries : List Holding
  deriving DecidableEq, Repr

/-- The map lookup `x[k]`: the holding stored under the asset, if there is one. -/
def AssetHoldings.entry (x : AssetHoldings) (k : Asset) : Option Holding :=
  x.entries.find? (fun g => decide (g.Asset = k))

/-- The map assignment `x[k] = d`, for a holding `d` of asset `k`: the previous
entry of `k` is dropped and `d` is stored. -/
def AssetHoldings.assign (x : AssetHoldings) (k : Asset) (d : Holding) : AssetHoldings :=
  { entries := d :: x.entries.filter (fun g => decide (g.Asset ≠ k)) }

/-- The method `AssetHoldings.Balance`. -/
def AssetHoldings.Balance (x : AssetHoldings) (asset : Asset) : Holding :=
  match x.entry asset with
  | some h => h
  | none => ZeroHolding asset

/-- The method `AssetHoldings.Deposit`: the map after the deposit, or the panic. -/
def AssetHoldings.Deposit (x : AssetHoldings) (h : Holding) : Except Err AssetHoldings :=
  match x.entry h.Asset with
  | some g =>
    match SumHolding g h with
    | .error e => .error e
    | .ok d =>
      match must.Assertf (decide (d.Quantity ≥ 0)) "insufficient funds" with
      | .error e => .error e
      | .ok _ => .ok (x.assign h.Asset d)
  | none =>
    let d := h
    match must.Assertf (decide (d.Quantity ≥ 0)) "no funds" with
    | .error e => .error e
    | .ok _ => .ok (x.assign h.Asset d)

/-- The method `AssetHoldings.Withdraw`. -/
def AssetHoldings.Withdraw (x : AssetHoldings) (h : Holding) : Except Err AssetHoldings :=
  x.Deposit (NegHolding h)

end account

/-- The struct `Account`. -/
structure account.Account where
  ID : account.AccountID
  Owner : account.OwnerID
  Assets : account.AssetHoldings
  deriving DecidableEq, Repr

namespace account

/-- The method `Account.Deposit`: the account after the deposit, or the panic. -/
def Account.Deposit (a : Account) (h : Holding) : Except Err Account :=
  match a.Assets.Deposit h with
  | .error e => .error e
  | .ok x => .ok { a with Assets := x }

/-- The method `Account.Withdraw`. -/
def Account.Withdraw (a : Account) (h : Holding) : Except Err Account :=
  match a.Assets.Withdraw h with
  | .error e => .error e
  | .ok x => .ok { a with Assets := x }

/-- The method `Account.Balance`. -/
def Account.Balance (a : Account) (asset : Asset) : Holding :=
  a.Assets.Balance asset

/-- The function `NewAccount`. -/
def NewAccount (id : AccountID) (owner : OwnerID) : Account :=
  { ID := id, Owner := owner, Assets := { entries := [] } }

end account

/-! ## History (`proto/history`) -/

/-- A value of the argument map `history.M` of an event. -/
inductive history.Value where
  | str (s : String)
  | holding (h : account.Holding)
  deriving DecidableEq, Repr

/-- The struct `history.Op`: op name, note, args, result. -/
structure history.Op where
  Op : String
  Note : String
  Args : List (String × history.Value)
  Result : Option history.Value
  deriving DecidableEq, Repr

/-- The struct `history.Event`. -/
structure history.Event where
  Op : history.Op
  deriving DecidableEq, Repr

/-! ## Members, addresses and ballot records (`proto/member`, `proto/gov`, `proto/ballot/common`) -/

abbrev member.User := String

abbrev member.Group := String

abbrev git.CommitHash := String

/-- A path namespace `ns.NS`: an ordered sequence of path segments. -/
abbrev ns.NS := List String

/-- The method `ns.NS.Append`. -/
def ns.NS.Append (p : ns.NS) (seg : String) : ns.NS :=
  p ++ [seg]

/-- The address `gov.Address` of a governance repository. -/
structure gov.Address where
  Repo : String
  Branch : String
  deriving DecidableEq, Repr

abbrev common.BallotName := String

/-- The struct `common.Advertisement`, with the fields `Open_StageOnly` fills. -/
structure common.Advertisement where
  Gov : gov.Address
  Name : common.BallotName
  Title : String
  Description : String
  Choices : List String
  Strategy : String
  Participants : member.Group
  Frozen : Bool
  Closed : Bool
  Cancelled : Bool
  ParentCommit : git.CommitHash
  deriving DecidableEq, Repr

/-- Modelled from the spec: the declaration of `StrengthAndScore` is not among
the sources; a user's vote on one choice "with strength and effective vote". -/
structure common.StrengthAndScore where
  Strength : Int
  Score : Int
  deriving DecidableEq, Repr

/-- Modelled from the spec: the declaration of an election is not among the
sources; "one (choice, strength) pair within a vote envelope". -/
structure common.Election where
  VoteChoice : String
  VoteStrengthChange : Int
  deriving DecidableEq, Repr

/-- Modelled from the spec: the declaration of `RejectedElections` entries is
not among the sources; a rejected election with its reason. -/
structure common.RejectedElection where
  Reason : String
  Vote : common.Election
  deriving DecidableEq, Repr

/-- The struct `common.Tally`, with the fields `Open_StageOnly` fills. A Go map
is the list of its entries; the empty map is the empty list. -/
structure common.Tally where
  Ad : common.Advertisement
  Scores : List (String × Int)
  VotesByUser : List (member.User × List (String × common.StrengthAndScore))
  AcceptedVotes : List (member.User × List common.Election)
  RejectedVotes : List (member.User × List common.RejectedElection)
  Charges : List (member.User × Int)
  deriving DecidableEq, Repr

/-- The interface `common.Strategy` as `Open_StageOnly` uses it: its name and
its serialized parameters, which form the strategy descriptor. -/
structure common.Strategy where
  Name : String
  Params : String
  deriving DecidableEq, Repr

/-- The address `common.BallotAddress` returned by `Open_StageOnly`. -/
structure common.BallotAddress where
  Gov : gov.Address
  Name : common.BallotName
  deriving DecidableEq, Repr

/-! ## Motion records (`proto/docket/schema`, `proto/motion/motionproto`) -/

abbrev schema.MotionID := String

abbrev schema.PolicyName := String

abbrev schema.RefType := String

/-- Modelled from the spec: the declaration of the motion type is not among the
sources; a motion is of "type (concern|proposal)". -/
inductive schema.MotionType where
  | concern
  | proposal
  deriving DecidableEq, Repr

/-- Modelled from the spec: the declaration of `Motion` is not among the
sources; the fields are those the sources fill or read (`OpenMotion_StageOnly`,
`concernPolicy.updateFreeze`, `IsConcernProposalEligible`). `OpenedAt` is a
timestamp; `Type_` stands for the field `Type`. -/
structure schema.Motion where
  OpenedAt : Nat
  ID : schema.MotionID
  Type_ : schema.MotionType
  Policy : schema.PolicyName
  TrackerURL : String
  Title : String
  Body : String
  Labels : List String
  Closed : Bool
  Frozen : Bool
  deriving DecidableEq, Repr

/-- Modelled from the spec: the declaration of `Ref` is not among the sources;
"a reference has a type, a `from` motion, and a `to` motion". `Type_` stands
for the field `Type`. -/
structure schema.Ref where
  Type_ : schema.RefType
  From : schema.MotionID
  To : schema.MotionID
  deriving DecidableEq, Repr

/-- The type `schema.Refs`, a Go slice of references. -/
abbrev schema.Refs := List schema.Ref

/-- Modelled from the spec: the declaration of `ConcernState` is not among the
sources; the policy state of a concern, with the two fields the concern policy
reads and writes. -/
structure concern.ConcernState where
  PriorityPoll : common.BallotName
  EligibleProposals : schema.Refs
  deriving DecidableEq, Repr

/-- Modelled from the spec: the declaration of `ProposalState` is not among the
sources; the policy state of a proposal, whose "approval score is the tally
score of its poll", taken as an exact integer. -/
structure pmp_0.ProposalState where
  LatestApprovalScore : Int
  deriving DecidableEq, Repr

/-! ## The staged tree -/

/-- The content of a file of the tree outside the typed namespaces. -/
inductive File where
  | ad (a : common.Advertisement)
  | tally (t : common.Tally)
  | strategy (s : common.Strategy)
  | raw (bytes : String)
  | motion (m : schema.Motion)
  | concernState (s : concern.ConcernState)
  | proposalState (s : pmp_0.ProposalState)
  deriving DecidableEq, Repr

/-- The staged working tree of a cloned governance repository. -/
structure Tree where
  /-- The key-value namespace `account/`: one record per account id. -/
  accounts : account.AccountID → Option account.Account
  /-- The history log, oldest event first. -/
  history : List history.Event
  /-- The member groups with their users. -/
  groups : member.Group → Option (List member.User)
  /-- Every other file, by path. -/
  files : ns.NS → Option File

/-- The tree with no account, no event, no group and no file. -/
def Tree.empty : Tree :=
  { accounts := fun _ => none, history := [], groups := fun _ => none, files := fun _ => none }

namespace history

/-- Modelled from the spec: `history.Mute` is not among the sources; the context
under which the "muted inner calls must not emit their own history events". -/
def Mute (ctx : Context) : Context :=
  { ctx with muted := true }

/-- Modelled from the spec: `history.Log_StageOnly` is not among the sources;
the history log is an "append-only sequence of events", and a call under a
muted context emits no event. -/
def Log_StageOnly (ctx : Context) (t : Tree) (ev : Event) : Tree :=
  if ctx.muted then t else { t with history := t.history ++ [ev] }

end history

namespace account

/-- The function `Get_Local`: `accountKV.Get` on the account namespace, which
panics with a not-exist error when there is no record under the id. -/
def Get_Local (t : Tree) (id : AccountID) : Except Err Account :=
  match t.accounts id with
  | some a => .ok a
  | none => .error (.notExist ("account/" ++ id))

/-- The function `set_StageOnly`: `accountKV.Set` on the account namespace. -/
def set_StageOnly (t : Tree) (id : AccountID) (a : Account) : Tree :=
  { t with accounts := fun i => if i = id then some a else t.accounts i }

/-- The function `Exists_Local`. -/
def Exists_Local (t : Tree) (id : AccountID) : Except Err Bool :=
  match Get_Local t id with
  | .ok _ => .ok true
  | .error err => if git.IsNotExist err then .ok false else .error err

/-- The function `Create_StageOnly`: the tree after the call and the outcome. -/
def Create_StageOnly (ctx : Context) (t : Tree) (id : AccountID) (owner : OwnerID)
    (note : String) : Tree × Except Err Unit :=
  match Exists_Local t id with
  | .error e => (t, .error e)
  | .ok ex =>
    match must.Assertf (!ex) ("account " ++ id ++ " already exists") with
    | .error e => (t, .error e)
    | .ok _ =>
      let t1 := set_StageOnly t id (NewAccount id owner)
      let t2 := history.Log_StageOnly ctx t1
        { Op := { Op := "account_create", Note := note,
                  Args := [("id", .str id), ("owner", .str owner)], Result := none } }
      (t2, .ok ())

/-- The function `Deposit_StageOnly`: the tree after the call and the outcome. -/
def Deposit_StageOnly (ctx : Context) (t : Tree) (to_ : AccountID) (amount : Holding)
    (note : String) : Tree × Except Err Unit :=
  match Get_Local t to_ with
  | .error e => (t, .error e)
  | .ok a =>
    match a.Deposit amount with
    | .error e => (t, .error e)
    | .ok a1 =>
      let t1 := set_StageOnly t to_ a1
      let t2 := history.Log_StageOnly ctx t1
        { Op := { Op := "account_deposit", Note := note,
                  Args := [("to", .str to_), ("amount", .holding amount)], Result := none } }
      (t2, .ok ())

/-- The function `Withdraw_StageOnly`: the tree after the call and the outcome. -/
def Withdraw_StageOnly (ctx : Context) (t : Tree) (from_ : AccountID) (amount : Holding)
    (note : String) : Tree × Except Err Unit :=
  match Get_Local t from_ with
  | .error e => (t, .error e)
  | .ok a =>
    match a.Withdraw amount with
    | .error e => (t, .error e)
    | .ok a1 =>
      let t1 := set_StageOnly t from_ a1
      let t2 := history.Log_StageOnly ctx t1
        { Op := { Op := "account_withdraw", Note := note,
                  Args := [("from", .str from_), ("amount", .holding amount)], Result := none } }
      (t2, .ok ())

/-- The function `Transfer_StageOnly`: the tree after the call and the outcome.
The withdrawal is staged before the deposit is attempted. -/
def Transfer_StageOnly (ctx : Context) (t : Tree) (from_ to_ : AccountID) (amount : Holding)
    (note : String) : Tree × Except Err Unit :=
  match Withdraw_StageOnly (history.Mute ctx) t from_ amount note with
  | (t1, .error e) => (t1, .error e)
  | (t1, .ok _) =>
    match Deposit_StageOnly (history.Mute ctx) t1 to_ amount note with
    | (t2, .error e) => (t2, .error e)
    | (t2, .ok _) =>
      let t3 := history.Log_StageOnly ctx t2
        { Op := { Op := "account_transfer", Note := note,
                  Args := [("from", .str from_), ("to", .str to_), ("amount", .holding amount)],
                  Result := none } }
      (t3, .ok ())

/-- The function `TryTransfer_StageOnly`: `must.Try` turns the panic of
`Transfer_StageOnly` into the returned error (`none` for Go's nil); the tree is
the one the call leaves behind. -/
def TryTransfer_StageOnly (ctx : Context) (t : Tree) (from_ to_ : AccountID) (amount : Holding)
    (note : String) : Tree × Option Err :=
  match Transfer_StageOnly ctx t from_ to_ amount note with
  | (t1, .error e) => (t1, some e)
  | (t1, .ok _) => (t1, none)

end account

/-! ## The account operations on `float64` quantities (`proto/account/account.go`) -/

namespace float64

/-- The number of low bits of `n` that a significand of 53 bits does not hold:
how often `n` is halved until it is below 2^53. The first argument bounds the
number of halvings; it is given as `n` itself. -/
def excess : Nat → Nat → Nat
  | 0, _ => 0
  | fuel + 1, n => if n < 2 ^ 53 then 0 else excess fuel (n / 2) + 1

/-- The rounding of IEEE 754 binary64, the `float64` of Go. A finite `float64`
is a whole number of units of 2^-1074 with at most 53 significant bits; `round`
takes an exact result, counted in those units, to the nearest such number, a
tie going to the one whose significand is even. -/
def round (x : Int) : Int :=
  let n := x.natAbs
  let k := excess n n
  let q := n / 2 ^ k
  let r := n % 2 ^ k
  let m := (if 2 ^ k < 2 * r ∨ (2 * r = 2 ^ k ∧ q % 2 = 1) then q + 1 else q) * 2 ^ k
  if x < 0 then -(m : Int) else (m : Int)

/-- The operator `+` of Go on two finite `float64` values, counted in units of
2^-1074: the exact sum, rounded. A sum of magnitude 2^1024 or more is an
infinity in Go and is not a value here, and neither NaN nor an infinity is an
operand. -/
def add (a b : Int) : Int :=
  round (a + b)

/-- The `float64` of a whole number: the units of 2^-1074 in it. -/
def ofNat (n : Nat) : Int :=
  Int.ofNat (n * 2 ^ 1074)

/-- Whether an exact result, counted in units of 2^-1074, is itself a finite
`float64`: rounding leaves it as it is, and its magnitude is below 2^1024. -/
def IsValue (x : Int) : Bool :=
  decide (round x = x) && decide (x.natAbs < 2 ^ 2098)

end float64

namespace account.f64

/-- Modelled from the spec: `SumHolding` is not among the sources; the sum of
two holdings "of one Asset kind", where the quantity is the `float64` that the
sources print it as (`%0.6f`), counted in units of 2^-1074, and the sum is the
`+` of Go. It panics when the two holdings are of different assets. -/
def SumHolding (g h : Holding) : Except Err Holding :=
  match must.Assertf (decide (g.Asset = h.Asset)) "asset mismatch" with
  | .error e => .error e
  | .ok _ => .ok { Asset := g.Asset, Quantity := float64.add g.Quantity h.Quantity }

/-- The method `AssetHoldings.Deposit` on `float64` quantities: the map after
the deposit, or the panic. -/
def AssetHoldings.Deposit (x : account.AssetHoldings) (h : Holding) :
    Except Err account.AssetHoldings :=
  match x.entry h.Asset with
  | some g =>
    match account.f64.SumHolding g h with
    | .error e => .error e
    | .ok d =>
      match must.Assertf (decide (d.Quantity ≥ 0)) "insufficient funds" with
      | .error e => .error e
      | .ok _ => .ok (x.assign h.Asset d)
  | none =>
    let d := h
    match must.Assertf (decide (d.Quantity ≥ 0)) "no funds" with
    | .error e => .error e
    | .ok _ => .ok (x.assign h.Asset d)

/-- The method `AssetHoldings.Withdraw` on `float64` quantities; the negation of
a `float64` is exact. -/
def AssetHoldings.Withdraw (x : account.AssetHoldings) (h : Holding) :
    Except Err account.AssetHoldings :=
  account.f64.AssetHoldings.Deposit x (NegHolding h)

/-- The method `Account.Deposit` on `float64` quantities. -/
def Account.Deposit (a : account.Account) (h : Holding) : Except Err account.Account :=
  match account.f64.AssetHoldings.Deposit a.Assets h with
  | .error e => .error e
  | .ok x => .ok { a with Assets := x }

/-- The method `Account.Withdraw` on `float64` quantities. -/
def Account.Withdraw (a : account.Account) (h : Holding) : Except Err account.Account :=
  match account.f64.AssetHoldings.Withdraw a.Assets h with
  | .error e => .error e
  | .ok x => .ok { a with Assets := x }

/-- The function `Deposit_StageOnly` on `float64` quantities: the tree after the
call and the outcome. -/
def Deposit_StageOnly (ctx : Context) (t : Tree) (to_ : AccountID) (amount : Holding)
    (note : String) : Tree × Except Err Unit :=
  match Get_Local t to_ with
  | .error e => (t, .error e)
  | .ok a =>
    match account.f64.Account.Deposit a amount with
    | .error e => (t, .error e)
    | .ok a1 =>
      let t1 := set_StageOnly t to_ a1
      let t2 := history.Log_StageOnly ctx t1
        { Op := { Op := "account_deposit", Note := note,
                  Args := [("to", .str to_), ("amount", .holding amount)], Result := none } }
      (t2, .ok ())

/-- The function `Withdraw_StageOnly` on `float64` quantities: the tree after
the call and the outcome. -/
def Withdraw_StageOnly (ctx : Context) (t : Tree) (from_ : AccountID) (amount : Holding)
    (note : String) : Tree × Except Err Unit :=
  match Get_Local t from_ with
  | .error e => (t, .error e)
  | .ok a =>
    match account.f64.Account.Withdraw a amount with
    | .error e => (t, .error e)
    | .ok a1 =>
      let t1 := set_StageOnly t from_ a1
      let t2 := history.Log_StageOnly ctx t1
        { Op := { Op := "account_withdraw", Note := note,
                  Args := [("from", .str from_), ("amount", .holding amount)], Result := none } }
      (t2, .ok ())

/-- The function `Transfer_StageOnly` on `float64` quantities: the tree after
the call and the outcome. The withdrawal is staged before the deposit is
attempted. -/
def Transfer_StageOnly (ctx : Context) (t : Tree) (from_ to_ : AccountID) (amount : Holding)
    (note : String) : Tree × Except Err Unit :=
  match account.f64.Withdraw_StageOnly (history.Mute ctx) t from_ amount note with
  | (t1, .error e) => (t1, .error e)
  | (t1, .ok _) =>
    match account.f64.Deposit_StageOnly (history.Mute ctx) t1 to_ amount note with
    | (t2, .error e) => (t2, .error e)
    | (t2, .ok _) =>
      let t3 := history.Log_StageOnly ctx t2
        { Op := { Op := "account_transfer", Note := note,
                  Args := [("from", .str from_), ("to", .str to_), ("amount", .holding amount)],
                  Result := none } }
      (t3, .ok ())

end account.f64

/-! ## Opening a ballot (`proto/ballot/ballot/open.go`) -/

/-- A cloned repository `gov.Cloned`: its address, its staged tree and the
commit its head points to, if it has one. -/
structure gov.Cloned where
  Address : gov.Address
  Tree : Tree
  Head : Option git.CommitHash

/-- The part of `gov.OwnerCloned` that `Open_StageOnly` uses: the clone of the
public governance repository. -/
structure gov.OwnerCloned where
  Public : gov.Cloned

/-- The method `OwnerCloned.GovAddress`. -/
def gov.OwnerCloned.GovAddress (c : gov.OwnerCloned) : gov.Address :=
  c.Public.Address

/-- The function `git.Head`: panics on a repository without a head commit. -/
def git.Head (c : gov.Cloned) : Except Err git.CommitHash :=
  match c.Head with
  | some h => .ok h
  | none => .error (.failed "reference not found")

/-- The function `git.TreeStat`: succeeds exactly when a file exists at the path. -/
def git.TreeStat (t : Tree) (p : ns.NS) : Except Err Unit :=
  match t.files p with
  | some _ => .ok ()
  | none => .error (.notExist (String.intercalate "/" p))

/-- The function `git.ToFileStage`: writes the file at the path, without committing. -/
def git.ToFileStage (t : Tree) (p : ns.NS) (f : File) : Tree :=
  { t with files := fun q => if q = p then some f else t.files q }

/-- Modelled from the spec: `member.IsGroup_Local` is not among the sources; it
"verifies the participant group exists". -/
def member.IsGroup_Local (t : Tree) (g : member.Group) : Bool :=
  (t.groups g).isSome

namespace common

/-- Modelled from the spec: `BallotPath` is not among the sources; the
repository layout puts a ballot under `ballot/<ballot-id>/`. -/
def BallotPath (name : BallotName) : ns.NS :=
  ["ballot", name]

/-- Modelled from the spec: the constant is not among the sources; the layout
names the file `ad.json`. -/
def AdFilebase : String := "ad.json"

/-- Modelled from the spec: the constant is not among the sources; the layout
names the file `tally.json`. -/
def TallyFilebase : String := "tally.json"

/-- Modelled from the spec: the constant is not among the sources; the layout
names the file `strategy.json`. -/
def StrategyFilebase : String := "strategy.json"

end common

/-- A value of the argument map `form.Map` of a change. -/
inductive form.Value where
  | str (s : String)
  | strategy (s : common.Strategy)
  deriving DecidableEq, Repr

/-- The struct `git.Change` with arguments `form.Map` and a result. -/
structure git.Change (R : Type) where
  Msg : String
  Op : String
  Args : List (String × form.Value)
  Result : R
  deriving DecidableEq, Repr

namespace ballot

open common

/-- The function `Open_StageOnly`: the clone after the call and the outcome. -/
def Open_StageOnly (strat : Strategy) (govCloned : gov.OwnerCloned) (name : BallotName)
    (title description : String) (choices : List String) (participants : member.Group) :
    gov.OwnerCloned × Except Err (git.Change BallotAddress) :=
  -- check no open ballots by the same name
  let openAdNS := (BallotPath name).Append AdFilebase
  match git.TreeStat govCloned.Public.Tree openAdNS with
  | .ok _ => (govCloned, .error (.failed ("ballot already exists: " ++ String.intercalate "/" openAdNS)))
  | .error _ =>
    -- verify group exists
    if !member.IsGroup_Local govCloned.Public.Tree participants then
      (govCloned, .error (.failed ("participant group " ++ participants ++ " does not exist")))
    else
      -- write ad
      match git.Head govCloned.Public with
      | .error e => (govCloned, .error e)
      | .ok head =>
        let ad : Advertisement :=
          { Gov := govCloned.GovAddress, Name := name, Title := title,
            Description := description, Choices := choices, Strategy := strat.Name,
            Participants := participants, Frozen := false, Closed := false,
            Cancelled := false, ParentCommit := head }
        let t1 := git.ToFileStage govCloned.Public.Tree openAdNS (.ad ad)
        -- write initial tally
        let tally : Tally :=
          { Ad := ad, Scores := [], VotesByUser := [], AcceptedVotes := [],
            RejectedVotes := [], Charges := [] }
        let openTallyNS := (BallotPath name).Append TallyFilebase
        let t2 := git.ToFileStage t1 openTallyNS (.tally tally)
        -- write strategy
        let openStratNS := (BallotPath name).Append StrategyFilebase
        let t3 := git.ToFileStage t2 openStratNS (.strategy strat)
        ({ govCloned with Public := { govCloned.Public with Tree := t3 } },
          .ok { Msg := "Create ballot of type " ++ strat.Name,
                Op := "ballot_open",
                Args := [("strategy", .strategy strat), ("name", .str name),
                         ("participants", .str participants)],
                Result := { Gov := govCloned.GovAddress, Name := name } })

end ballot

/-! ## Motion lookup and proposal eligibility (`proto/motion/motionpolicies/pmp_0/eligible.go`) -/

namespace schema

/-- Modelled from the spec: `MotionNS` is not among the sources; the layout
puts a motion under `motion/<motion-id>`. -/
def MotionNS : ns.NS :=
  ["motion"]

/-- Modelled from the spec: `Motion.IsConcern` is not among the sources; the
motion's type is concern. -/
def Motion.IsConcern (m : Motion) : Bool :=
  decide (m.Type_ = .concern)

/-- Modelled from the spec: `Motion.IsProposal` is not among the sources; the
motion's type is proposal. -/
def Motion.IsProposal (m : Motion) : Bool :=
  decide (m.Type_ = .proposal)

end schema

/-- Modelled from the spec: `MotionPolicyNS` is not among the sources; "each
motion owns policy state stored in a motion-specific namespace",
`motion/<motion-id>/policy/`. -/
def policy.MotionPolicyNS (id : schema.MotionID) : ns.NS :=
  ["motion", id, "policy"]

/-- Modelled from the spec: the constant is not among the sources; the file of
a namespace that holds the policy state. -/
def policy.StateFilebase : String := "state.json"

namespace motionapi

/-- Modelled from the spec: `LookupMotion_Local` is not among the sources; the
motion record stored under the id, a not-exist panic when there is none. -/
def LookupMotion_Local (cloned : gov.Cloned) (id : schema.MotionID) : Except Err schema.Motion :=
  match cloned.Tree.files (schema.MotionNS.Append id) with
  | some (.motion m) => .ok m
  | _ => .error (.notExist (String.intercalate "/" (schema.MotionNS.Append id)))

/-- Modelled from the spec: `LoadPolicyState_Local` is not among the sources, at
the type of proposal states; the state stored in the policy namespace of the
motion, a not-exist panic when there is none. -/
def LoadPolicyState_Local (cloned : gov.Cloned) (id : schema.MotionID) :
    Except Err pmp_0.ProposalState :=
  match cloned.Tree.files ((policy.MotionPolicyNS id).Append policy.StateFilebase) with
  | some (.proposalState st) => .ok st
  | _ => .error (.notExist
      (String.intercalate "/" ((policy.MotionPolicyNS id).Append policy.StateFilebase)))

end motionapi

namespace pmp_0

/-- Modelled from the spec: the constant is not among the sources; the
reference type `Claims`. -/
def ClaimsRefType : schema.RefType := "claims"

/-- The function `IsConcernProposalEligible`. -/
def IsConcernProposalEligible (cloned : gov.Cloned) (conID propID : schema.MotionID)
    (refType : schema.RefType) : Except Err Bool :=
  if refType ≠ ClaimsRefType then
    .ok false
  else
    match motionapi.LookupMotion_Local cloned conID with
    | .error e => .error e
    | .ok con =>
      match motionapi.LookupMotion_Local cloned propID with
      | .error e => .error e
      | .ok prop =>
        if !con.IsConcern then
          .ok false
        else if !prop.IsProposal then
          .ok false
        else if con.Closed then
          .ok false
        else if prop.Closed then
          .ok false
        else
          match motionapi.LoadPolicyState_Local cloned prop.ID with
          | .error e => .error e
          | .ok propState => .ok (decide (propState.LatestApprovalScore > 0))

end pmp_0

/-! ## Policies and the concern policy (`proto/docket/policy`, `proto/docket/policies/pmp/concern`) -/

abbrev notice.Notices := List String

abbrev policy.Report := Option String

/-- The clone with the staged tree of its public repository replaced. -/
def gov.OwnerCloned.withTree (c : gov.OwnerCloned) (t : Tree) : gov.OwnerCloned :=
  { Public := { Address := c.Public.Address, Tree := t, Head := c.Public.Head } }

/-- The method `OwnerCloned.PublicClone`. -/
def gov.OwnerCloned.PublicClone (c : gov.OwnerCloned) : gov.Cloned :=
  c.Public

/-- The address `gov.OwnerAddress` of a governance: its public and its private
repository. -/
structure gov.OwnerAddress where
  Public : gov.Address
  Private : gov.Address
  deriving DecidableEq, Repr

/-- The handlers of the interface `policy.Policy` that the motion operations
dispatch to: `Open`, `Freeze` and `Unfreeze`, each given the clone, the motion
and the policy namespace of the motion. `OpenMotion_StageOnly` passes the owner
address to `Open` as well. -/
structure policy.Policy where
  Open : gov.OwnerAddress → gov.OwnerCloned → schema.Motion → ns.NS →
    gov.OwnerCloned × Except Err (policy.Report × notice.Notices)
  Freeze : gov.OwnerCloned → schema.Motion → ns.NS →
    gov.OwnerCloned × Except Err (policy.Report × notice.Notices)
  Unfreeze : gov.OwnerCloned → schema.Motion → ns.NS →
    gov.OwnerCloned × Except Err (policy.Report × notice.Notices)

/-- The registry of policies, installed under their names at process start. -/
abbrev policy.Registry := schema.PolicyName → Option policy.Policy

/-- Modelled from the spec: `policy.Get` is not among the sources; policies are
"looked up by the name stored on each motion", a panic when none is registered
under the name. -/
def policy.Get (reg : policy.Registry) (name : schema.PolicyName) : Except Err policy.Policy :=
  match reg name with
  | some pcy => .ok pcy
  | none => .error (.failed ("policy not supported: " ++ name))

namespace schema

/-- The error `ErrMotionAlreadyExists`. -/
def ErrMotionAlreadyExists : Err := .failed "motion already exists"

/-- The method `MotionKV.Get`: the motion record stored under the id, a
not-exist panic when there is none. -/
def MotionKV.Get (t : Tree) (id : MotionID) : Except Err Motion :=
  match t.files (MotionNS.Append id) with
  | some (.motion m) => .ok m
  | _ => .error (.notExist (String.intercalate "/" (MotionNS.Append id)))

/-- The method `MotionKV.Set`. -/
def MotionKV.Set (t : Tree) (id : MotionID) (m : Motion) : Tree :=
  git.ToFileStage t (MotionNS.Append id) (.motion m)

/-- The key of the order of references: type, then `From`, then `To`. -/
def Ref.key (r : Ref) : Lex (String × Lex (String × String)) :=
  toLex (r.Type_, toLex (r.From, r.To))

end schema

/-- Modelled from the spec: the order of `Refs.Sort` is not among the sources;
references are compared by type, then by `From`, then by `To`. -/
instance schema.Ref.linearOrder : LinearOrder schema.Ref :=
  LinearOrder.lift' schema.Ref.key (by
    intro a b h
    cases a
    cases b
    simp only [schema.Ref.key, EmbeddingLike.apply_eq_iff_eq, Prod.mk.injEq] at h
    obtain ⟨h1, h2, h3⟩ := h
    subst h1 h2 h3
    rfl)

namespace schema

/-- Modelled from the spec: `Refs.RefSet` is not among the sources; the set of
the references of the list, each once. -/
def Refs.RefSet (x : Refs) : List Ref :=
  x.dedup

/-- Modelled from the spec: `Refs.Sort` is not among the sources; the list in
sorted order. -/
def Refs.Sort (x : Refs) : Refs :=
  x.insertionSort (fun r p => r ≤ p)

/-- Modelled from the spec: `Refs.Len` is not among the sources. -/
def Refs.Len (x : Refs) : Nat :=
  x.length

/-- Modelled from the spec: `Refs.Contains` is not among the sources; whether
the reference is in the list. -/
def Refs.Contains (x : Refs) (ref : Ref) : Bool :=
  decide (ref ∈ x)

/-- Modelled from the spec: `Refs.Remove` is not among the sources; the list
without the reference. -/
def Refs.Remove (x : Refs) (ref : Ref) : Refs :=
  x.filter (fun r => decide (r ≠ ref))

end schema

/-- Modelled from the spec: `notice.Noticef` is not among the sources; the
notices made of the one formatted message. -/
def notice.Noticef (msg : String) : notice.Notices :=
  [msg]

/-- Modelled from the spec: the constant is not among the sources; the group of
all members, named `everybody` in the scenarios. -/
def member.Everybody : member.Group := "everybody"

/-- Modelled from the spec: the package `load` is not among the sources; the
name of the quadratic-voting strategy. -/
def load.QVStrategyName : String := "qv"

/-- Modelled from the spec: the package `load` is not among the sources; the
quadratic-voting strategy that `Open_StageOnly` is given by its name. -/
def load.QVStrategy : common.Strategy :=
  { Name := load.QVStrategyName, Params := "" }

namespace pmp

/-- Modelled from the spec: the constant is not among the sources; the single
choice of a priority poll. -/
def ConcernBallotChoice : String := "rank"

/-- Modelled from the spec: `ConcernPollBallotName` is not among the sources;
the scenarios name the priority poll of concern `C1` as `pp/C1`. -/
def ConcernPollBallotName (id : schema.MotionID) : common.BallotName :=
  "pp/" ++ id

/-- Modelled from the spec: the constant is not among the sources; the
reference type `Resolves`. -/
def ResolvesRefType : schema.RefType := "resolves"

end pmp

namespace ballot

open common

/-- Modelled from the spec: `IsFrozen_Local` is not among the sources; the
`frozen` flag of the advertisement of the ballot, a not-exist panic when the
ballot has none. -/
def IsFrozen_Local (cloned : gov.Cloned) (name : BallotName) : Except Err Bool :=
  match cloned.Tree.files ((BallotPath name).Append AdFilebase) with
  | some (.ad ad) => .ok ad.Frozen
  | _ => .error (.notExist (String.intercalate "/" ((BallotPath name).Append AdFilebase)))

/-- Modelled from the spec: `Freeze_StageOnly` is not among the sources; it
"sets the `frozen` flag on the Ad". The change record it returns is not
modelled. -/
def Freeze_StageOnly (govCloned : gov.OwnerCloned) (name : BallotName) :
    gov.OwnerCloned × Except Err Unit :=
  match govCloned.Public.Tree.files ((BallotPath name).Append AdFilebase) with
  | some (.ad ad) =>
    (govCloned.withTree (git.ToFileStage govCloned.Public.Tree
      ((BallotPath name).Append AdFilebase) (.ad { ad with Frozen := true })), .ok ())
  | _ => (govCloned,
      .error (.notExist (String.intercalate "/" ((BallotPath name).Append AdFilebase))))

/-- Modelled from the spec: `Unfreeze_StageOnly` is not among the sources; it
"clears the `frozen` flag on the Ad". The change record it returns is not
modelled. -/
def Unfreeze_StageOnly (govCloned : gov.OwnerCloned) (name : BallotName) :
    gov.OwnerCloned × Except Err Unit :=
  match govCloned.Public.Tree.files ((BallotPath name).Append AdFilebase) with
  | some (.ad ad) =>
    (govCloned.withTree (git.ToFileStage govCloned.Public.Tree
      ((BallotPath name).Append AdFilebase) (.ad { ad with Frozen := false })), .ok ())
  | _ => (govCloned,
      .error (.notExist (String.intercalate "/" ((BallotPath name).Append AdFilebase))))

end ballot

namespace ops

/-- Modelled from the spec: `IsMotion_Local` is not among the sources; whether a
motion is stored under the id. -/
def IsMotion_Local (t : Tree) (id : schema.MotionID) : Bool :=
  match schema.MotionKV.Get t id with
  | .ok _ => true
  | .error _ => false

/-- Modelled from the spec: `FreezeMotion_StageOnly` is not among the sources;
it sets the `frozen` flag of the stored motion and then calls the `Freeze`
handler of the policy of the motion ("motion.Un/Freeze --calls--> policy
Un/Freeze --calls--> ballot Un/Freeze"). The change record is not modelled. -/
def FreezeMotion_StageOnly (reg : policy.Registry) (cloned : gov.OwnerCloned)
    (id : schema.MotionID) : gov.OwnerCloned × Except Err Unit :=
  match schema.MotionKV.Get cloned.Public.Tree id with
  | .error e => (cloned, .error e)
  | .ok motion =>
    let motion1 := { motion with Frozen := true }
    let c1 := cloned.withTree (schema.MotionKV.Set cloned.Public.Tree id motion1)
    match policy.Get reg motion1.Policy with
    | .error e => (c1, .error e)
    | .ok pcy =>
      match pcy.Freeze c1 motion1 (policy.MotionPolicyNS id) with
      | (c2, .error e) => (c2, .error e)
      | (c2, .ok _) => (c2, .ok ())

/-- Modelled from the spec: `UnfreezeMotion_StageOnly` is not among the sources;
it clears the `frozen` flag of the stored motion and then calls the `Unfreeze`
handler of the policy of the motion. The change record is not modelled. -/
def UnfreezeMotion_StageOnly (reg : policy.Registry) (cloned : gov.OwnerCloned)
    (id : schema.MotionID) : gov.OwnerCloned × Except Err Unit :=
  match schema.MotionKV.Get cloned.Public.Tree id with
  | .error e => (cloned, .error e)
  | .ok motion =>
    let motion1 := { motion with Frozen := false }
    let c1 := cloned.withTree (schema.MotionKV.Set cloned.Public.Tree id motion1)
    match policy.Get reg motion1.Policy with
    | .error e => (c1, .error e)
    | .ok pcy =>
      match pcy.Unfreeze c1 motion1 (policy.MotionPolicyNS id) with
      | (c2, .error e) => (c2, .error e)
      | (c2, .ok _) => (c2, .ok ())

end ops

namespace concern

/-- The constant `ConcernPolicyName`. -/
def ConcernPolicyName : schema.PolicyName := "pmp-concern-policy"

/-- Modelled from the spec: `NewConcernState` is not among the sources; the
state of a freshly opened concern names its priority poll and has no eligible
proposals. -/
def NewConcernState (id : schema.MotionID) : ConcernState :=
  { PriorityPoll := pmp.ConcernPollBallotName id, EligibleProposals := [] }

/-- Modelled from the spec: `LoadState_Local` is not among the sources; the
concern state stored in the policy namespace, a not-exist panic when there is
none. -/
def LoadState_Local (t : Tree) (policyNS : ns.NS) : Except Err ConcernState :=
  match t.files (policyNS.Append policy.StateFilebase) with
  | some (.concernState st) => .ok st
  | _ => .error (.notExist (String.intercalate "/" (policyNS.Append policy.StateFilebase)))

/-- Modelled from the spec: `SaveState_StageOnly` is not among the sources; it
stages the concern state in the policy namespace. -/
def SaveState_StageOnly (t : Tree) (policyNS : ns.NS) (st : ConcernState) : Tree :=
  git.ToFileStage t (policyNS.Append policy.StateFilebase) (.concernState st)

/-- Modelled from the spec: `IsProposalEligible` is not among the sources; a
proposal is eligible when "the proposal's policy state reports a positive
approval score". -/
def IsProposalEligible (cloned : gov.Cloned) (proposalID : schema.MotionID) : Except Err Bool :=
  match motionapi.LoadPolicyState_Local cloned proposalID with
  | .error e => .error e
  | .ok propState => .ok (decide (propState.LatestApprovalScore > 0))

/-- The method `concernPolicy.Open`. -/
def concernPolicy.Open (cloned : gov.OwnerCloned) (motion : schema.Motion) (policyNS : ns.NS) :
    gov.OwnerCloned × Except Err (policy.Report × notice.Notices) :=
  -- initialize state
  let state := NewConcernState motion.ID
  let c1 := cloned.withTree (SaveState_StageOnly cloned.Public.Tree policyNS state)
  -- open a poll for the motion
  match ballot.Open_StageOnly load.QVStrategy c1 state.PriorityPoll
      ("Prioritization poll for motion " ++ motion.ID)
      ("Up/down vote the priority for concern (issue) " ++ motion.ID)
      [pmp.ConcernBallotChoice] member.Everybody with
  | (c2, .error e) => (c2, .error e)
  | (c2, .ok _) =>
    (c2, .ok (none, notice.Noticef
      ("Started managing this issue as Gov4Git concern `" ++ motion.ID ++ "`.")))

/-- The method `concernPolicy.Freeze`. -/
def concernPolicy.Freeze (cloned : gov.OwnerCloned) (motion : schema.Motion) (_policyNS : ns.NS) :
    gov.OwnerCloned × Except Err (policy.Report × notice.Notices) :=
  -- freeze priority poll, if not already frozen
  let priorityPoll := pmp.ConcernPollBallotName motion.ID
  match ballot.IsFrozen_Local cloned.PublicClone priorityPoll with
  | .error e => (cloned, .error e)
  | .ok true => (cloned, .ok (none, []))
  | .ok false =>
    match ballot.Freeze_StageOnly cloned priorityPoll with
    | (c1, .error e) => (c1, .error e)
    | (c1, .ok _) =>
      (c1, .ok (none, notice.Noticef
        ("This issue, managed by Gov4Git concern `" ++ motion.ID ++ "`, has been frozen ❄️")))

/-- The method `concernPolicy.Unfreeze`. -/
def concernPolicy.Unfreeze (cloned : gov.OwnerCloned) (motion : schema.Motion) (_policyNS : ns.NS) :
    gov.OwnerCloned × Except Err (policy.Report × notice.Notices) :=
  -- unfreeze the priority poll ballot, if frozen
  let priorityPoll := pmp.ConcernPollBallotName motion.ID
  match ballot.IsFrozen_Local cloned.PublicClone priorityPoll with
  | .error e => (cloned, .error e)
  | .ok false => (cloned, .ok (none, []))
  | .ok true =>
    match ballot.Unfreeze_StageOnly cloned priorityPoll with
    | (c1, .error e) => (c1, .error e)
    | (c1, .ok _) =>
      (c1, .ok (none, notice.Noticef
        ("This issue, managed by Gov4Git concern `" ++ motion.ID ++ "`, has been unfrozen 🌤️")))

/-- The method `concernPolicy.updateFreeze`: two conditionals in sequence, both
on the state loaded at entry and on the motion record passed in. -/
def concernPolicy.updateFreeze (reg : policy.Registry) (cloned : gov.OwnerCloned)
    (motion : schema.Motion) (policyNS : ns.NS) :
    gov.OwnerCloned × Except Err (policy.Report × notice.Notices) :=
  match LoadState_Local cloned.Public.Tree policyNS with
  | .error e => (cloned, .error e)
  | .ok toState =>
    let notices : notice.Notices := []
    let r1 : gov.OwnerCloned × Except Err notice.Notices :=
      if decide (toState.EligibleProposals.Len > 0) && !motion.Frozen then
        match ops.FreezeMotion_StageOnly reg cloned motion.ID with
        | (c1, .error e) => (c1, .error e)
        | (c1, .ok _) =>
          (c1, .ok (notices ++ notice.Noticef
            "Freezing ❄️ issue as there are eligible PRs addressing it."))
      else
        (cloned, .ok notices)
    match r1 with
    | (c1, .error e) => (c1, .error e)
    | (c1, .ok notices1) =>
      if decide (toState.EligibleProposals.Len = 0) && motion.Frozen then
        match ops.UnfreezeMotion_StageOnly reg c1 motion.ID with
        | (c2, .error e) => (c2, .error e)
        | (c2, .ok _) =>
          (c2, .ok (none, notices1 ++ notice.Noticef
            "Unfreezing 🌤️ issue as there are no eligible PRs are addressing it."))
      else
        (c1, .ok (none, notices1))

/-- The loop of `concernPolicy.Update` over the set of references: the
references whose `From` proposal is eligible, a panic of `IsProposalEligible`
ending the loop. -/
def concernPolicy.Update.eligible (cloned : gov.Cloned) : List schema.Ref → Except Err schema.Refs
  | [] => .ok []
  | ref :: rest =>
    match IsProposalEligible cloned ref.From with
    | .error e => .error e
    | .ok b =>
      match concernPolicy.Update.eligible cloned rest with
      | .error e => .error e
      | .ok l => .ok (if b then ref :: l else l)

/-- The state that `concernPolicy.Update` saves, up to the call of
`SaveState_StageOnly`. -/
def concernPolicy.Update.state (cloned : gov.OwnerCloned) (motion : schema.Motion)
    (policyNS : ns.NS) : Except Err ConcernState :=
  match LoadState_Local cloned.Public.Tree policyNS with
  | .error e => .error e
  | .ok state =>
    match concernPolicy.Update.eligible cloned.PublicClone state.EligibleProposals.RefSet with
    | .error e => .error e
    | .ok eligible =>
      .ok { PriorityPoll := pmp.ConcernPollBallotName motion.ID,
            EligibleProposals := schema.Refs.Sort eligible }

/-- The method `concernPolicy.Update`. -/
def concernPolicy.Update (reg : policy.Registry) (cloned : gov.OwnerCloned)
    (motion : schema.Motion) (policyNS : ns.NS) :
    gov.OwnerCloned × Except Err (policy.Report × notice.Notices) :=
  -- update eligible proposals
  match concernPolicy.Update.state cloned motion policyNS with
  | .error e => (cloned, .error e)
  | .ok state =>
    let c1 := cloned.withTree (SaveState_StageOnly cloned.Public.Tree policyNS state)
    concernPolicy.updateFreeze reg c1 motion policyNS

/-- The method `concernPolicy.AddRefFrom`. -/
def concernPolicy.AddRefFrom (cloned : gov.OwnerCloned) (refType : schema.RefType)
    (from_ to_ : schema.Motion) (_fromPolicyNS toPolicyNS : ns.NS) :
    gov.OwnerCloned × Except Err (policy.Report × notice.Notices) :=
  if refType ≠ pmp.ResolvesRefType then
    (cloned, .ok (none, []))
  else
    match IsProposalEligible cloned.PublicClone from_.ID with
    | .error e => (cloned, .error e)
    | .ok false => (cloned, .ok (none, []))
    | .ok true =>
      match LoadState_Local cloned.Public.Tree toPolicyNS with
      | .error e => (cloned, .error e)
      | .ok toState =>
        let ref : schema.Ref := { Type_ := refType, From := from_.ID, To := to_.ID }
        if toState.EligibleProposals.Contains ref then
          (cloned, .ok (none, []))
        else
          let toState1 : ConcernState :=
            { PriorityPoll := toState.PriorityPoll,
              EligibleProposals := toState.EligibleProposals ++ [ref] }
          (cloned.withTree (SaveState_StageOnly cloned.Public.Tree toPolicyNS toState1),
            .ok (none, notice.Noticef
              ("This issue has been referenced by an eligible PR, managed as Gov4Git proposal `"
                ++ from_.ID ++ "`.")))

/-- The method `concernPolicy.RemoveRefFrom`. -/
def concernPolicy.RemoveRefFrom (cloned : gov.OwnerCloned) (refType : schema.RefType)
    (from_ to_ : schema.Motion) (_fromPolicyNS toPolicyNS : ns.NS) :
    gov.OwnerCloned × Except Err (policy.Report × notice.Notices) :=
  match LoadState_Local cloned.Public.Tree toPolicyNS with
  | .error e => (cloned, .error e)
  | .ok toState =>
    let ref : schema.Ref := { Type_ := refType, From := from_.ID, To := to_.ID }
    if !toState.EligibleProposals.Contains ref then
      (cloned, .ok (none, []))
    else
      let toState1 : ConcernState :=
        { PriorityPoll := toState.PriorityPoll,
          EligibleProposals := toState.EligibleProposals.Remove ref }
      (cloned.withTree (SaveState_StageOnly cloned.Public.Tree toPolicyNS toState1),
        .ok (none, notice.Noticef
          ("This issue is no longer referenced by the PR, managed as Gov4Git proposal `"
            ++ from_.ID ++ "`.")))

/-- The value `concernPolicy` as the policy installed under `ConcernPolicyName`. -/
def concernPolicy : policy.Policy :=
  { Open := fun _ cloned motion policyNS => concernPolicy.Open cloned motion policyNS,
    Freeze := concernPolicy.Freeze,
    Unfreeze := concernPolicy.Unfreeze }

end concern

/-- A Go slice of strings: a window, given by its offset and its length, of a
backing array, which is named by its identity. Slices of one array share its
elements. -/
structure slices.Slice where
  array : Nat
  off : Nat
  len : Nat
  deriving DecidableEq, Repr

/-- The backing arrays of the program, by identity: the array of identity `i`
is the element `i` of the list, and a new array takes the next identity. -/
structure slices.Heap where
  arrays : List (List String)
  deriving DecidableEq, Repr

/-- The elements of a slice, in order. -/
def slices.Heap.elems (m : slices.Heap) (s : slices.Slice) : List String :=
  ((m.arrays.getD s.array []).drop s.off).take s.len

/-- The function `slices.Clone`: a slice of a new backing array, which holds a
copy of the elements of the given slice. -/
def slices.Clone (m : slices.Heap) (s : slices.Slice) : slices.Heap × slices.Slice :=
  ({ arrays := m.arrays ++ [m.elems s] },
    { array := m.arrays.length, off := 0, len := (m.elems s).length })

/-- The function `slices.Sort`: puts the elements of the slice in ascending
order, in place: it writes them to the backing array of the slice. -/
def slices.Sort (m : slices.Heap) (s : slices.Slice) : slices.Heap :=
  { arrays := m.arrays.set s.array
      ((m.arrays.getD s.array []).take s.off ++
        (m.elems s).insertionSort (fun a b => a ≤ b) ++
        (m.arrays.getD s.array []).drop (s.off + s.len)) }

namespace ops

/-- The function `OpenMotion_StageOnly`; `now` is the reading of the clock,
`heap` holds the backing arrays at the call and `labels` is the slice the
caller passes. The result is the backing arrays after the call, the clone and
the outcome. The motion record that is stored, and that the policy is given,
holds the elements of its label slice. -/
def OpenMotion_StageOnly (reg : policy.Registry) (now : Nat) (addr : gov.OwnerAddress)
    (cloned : gov.OwnerCloned) (id : schema.MotionID) (policyName : schema.PolicyName)
    (title desc : String) (typ : schema.MotionType) (trackerURL : String)
    (heap : slices.Heap) (labels : slices.Slice) :
    slices.Heap × (gov.OwnerCloned × Except Err (git.Change Unit)) :=
  let t := cloned.Public.Tree
  let cl := slices.Clone heap labels
  let labels := cl.2
  let heap := slices.Sort cl.1 labels
  if IsMotion_Local t id then
    (heap, (cloned, .error schema.ErrMotionAlreadyExists))
  else
    let motion : schema.Motion :=
      { OpenedAt := now, ID := id, Type_ := typ, Policy := policyName,
        TrackerURL := trackerURL, Title := title, Body := desc, Labels := heap.elems labels,
        Closed := false, Frozen := false }
    let c1 := cloned.withTree (schema.MotionKV.Set t id motion)
    -- apply policy
    match policy.Get reg policyName with
    | .error e => (heap, (c1, .error e))
    | .ok pcy =>
      match pcy.Open addr c1 motion (policy.MotionPolicyNS id) with
      | (c2, .error e) => (heap, (c2, .error e))
      | (c2, .ok _) =>
        (heap, (c2, .ok { Msg := "Open motion " ++ id, Op := "docket_open_motion",
                          Args := [], Result := () }))

end ops

/-! ## Identity, mail and members of the `mod` packages (`mod/id`, `mod/mail`, `mod/member`) -/

namespace mod

abbrev id.PublicAddress := String

/-- Modelled from the spec: the declaration is not among the sources; the public
half of a keypair, written to the public repository. -/
structure id.PublicCredentials where
  PublicKey : String
  deriving DecidableEq, Repr

/-- Modelled from the spec: the declaration is not among the sources; the
private half of a keypair, with the public half it belongs to. -/
structure id.PrivateCredentials where
  PrivateKey : String
  PublicCredentials : id.PublicCredentials
  deriving DecidableEq, Repr

/-- Modelled from the spec: the declaration of `member.Account` is not among the
sources; `fetchVotes` reads its `Home`, the address of the user's public
repository. -/
structure member.Account where
  Home : id.PublicAddress
  deriving DecidableEq, Repr

/-- Modelled from the spec: the declaration of `Advertisement` in `mod/ballot` is
not among the sources; the advertisement of the data model, with its choices,
participant group and frozen, closed and cancelled flags. -/
abbrev ballot.Advertisement := common.Advertisement

/-- Modelled from the spec: the declaration of `TallyForm` is not among the
sources; the tally of the data model. -/
abbrev ballot.TallyForm := common.Tally

/-- Modelled from the spec: the declaration of `Election` is not among the
sources; "one (choice, strength) pair within a vote envelope". -/
structure ballot.Election where
  VoteChoice : String
  VoteStrengthChange : Int
  deriving DecidableEq, Repr

/-- The struct `VoteEnvelope`, with the fields `VoteStageOnly` fills. -/
structure ballot.VoteEnvelope where
  AdCommit : git.CommitHash
  Ad : ballot.Advertisement
  Elections : List ballot.Election
  deriving DecidableEq, Repr

/-- The struct `FetchedVote`, with the fields `fetchVotes` fills. -/
structure ballot.FetchedVote where
  Voter : member.User
  Address : id.PublicAddress
  Elections : List ballot.Election
  deriving DecidableEq, Repr

abbrev mail.SeqNo := Nat

/-- Modelled from the spec: the declaration is not among the sources; an
envelope of a mail stream "carries: sequence number, topic, serialized payload,
signature". The signature is symbolic: it names the public key under which it
verifies. -/
structure mail.SignedEnvelope where
  SeqNo : mail.SeqNo
  Topic : String
  Payload : ballot.VoteEnvelope
  Signature : id.PublicCredentials
  deriving DecidableEq, Repr

/-- The struct `git.Change` of the `mod` packages: a result and a message. -/
structure git.Change (R : Type) where
  Result : R
  Msg : String
  deriving DecidableEq, Repr

/-- The staged working tree of a repository of the `mod` packages, typed by
namespace. -/
structure Tree where
  /-- The advertisement files, by path. -/
  ads : ns.NS → Option ballot.Advertisement
  /-- The tally files, by path. -/
  tallies : ns.NS → Option ballot.TallyForm
  /-- The member groups with their users. -/
  groups : member.Group → Option (List member.User)
  /-- The user accounts. -/
  users : member.User → Option member.Account
  /-- The public credentials of the owner, `identity/public.json`. -/
  identity : Option id.PublicCredentials
  /-- The outgoing mail streams, `mail/<receiver>/<topic>/<seq>.json`. -/
  outbox : String → String → List mail.SignedEnvelope
  /-- The last-consumed sequence number of each incoming stream, by sender
  address and topic. -/
  consumed : id.PublicAddress → String → mail.SeqNo
  /-- The rejection entries of each incoming stream, by sequence number. -/
  rejected : id.PublicAddress → String → mail.SeqNo → Option String
  /-- The other aspects of the repository that tallying can change, like user
  balances. -/
  balances : member.User → Int

/-- The tree with no file. -/
def Tree.empty : Tree :=
  { ads := fun _ => none, tallies := fun _ => none, groups := fun _ => none,
    users := fun _ => none, identity := none, outbox := fun _ _ => [],
    consumed := fun _ _ => 0, rejected := fun _ _ _ => none, balances := fun _ => 0 }

/-- The pair `id.OwnerTree` of an owner's public tree and private credentials. -/
structure id.OwnerTree where
  Public : Tree
  Private : Option id.PrivateCredentials

/-- A cloned repository `git.Repository`: its working tree and the commit its
head points to, if it has one. -/
structure git.Repository where
  Worktree : Tree
  Head : Option Gov4Git.git.CommitHash

/-- The function `git.Head` of the `mod` packages: panics on a repository
without a head commit. -/
def git.Head (r : git.Repository) : Except Err Gov4Git.git.CommitHash :=
  match r.Head with
  | some h => .ok h
  | none => .error (.failed "reference not found")

namespace mail

/-- Modelled from the spec: `SendSignedStageOnly` is not among the sources; it
"appends a signed envelope to sender's stream" for the receiver and the topic
and returns its sequence number. It panics when the receiver has no public
credentials or the sender no private ones. -/
def SendSignedStageOnly (senderTree : id.OwnerTree) (receiverTree : Tree) (topic : String)
    (payload : ballot.VoteEnvelope) : id.OwnerTree × Except Err (git.Change SeqNo) :=
  match receiverTree.identity with
  | none => (senderTree, .error (.notExist "identity/public.json"))
  | some receiver =>
    match senderTree.Private with
    | none => (senderTree, .error (.notExist "identity/private.json"))
    | some priv =>
      let seqNo := (senderTree.Public.outbox receiver.PublicKey topic).length
      let envelope : SignedEnvelope :=
        { SeqNo := seqNo, Topic := topic, Payload := payload,
          Signature := priv.PublicCredentials }
      let pub : Tree :=
        { senderTree.Public with
          outbox := fun r t =>
            if r = receiver.PublicKey ∧ t = topic then
              senderTree.Public.outbox receiver.PublicKey topic ++ [envelope]
            else senderTree.Public.outbox r t }
      ({ senderTree with Public := pub }, .ok { Result := seqNo, Msg := "Sent signed mail" })

/-- The outcome of reading a stream: the next unread sequence number, the state
of the responder, the request and response pairs, and the rejection entry of
the message the reading stopped at, if it did. -/
structure Received (σ : Type) where
  Next : SeqNo
  State : σ
  Responses : List (ballot.VoteEnvelope × ballot.VoteEnvelope)
  Rejected : Option (SeqNo × String)

/-- Modelled from the spec: the loop of `ReceiveSignedStageOnly`, which is not
among the sources; it "verifies signatures, invokes `respond` for each" unread
envelope in order, and a failure yields "a rejection entry without advancing the
stream consumer past the failing message". -/
def receiveUnread {σ : Type} (sender : Option id.PublicCredentials)
    (respond : σ → ballot.VoteEnvelope → σ × Except Err ballot.VoteEnvelope) :
    List SignedEnvelope → SeqNo → σ → List (ballot.VoteEnvelope × ballot.VoteEnvelope) →
      Received σ
  | [], next, st, rr => { Next := next, State := st, Responses := rr, Rejected := none }
  | e :: unread, next, st, rr =>
    if sender ≠ some e.Signature then
      { Next := next, State := st, Responses := rr, Rejected := some (next, "signature") }
    else
      match respond st e.Payload with
      | (st1, .error _) =>
        { Next := next, State := st1, Responses := rr, Rejected := some (next, "rejected") }
      | (st1, .ok resp) => receiveUnread sender respond unread (next + 1) st1 (rr ++ [(e.Payload, resp)])

/-- Modelled from the spec: `ReceiveSignedStageOnly` is not among the sources; it
"pulls unread envelopes" of the sender's stream for the topic, past the
last-consumed sequence number tracked in the receiver's tree, and stages the new
last-consumed number and the rejection entry. The responder threads its state.
It panics when the receiver has no public credentials. -/
def ReceiveSignedStageOnly {σ : Type} (receiver : Tree) (senderAddr : id.PublicAddress)
    (sender : Tree) (topic : String)
    (respond : σ → ballot.VoteEnvelope → σ × Except Err ballot.VoteEnvelope) (st : σ) :
    Tree × Except Err (σ × List (ballot.VoteEnvelope × ballot.VoteEnvelope)) :=
  match receiver.identity with
  | none => (receiver, .error (.notExist "identity/public.json"))
  | some me =>
    let next := receiver.consumed senderAddr topic
    let unread := (sender.outbox me.PublicKey topic).drop next
    let r := receiveUnread sender.identity respond unread next st []
    let receiver1 : Tree :=
      { receiver with
        consumed := fun a t =>
          if a = senderAddr ∧ t = topic then r.Next else receiver.consumed a t,
        rejected := fun a t n =>
          match r.Rejected with
          | some (seqNo, reason) =>
            if a = senderAddr ∧ t = topic ∧ n = seqNo then some reason
            else receiver.rejected a t n
          | none => receiver.rejected a t n }
    (receiver1, .ok (r.State, r.Responses))

end mail

/-! ## Voting and tallying (`mod/ballot/vote.go`, `mod/ballot/tally.go`) -/

namespace ballot

/-- The interface `Strategy`: its name and its `Tally`, which is given the
advertisement, the current tally, if there is one, and the fetched votes, and
returns the updated tally or panics. "Tallying can change other aspects of the
repo, like user balances": it is given those and returns them changed. -/
structure Strategy where
  StrategyName : String
  Tally : (member.User → Int) → Advertisement → Option TallyForm → List FetchedVote →
    (member.User → Int) × Except Err TallyForm

/-- Modelled from the spec: `OpenBallotNS` is not among the sources; the layout
puts a ballot under `ballot/<ballot-id>/`. -/
def OpenBallotNS (ballotName : ns.NS) : ns.NS :=
  ["ballot"] ++ ballotName

/-- Modelled from the spec: the constant is not among the sources; the layout
names the file `ad.json`. -/
def adFilebase : String := "ad.json"

/-- Modelled from the spec: the constant is not among the sources; the layout
names the file `tally.json`. -/
def tallyFilebase : String := "tally.json"

/-- Modelled from the spec: `BallotTopic` is not among the sources; votes are
sent "on topic `ballot/<id>`". -/
def BallotTopic (ballotName : ns.NS) : String :=
  String.intercalate "/" (["ballot"] ++ ballotName)

/-- The function `stringIsIn`. -/
def stringIsIn (s : String) : List String → Bool
  | [] => false
  | x :: rest => if s = x then true else stringIsIn s rest

/-- The loop of `verifyElections` over the elections. -/
def verifyElections.check (ad : Advertisement) : List Election → Except Err Unit
  | [] => .ok ()
  | e :: rest =>
    if !stringIsIn e.VoteChoice ad.Choices then
      .error (.failed ("election " ++ e.VoteChoice ++ " is not an available choice"))
    else verifyElections.check ad rest

/-- The function `verifyElections`; of its arguments it reads the advertisement
and the elections. -/
def verifyElections (ad : Advertisement) (elections : List Election) : Except Err Unit :=
  -- check elections use available choices
  if ad.Choices.length > 0 then verifyElections.check ad elections else .ok ()

/-- The function `VoteStageOnly`: the voter's tree after the call and the
outcome. -/
def VoteStageOnly (voterTree : id.OwnerTree) (govRepo : git.Repository) (ballotName : ns.NS)
    (elections : List Election) : id.OwnerTree × Except Err (git.Change mail.SeqNo) :=
  let govTree := govRepo.Worktree
  let openAdNS := (OpenBallotNS ballotName).Append adFilebase
  match govTree.ads openAdNS with
  | none => (voterTree, .error (.notExist (String.intercalate "/" openAdNS)))
  | some ad =>
    match verifyElections ad elections with
    | .error e => (voterTree, .error e)
    | .ok _ =>
      match git.Head govRepo with
      | .error e => (voterTree, .error e)
      | .ok head =>
        let envelope : VoteEnvelope := { AdCommit := head, Ad := ad, Elections := elections }
        mail.SendSignedStageOnly voterTree govTree (BallotTopic ballotName) envelope

/-- Modelled from the spec: `VoteEnvelope.VerifyConsistency` is not among the
sources; the elections of the envelope name choices of its advertisement, as
`verifyElections` checks them. -/
def VoteEnvelope.VerifyConsistency (x : VoteEnvelope) : Bool :=
  match verifyElections x.Ad x.Elections with
  | .ok _ => true
  | .error _ => false

/-- The responder closure of `fetchVotes`; the slice `fetched` it appends to is
its state. -/
def fetchVotes.respond (user : member.User) (account : member.Account)
    (fetched : List FetchedVote) (req : VoteEnvelope) :
    List FetchedVote × Except Err VoteEnvelope :=
  if !req.VerifyConsistency then
    (fetched, .error (.failed "vote envelope is not valid"))
  else
    (fetched ++ [{ Voter := user, Address := account.Home, Elections := req.Elections }],
      .ok req)

/-- The function `fetchVotes`: the government tree after the call and the fetched
votes. `git.Clone` of the user's home reads the public tree stored at that
address and panics when there is none. -/
def fetchVotes (world : id.PublicAddress → Option Tree) (govTree : Tree) (ballotName : ns.NS)
    (user : member.User) (account : member.Account) :
    Tree × Except Err (git.Change (List FetchedVote)) :=
  match world account.Home with
  | none => (govTree, .error (.notExist account.Home))
  | some voterPublicTree =>
    match mail.ReceiveSignedStageOnly govTree account.Home voterPublicTree
        (BallotTopic ballotName) (fetchVotes.respond user account) [] with
    | (govTree1, .error e) => (govTree1, .error e)
    | (govTree1, .ok (fetched, _)) =>
      (govTree1, .ok { Result := fetched,
                       Msg := "Fetched votes from user " ++ user ++ " on ballot " ++
                         String.intercalate "/" ballotName })

/-- The loop of `TallyStageOnly` that reads the account of every user. -/
def TallyStageOnly.accounts (communityTree : Tree) :
    List member.User → Except Err (List member.Account)
  | [] => .ok []
  | user :: rest =>
    match communityTree.users user with
    | none => .error (.notExist ("member/user/" ++ user))
    | some account =>
      match TallyStageOnly.accounts communityTree rest with
      | .error e => .error e
      | .ok accounts => .ok (account :: accounts)

/-- The loop of `TallyStageOnly` that fetches the votes of every user. -/
def TallyStageOnly.fetch (world : id.PublicAddress → Option Tree) (ballotName : ns.NS) :
    List (member.User × member.Account) → Tree → List FetchedVote →
      Tree × Except Err (List FetchedVote)
  | [], govTree, fetchedVotes => (govTree, .ok fetchedVotes)
  | (user, account) :: rest, govTree, fetchedVotes =>
    match fetchVotes world govTree ballotName user account with
    | (govTree1, .error e) => (govTree1, .error e)
    | (govTree1, .ok chg) =>
      TallyStageOnly.fetch world ballotName rest govTree1 (fetchedVotes ++ chg.Result)

/-- The function `TallyStageOnly`: the government tree after the call and the
outcome. The strategy is the type parameter `S` of the source. -/
def TallyStageOnly (s : Strategy) (world : id.PublicAddress → Option Tree) (govTree : Tree)
    (ballotName : ns.NS) : Tree × Except Err (git.Change TallyForm) :=
  let communityTree := govTree
  -- read ad
  let openAdNS := (OpenBallotNS ballotName).Append adFilebase
  match communityTree.ads openAdNS with
  | none => (govTree, .error (.notExist (String.intercalate "/" openAdNS)))
  | some ad =>
    -- list participating users
    match communityTree.groups ad.Participants with
    | none => (govTree, .error (.notExist ("member/group/" ++ ad.Participants)))
    | some users =>
      -- get user accounts
      match TallyStageOnly.accounts communityTree users with
      | .error e => (govTree, .error e)
      | .ok accounts =>
        -- fetch votes from users
        match TallyStageOnly.fetch world ballotName (users.zip accounts) govTree [] with
        | (govTree1, .error e) => (govTree1, .error e)
        | (govTree1, .ok fetchedVotes) =>
          -- read current tally
          let openTallyNS := (OpenBallotNS ballotName).Append tallyFilebase
          let currentTally := govTree1.tallies openTallyNS
          match s.Tally govTree1.balances ad currentTally fetchedVotes with
          | (balances, .error e) => ({ govTree1 with balances := balances }, .error e)
          | (balances, .ok updatedTally) =>
            -- write updated tally
            let govTree2 : Tree :=
              { govTree1 with
                balances := balances,
                tallies := fun q =>
                  if q = openTallyNS then some updatedTally else govTree1.tallies q }
            (govTree2, .ok { Result := updatedTally,
                             Msg := "Tally votes on ballot " ++
                               String.intercalate "/" ballotName })

end ballot

end mod

/-! ## Clone, commit and push (`gov.Clone`, `proto.Commit`, `Cloned.Push`) -/

/-- A commit of a repository: its hash and the first line of its message. The
trailing metadata of the message is not modelled. -/
structure git.Commit where
  Hash : git.CommitHash
  Msg : String
  deriving DecidableEq, Repr

/-- A repository: its committed tree and its log of commits, oldest first. -/
structure git.Repo (T : Type) where
  Tree : T
  Log : List git.Commit

/-- The commit the head of the repository points to, if it has one. -/
def git.Repo.Head {T : Type} (r : git.Repo T) : Option git.CommitHash :=
  r.Log.getLast?.map (fun c => c.Hash)

/-- An operation on a repository at an address, as the mutators perform them. -/
inductive git.Effect (A : Type) where
  | clone (addr : A)
  | commit (addr : A) (msg : String)
  | push (addr : A)
  deriving DecidableEq, Repr

/-- The repositories that a mutator works with: the remote ones by address, the
clones on the local disk by the address they were cloned from, and the
operations performed so far, oldest first. -/
structure git.World (A T : Type) where
  remotes : A → Option (git.Repo T)
  locals : A → Option (git.Repo T)
  trace : List (git.Effect A)

/-- Modelled from the spec: the clone of a repository is not among the sources;
it copies the remote repository to the local disk, a panic when there is none
at the address. -/
def git.World.clone {A T : Type} [DecidableEq A] (w : git.World A T) (addr : A) :
    git.World A T × Except Err (git.Repo T) :=
  match w.remotes addr with
  | none => ({ w with trace := w.trace ++ [.clone addr] }, .error (.failed "repository not found"))
  | some r =>
    ({ w with locals := fun a => if a = addr then some r else w.locals a,
              trace := w.trace ++ [.clone addr] }, .ok r)

/-- Modelled from the spec: the commit of a staged tree is not among the
sources; it adds one commit, with the given hash and message, to the clone on
the local disk, a panic when there is no clone. -/
def git.World.commit {A T : Type} [DecidableEq A] (w : git.World A T) (addr : A) (staged : T)
    (hash : git.CommitHash) (msg : String) : git.World A T × Except Err Unit :=
  match w.locals addr with
  | none => (w, .error (.failed "repository does not exist"))
  | some r =>
    ({ w with locals := fun a =>
                if a = addr then some { Tree := staged, Log := r.Log ++ [{ Hash := hash, Msg := msg }] }
                else w.locals a,
              trace := w.trace ++ [.commit addr msg] }, .ok ())

/-- Modelled from the spec: the push of a clone is not among the sources; it
makes the remote repository the clone on the local disk, a panic when either is
missing. -/
def git.World.push {A T : Type} [DecidableEq A] (w : git.World A T) (addr : A) :
    git.World A T × Except Err Unit :=
  match w.locals addr, w.remotes addr with
  | some l, some _ =>
    ({ w with remotes := fun a => if a = addr then some l else w.remotes a,
              trace := w.trace ++ [.push addr] }, .ok ())
  | _, _ => (w, .error (.failed "repository does not exist"))

/-- The clones of the given addresses, one after the other, whatever their
outcomes. -/
def git.World.cloneAll {A T : Type} [DecidableEq A] (w : git.World A T) : List A → git.World A T
  | [] => w
  | addr :: rest => git.World.cloneAll (w.clone addr).1 rest

/-- Modelled from the spec: `gov.Clone` is not among the sources; the clone of
the governance repository at the address. -/
def gov.Clone (w : git.World gov.Address Tree) (addr : gov.Address) :
    git.World gov.Address Tree × Except Err gov.Cloned :=
  match w.clone addr with
  | (w1, .error e) => (w1, .error e)
  | (w1, .ok r) => (w1, .ok { Address := addr, Tree := r.Tree, Head := r.Head })

/-- Modelled from the spec: `gov.CloneOwner` is not among the sources; the clone
of the public repository of the governance. The private repository of the
owner, which no mutator here commits or pushes, is not modelled. -/
def gov.CloneOwner (w : git.World gov.Address Tree) (addr : gov.OwnerAddress) :
    git.World gov.Address Tree × Except Err gov.OwnerCloned :=
  match gov.Clone w addr.Public with
  | (w1, .error e) => (w1, .error e)
  | (w1, .ok cloned) => (w1, .ok { Public := cloned })

/-- Modelled from the spec: `proto.Commitf` is not among the sources; it commits
the staged tree of the clone under the formatted message. -/
def proto.Commitf (w : git.World gov.Address Tree) (cloned : gov.Cloned) (hash : git.CommitHash)
    (_op : String) (msg : String) : git.World gov.Address Tree × Except Err Unit :=
  w.commit cloned.Address cloned.Tree hash msg

/-- Modelled from the spec: `proto.Commit` is not among the sources; it commits
the staged tree of the clone under the message of the change. -/
def proto.Commit {R : Type} (w : git.World gov.Address Tree) (cloned : gov.Cloned)
    (hash : git.CommitHash) (chg : git.Change R) : git.World gov.Address Tree × Except Err Unit :=
  w.commit cloned.Address cloned.Tree hash chg.Msg

/-- Modelled from the spec: the method `Cloned.Push` is not among the sources. -/
def gov.Cloned.Push (cloned : gov.Cloned) (w : git.World gov.Address Gov4Git.Tree) :
    git.World gov.Address Gov4Git.Tree × Except Err Unit :=
  w.push cloned.Address

/-- The clone with its staged tree replaced. -/
def gov.Cloned.withTree (c : gov.Cloned) (t : Gov4Git.Tree) : gov.Cloned :=
  { Address := c.Address, Tree := t, Head := c.Head }

/-- The rendering of a holding by the verb `%v` of Go. -/
def account.Holding.format (h : account.Holding) : String :=
  "\x7b" ++ h.Asset ++ " " ++ toString h.Quantity ++ "\x7d"

/-! ## Scoring motions (`proto/collab/scoremotions.go`) -/

namespace collab

abbrev MotionID := String

/-- Modelled from the spec: the declaration of the scoring of a motion is not
among the sources; a fixed score, a poll to take the score from, or neither. -/
structure Scoring where
  Fixed : Option Int
  Poll : Option common.BallotName
  deriving DecidableEq, Repr

/-- Modelled from the spec: the declaration of the motions of `collab` is not
among the sources; the fields are those `ScoreMotions_StageOnly` reads and
writes, the score taken as an exact integer. -/
structure Motion where
  ID : MotionID
  Scoring : Scoring
  Score : Int
  deriving DecidableEq, Repr

abbrev Motions := List Motion

/-- The staged tree as `ScoreMotions_StageOnly` uses it: the key-value namespace
`motionNS`, as the list of its keys with their values, and the tallies of the
ballots by name. -/
structure Tree where
  motions : List (MotionID × Motion)
  tallies : common.BallotName → Option common.Tally

/-- Modelled from the spec: the declaration of `AdTally` is not among the
sources; the advertisement and the tally of a ballot. -/
structure AdTally where
  Ad : common.Advertisement
  Tally : common.Tally
  deriving DecidableEq, Repr

/-- Modelled from the spec: the constant is not among the sources; the choice of
a motion poll. -/
def MotionPollBallotChoice : String := "rank"

/-- Modelled from the spec: `ListMotions_Local` is not among the sources; the
values of the key-value namespace of the motions. -/
def ListMotions_Local (t : Tree) : Motions :=
  t.motions.map (fun e => e.2)

/-- Modelled from the spec: `motionKV.Set` is not among the sources; it stores
the value under the key, replacing the value the key had. -/
def motionKV.Set (t : Tree) (id : MotionID) (m : Motion) : Tree :=
  { t with
    motions :=
      if t.motions.any (fun e => decide (e.1 = id)) then
        t.motions.map (fun e => if e.1 = id then (id, m) else e)
      else t.motions ++ [(id, m)] }

/-- Modelled from the spec: `ballot.Show_Local` is not among the sources; the
advertisement and tally of the ballot, a not-exist panic when there is none. -/
def ballot.Show_Local (_govAddr : gov.Address) (t : Tree) (name : common.BallotName) :
    Except Err AdTally :=
  match t.tallies name with
  | some tally => .ok { Ad := tally.Ad, Tally := tally }
  | none => .error (.notExist ("ballot/" ++ name))

/-- The map lookup `Scores[choice]` of Go: zero when the map has no entry. -/
def scoreOf (scores : List (String × Int)) (choice : String) : Int :=
  (scores.lookup choice).getD 0

/-- Modelled from the spec: `Motions.Sort` is not among the sources; the motions
in the order of their scores, highest first. -/
def Motions.Sort (x : Motions) : Motions :=
  x.insertionSort (fun a b => a.Score ≥ b.Score)

/-- The loop of `ScoreMotions_StageOnly`: the tree and the motions after it. -/
def ScoreMotions_StageOnly.loop (govAddr : gov.Address) :
    Tree → Motions → Tree × Except Err Motions
  | t, [] => (t, .ok [])
  | t, motion :: rest =>
    match motion.Scoring.Fixed, motion.Scoring.Poll with
    | some fixed, _ =>
      let motion1 := { motion with Score := fixed }
      let t1 := motionKV.Set t motion1.ID motion1
      match ScoreMotions_StageOnly.loop govAddr t1 rest with
      | (t2, .error e) => (t2, .error e)
      | (t2, .ok motions) => (t2, .ok (motion1 :: motions))
    | none, some poll =>
      match ballot.Show_Local govAddr t poll with
      | .error e => (t, .error e)
      | .ok ast =>
        let motion1 := { motion with Score := scoreOf ast.Tally.Scores MotionPollBallotChoice }
        let t1 := motionKV.Set t motion1.ID motion1
        match ScoreMotions_StageOnly.loop govAddr t1 rest with
        | (t2, .error e) => (t2, .error e)
        | (t2, .ok motions) => (t2, .ok (motion1 :: motions))
    | none, none =>
      match ScoreMotions_StageOnly.loop govAddr t rest with
      | (t2, .error e) => (t2, .error e)
      | (t2, .ok motions) => (t2, .ok (motion :: motions))

/-- The function `ScoreMotions_StageOnly`: the tree after the call and the
outcome. -/
def ScoreMotions_StageOnly (govAddr : gov.Address) (t : Tree) :
    Tree × Except Err (git.Change Motions) :=
  match ScoreMotions_StageOnly.loop govAddr t (ListMotions_Local t) with
  | (t1, .error e) => (t1, .error e)
  | (t1, .ok motions) =>
    (t1, .ok { Msg := "Score all " ++ toString motions.length ++ " motions",
               Op := "collab_score_motions", Args := [], Result := Motions.Sort motions })

end collab

/-! ## The mutators of the organizer (`account.go`, `open.go`, `tally.go`, `scoremotions.go`) -/

namespace account

/-- The function `Create`: the repositories after the call and the outcome;
`hash` is the hash of the commit it makes. -/
def Create (ctx : Context) (w : git.World gov.Address Tree) (hash : git.CommitHash)
    (addr : gov.Address) (id : AccountID) (owner : OwnerID) (note : String) :
    git.World gov.Address Tree × Except Err Unit :=
  match gov.Clone w addr with
  | (w1, .error e) => (w1, .error e)
  | (w1, .ok cloned) =>
    match Create_StageOnly ctx cloned.Tree id owner note with
    | (_, .error e) => (w1, .error e)
    | (t1, .ok _) =>
      match proto.Commitf w1 (cloned.withTree t1) hash "account_create"
        ("create account " ++ id ++ " (" ++ note ++ ")") with
      | (w2, .error e) => (w2, .error e)
      | (w2, .ok _) =>
        match (cloned.withTree t1).Push w2 with
        | (w3, .error e) => (w3, .error e)
        | (w3, .ok _) => (w3, .ok ())

/-- The function `Transfer`: the repositories after the call and the outcome;
`hash` is the hash of the commit it makes. -/
def Transfer (ctx : Context) (w : git.World gov.Address Tree) (hash : git.CommitHash)
    (addr : gov.Address) (from_ to_ : AccountID) (amount : Holding)
    (note : String) :
    git.World gov.Address Tree × Except Err Unit :=
  match gov.Clone w addr with
  | (w1, .error e) => (w1, .error e)
  | (w1, .ok cloned) =>
    match Transfer_StageOnly ctx cloned.Tree from_ to_ amount note with
    | (_, .error e) => (w1, .error e)
    | (t1, .ok _) =>
      match proto.Commitf w1 (cloned.withTree t1) hash "account_transfer"
        ("transfer " ++ amount.format ++ " from " ++ from_ ++ " to " ++ to_ ++ " (" ++ note ++ ")") with
      | (w2, .error e) => (w2, .error e)
      | (w2, .ok _) =>
        match (cloned.withTree t1).Push w2 with
        | (w3, .error e) => (w3, .error e)
        | (w3, .ok _) => (w3, .ok ())

/-- The function `Deposit`: the repositories after the call and the outcome;
`hash` is the hash of the commit it makes. -/
def Deposit (ctx : Context) (w : git.World gov.Address Tree) (hash : git.CommitHash)
    (addr : gov.Address) (to_ : AccountID) (amount : Holding) (note : String) :
    git.World gov.Address Tree × Except Err Unit :=
  match gov.Clone w addr with
  | (w1, .error e) => (w1, .error e)
  | (w1, .ok cloned) =>
    match Deposit_StageOnly ctx cloned.Tree to_ amount note with
    | (_, .error e) => (w1, .error e)
    | (t1, .ok _) =>
      match proto.Commitf w1 (cloned.withTree t1) hash "account_deposit"
        ("deposit " ++ amount.format ++ " to " ++ to_ ++ " (" ++ note ++ ")") with
      | (w2, .error e) => (w2, .error e)
      | (w2, .ok _) =>
        match (cloned.withTree t1).Push w2 with
        | (w3, .error e) => (w3, .error e)
        | (w3, .ok _) => (w3, .ok ())

/-- The function `Withdraw`: the repositories after the call and the outcome;
`hash` is the hash of the commit it makes. -/
def Withdraw (ctx : Context) (w : git.World gov.Address Tree) (hash : git.CommitHash)
    (addr : gov.Address) (from_ : AccountID) (amount : Holding) (note : String) :
    git.World gov.Address Tree × Except Err Unit :=
  match gov.Clone w addr with
  | (w1, .error e) => (w1, .error e)
  | (w1, .ok cloned) =>
    match Withdraw_StageOnly ctx cloned.Tree from_ amount note with
    | (_, .error e) => (w1, .error e)
    | (t1, .ok _) =>
      match proto.Commitf w1 (cloned.withTree t1) hash "account_withdraw"
        ("withdraw " ++ amount.format ++ " from " ++ from_ ++ " (" ++ note ++ ")") with
      | (w2, .error e) => (w2, .error e)
      | (w2, .ok _) =>
        match (cloned.withTree t1).Push w2 with
        | (w3, .error e) => (w3, .error e)
        | (w3, .ok _) => (w3, .ok ())

end account

/-- The function `Open` of the ballots: the repositories after the call and the
outcome; `hash` is the hash of the commit it makes. -/
def ballot.Open (strat : common.Strategy) (w : git.World gov.Address Tree) (hash : git.CommitHash)
    (govAddr : gov.OwnerAddress) (name : common.BallotName) (title description : String)
    (choices : List String) (participants : member.Group) :
    git.World gov.Address Tree × Except Err (git.Change common.BallotAddress) :=
  match gov.CloneOwner w govAddr with
  | (w1, .error e) => (w1, .error e)
  | (w1, .ok govCloned) =>
    match ballot.Open_StageOnly strat govCloned name title description choices participants with
    | (_, .error e) => (w1, .error e)
    | (govCloned1, .ok chg) =>
      match proto.Commit w1 govCloned1.Public hash chg with
      | (w2, .error e) => (w2, .error e)
      | (w2, .ok _) =>
        match govCloned1.Public.Push w2 with
        | (w3, .error e) => (w3, .error e)
        | (w3, .ok _) => (w3, .ok chg)

namespace collab

/-- Modelled from the spec: `gov.Clone` is not among the sources; the clone of
the governance repository at the address, with the tree `ScoreMotions` uses. -/
def Clone (w : git.World gov.Address Tree) (addr : gov.Address) :
    git.World gov.Address Tree × Except Err (gov.Address × Tree) :=
  match w.clone addr with
  | (w1, .error e) => (w1, .error e)
  | (w1, .ok r) => (w1, .ok (addr, r.Tree))

/-- The function `ScoreMotions`: the repositories after the call and the
outcome; `hash` is the hash of the commit it makes. -/
def ScoreMotions (w : git.World gov.Address Tree) (hash : git.CommitHash) (addr : gov.Address) :
    git.World gov.Address Tree × Except Err (git.Change Motions) :=
  match Clone w addr with
  | (w1, .error e) => (w1, .error e)
  | (w1, .ok cloned) =>
    match ScoreMotions_StageOnly addr cloned.2 with
    | (_, .error e) => (w1, .error e)
    | (t1, .ok chg) =>
      match w1.commit cloned.1 t1 hash chg.Msg with
      | (w2, .error e) => (w2, .error e)
      | (w2, .ok _) =>
        match w2.push cloned.1 with
        | (w3, .error e) => (w3, .error e)
        | (w3, .ok _) => (w3, .ok chg)

end collab

namespace mod

/-- The address `id.OwnerAddress` of an owner: the public and the private
repository. -/
structure id.OwnerAddress where
  Public : id.PublicAddress
  Private : String
  deriving DecidableEq, Repr

/-- Modelled from the spec: `id.CloneOwner` is not among the sources; the clone
of the public repository of the owner. The private repository, which `Tally`
neither commits nor pushes, is not modelled. -/
def id.CloneOwner (w : git.World id.PublicAddress Tree) (addr : id.OwnerAddress) :
    git.World id.PublicAddress Tree × Except Err git.Repository :=
  match w.clone addr.Public with
  | (w1, .error e) => (w1, .error e)
  | (w1, .ok r) => (w1, .ok { Worktree := r.Tree, Head := r.Head })

/-- Modelled from the spec: `mod.Commit` is not among the sources; it commits
the staged tree of the clone of the address under the message. -/
def Commit (w : git.World id.PublicAddress Tree) (addr : id.PublicAddress) (worktree : Tree)
    (hash : Gov4Git.git.CommitHash) (msg : String) :
    git.World id.PublicAddress Tree × Except Err Unit :=
  w.commit addr worktree hash msg

/-- Modelled from the spec: `git.Push` is not among the sources. -/
def git.Push (w : git.World id.PublicAddress Tree) (addr : id.PublicAddress) :
    git.World id.PublicAddress Tree × Except Err Unit :=
  w.push addr

namespace ballot

/-- The homes that the loop of `fetchVotes` in `TallyStageOnly` clones, in
order: the home of every account up to the first whose votes fail to fetch. -/
def TallyStageOnly.fetchClones (world : id.PublicAddress → Option Tree) (ballotName : ns.NS) :
    List (member.User × member.Account) → Tree → List id.PublicAddress
  | [], _ => []
  | (user, account) :: rest, govTree =>
    account.Home ::
      (match fetchVotes world govTree ballotName user account with
       | (_, .error _) => []
       | (govTree1, .ok _) => TallyStageOnly.fetchClones world ballotName rest govTree1)

/-- The homes that `TallyStageOnly` clones, in order. -/
def TallyStageOnly.clones (world : id.PublicAddress → Option Tree) (govTree : Tree)
    (ballotName : ns.NS) : List id.PublicAddress :=
  match govTree.ads ((OpenBallotNS ballotName).Append adFilebase) with
  | none => []
  | some ad =>
    match govTree.groups ad.Participants with
    | none => []
    | some users =>
      match TallyStageOnly.accounts govTree users with
      | .error _ => []
      | .ok accounts => TallyStageOnly.fetchClones world ballotName (users.zip accounts) govTree

/-- The function `Tally`: the repositories after the call and the outcome;
`hash` is the hash of the commit it makes. The clones that `fetchVotes` makes
inside `TallyStageOnly` are recorded when it returns. -/
def Tally (s : Strategy) (w : git.World id.PublicAddress Tree) (hash : Gov4Git.git.CommitHash)
    (govAddr : id.OwnerAddress) (ballotName : ns.NS) :
    git.World id.PublicAddress Tree × Except Err (git.Change TallyForm) :=
  match id.CloneOwner w govAddr with
  | (w1, .error e) => (w1, .error e)
  | (w1, .ok govRepo) =>
    let world := fun a => (w1.remotes a).map (fun r => r.Tree)
    let w1c := w1.cloneAll (TallyStageOnly.clones world govRepo.Worktree ballotName)
    match TallyStageOnly s world govRepo.Worktree ballotName with
    | (_, .error e) => (w1c, .error e)
    | (govTree1, .ok chg) =>
      match Commit w1c govAddr.Public govTree1 hash chg.Msg with
      | (w2, .error e) => (w2, .error e)
      | (w2, .ok _) =>
        match git.Push w2 govAddr.Public with
        | (w3, .error e) => (w3, .error e)
        | (w3, .ok _) => (w3, .ok chg)

end ballot

end mod

/-- The pattern that the specification gives for every top-level entry point:
clone, invoke the stage-only variant, commit, push. The stage-only variant is
given the clone alone; it reports the repositories it clones to read from, the
staged tree, its result and the message to commit under. -/
def spec.cloneStageCommitPush {A T R : Type} [DecidableEq A] (w : git.World A T) (addr : A)
    (hash : git.CommitHash) (stage : git.Repo T → List A × Except Err (T × R × String)) :
    git.World A T × Except Err R :=
  match w.clone addr with
  | (w1, .error e) => (w1, .error e)
  | (w1, .ok r) =>
    match stage r with
    | (clones, .error e) => (w1.cloneAll clones, .error e)
    | (clones, .ok (staged, result, msg)) =>
      match (w1.cloneAll clones).commit addr staged hash msg with
      | (w2, .error e) => (w2, .error e)
      | (w2, .ok _) =>
        match w2.push addr with
        | (w3, .error e) => (w3, .error e)
        | (w3, .ok _) => (w3, .ok result)

/-- The outcome of a stage-only variant as the pattern takes it: no clone of its
own, the staged tree, the result and the message. -/
def spec.staged {A T R X : Type} (out : T × Except Err X) (result : X → R) (msg : X → String) :
    List A × Except Err (T × R × String) :=
  match out with
  | (_, .error e) => ([], .error e)
  | (t1, .ok x) => ([], .ok (t1, result x, msg x))

/-! ## Parsing the elections of the command line (`gov4git/cmd/ballot.go`) -/

namespace cmd

/-- The loop of `parseElections` over the indices of `choices`: the elections
made by `NewElection`, one call after the other. -/
def parseElections.loop {S Q E : Type} (NewElection : S → String → Q → S × E) :
    S → List String → List Q → S × List E
  | s, choice :: choices, strength :: strengths =>
    match NewElection s choice strength with
    | (s1, e) =>
      match parseElections.loop NewElection s1 choices strengths with
      | (s2, el) => (s2, e :: el)
  | s, _, _ => (s, [])

/-- The function `parseElections`. `ballotproto.NewElection` is not among the
sources: it is a parameter, a function of the choice and the strength that may
read and advance a state `S` of its own, like a clock or a source of
identifiers. -/
def parseElections {S Q E : Type} (NewElection : S → String → Q → S × E) (s : S)
    (choices : List String) (strengths : List Q) : S × Except Err (List E) :=
  if choices.length ≠ strengths.length then
    (s, .error (.failed "elected choices must match elected strengths in count"))
  else
    match parseElections.loop NewElection s choices strengths with
    | (s1, el) => (s1, .ok el)

end cmd

/-! ## Setting a property of a user (`services/gov/user/set.go`) -/

namespace filepath

/-- The pieces of a path between its separators `/`. -/
def split : List Char → List (List Char)
  | [] => [[]]
  | c :: rest =>
    match split rest with
    | [] => [[c]]
    | seg :: segs => if c = '/' then [] :: seg :: segs else (c :: seg) :: segs

/-- One step of `Clean` on a relative path, the elements kept so far being in
reverse order: an empty element and `.` are dropped, `..` removes the element
before it unless there is none or it is `..` itself, any other element is
kept. -/
def cleanStep (kept : List String) (seg : String) : List String :=
  if seg = "" ∨ seg = "." then kept
  else if seg = ".." then
    match kept with
    | [] => [".."]
    | top :: below => if top = ".." then ".." :: top :: below else below
  else seg :: kept

/-- The function `filepath.Clean` of Go on a relative path, as the list of the
elements of the cleaned path. -/
def Clean (path : String) : List String :=
  (((split path.toList).map String.mk).foldl cleanStep []).reverse

/-- The function `filepath.Join` of Go on relative elements: the non-empty
elements joined by the separator, cleaned. -/
def Join (elem : List String) : String :=
  match elem.filter (fun s => decide (s ≠ "")) with
  | [] => ""
  | nonEmpty =>
    match Clean (String.intercalate "/" nonEmpty) with
    | [] => "."
    | segs => String.intercalate "/" segs

/-- The file at the path lies inside the directory: the path is the path of the
directory, a separator, and more. -/
def inside (dir path : String) : Bool :=
  (dir ++ "/").toList.isPrefixOf path.toList && decide ((dir ++ "/").length < path.length)

end filepath

namespace govproto

/-- Modelled from the spec: the package `govproto` is not among the sources; the
root of the governance files in the community repository. -/
def GovRoot : String := ".gov"

/-- Modelled from the spec: the package `govproto` is not among the sources; the
directory of the users. -/
def GovUsersDir : String := filepath.Join [GovRoot, "users"]

/-- Modelled from the spec: the package `govproto` is not among the sources; the
base name of the metadata directory of a user. -/
def GovUserMetaDirbase : String := "meta"

end govproto

namespace user

/-- The struct `files.ByteFile`. -/
structure ByteFile where
  Path : String
  Bytes : String
  deriving DecidableEq, Repr

/-- The local clone `git.Local` of the community repository, as `Set` uses it:
the files of its directory by path, the paths added to the index, and the
messages of its commits, oldest first. -/
structure Local where
  Dir : String → Option String
  Index : List String
  Log : List String

/-- Modelled from the spec: `Dir.WriteByteFiles` is not among the sources; it
writes every file of the list at its path in the directory. -/
def WriteByteFiles (community : Local) : List ByteFile → Local
  | [] => community
  | f :: rest =>
    WriteByteFiles
      { community with Dir := fun p => if p = f.Path then some f.Bytes else community.Dir p }
      rest

/-- Modelled from the spec: `Local.Add` is not among the sources; it adds the
paths to the index. -/
def Add (community : Local) (paths : List String) : Local :=
  { community with Index := community.Index ++ paths }

/-- Modelled from the spec: `Local.Commitf` is not among the sources; it commits
the index under the formatted message. -/
def Commitf (community : Local) (msg : String) : Local :=
  { community with Index := [], Log := community.Log ++ [msg] }

/-- The path that `Set` writes. -/
def Set.propFile (name key : String) : String :=
  filepath.Join [govproto.GovUsersDir, name, govproto.GovUserMetaDirbase, key]

/-- The function `Set`: the clone after the call. The errors of writing, adding
and committing, which `Set` passes on, are not modelled. -/
def Set (community : Local) (name key value : String) : Local :=
  let propFile := Set.propFile name key
  -- write user file
  let stage : List ByteFile := [{ Path := propFile, Bytes := value }]
  let c1 := WriteByteFiles community stage
  -- stage changes
  let c2 := Add c1 (stage.map (fun f => f.Path))
  -- commit changes
  Commitf c2 ("gov: change property " ++ key ++ " of user " ++ name)

/-- The metadata directory of the named user,
`GovUsersDir/name/GovUserMetaDirbase`. -/
def metaDir (name : String) : String :=
  filepath.Join [govproto.GovUsersDir, name, govproto.GovUserMetaDirbase]

end user

/-! ## The sync orchestrator (`proto/sync/sync.go`) -/

namespace sync

/-- Modelled from the spec: `ballotapi.TallyAll` and `bureau.Process` are not
among the sources; the two phases of a tick, each of which works on the
repositories `W` and "yields a change record" or panics. -/
structure Phases (W RT RB : Type) where
  TallyAll : W → gov.OwnerAddress → Int → W × Except Err (git.Change RT)
  Process : W → gov.OwnerAddress → member.Group → W × Except Err (git.Change RB)

/-- The change `git.Change` that `Sync` returns: its result is a `form.Map` and
its steps are the `form.Forms` of the sub-changes. A value of the map is the
result of the tally phase or the result of the bureau phase; a step is the
change of the one or of the other. -/
structure Change (RT RB : Type) where
  Msg : String
  Op : String
  Args : List (String × form.Value)
  Result : List (String × (RT ⊕ RB))
  Steps : List (git.Change RT ⊕ git.Change RB)

/-- The function `Sync`: the repositories after the call and the outcome. -/
def Sync {W RT RB : Type} (p : Phases W RT RB) (w : W) (govAddr : gov.OwnerAddress)
    (maxPar : Int) : W × Except Err (Change RT RB) :=
  -- collect votes and tally all open ballots
  match p.TallyAll w govAddr maxPar with
  | (w1, .error e) => (w1, .error e)
  | (w1, .ok tallyChg) =>
    -- process bureau requests by users
    match p.Process w1 govAddr member.Everybody with
    | (w2, .error e) => (w2, .error e)
    | (w2, .ok bureauChg) =>
      (w2, .ok { Msg := "Governance-community sync", Op := "sync_sync", Args := [],
                 Result := [("tally_result", .inl tallyChg.Result),
                            ("bureau_result", .inr bureauChg.Result)],
                 Steps := [.inl tallyChg, .inr bureauChg] })

end sync

/-! ## Predicates and harness used by the statements -/

namespace account

/-- Every holding quantity of the map is non-negative. -/
def AssetHoldings.NonNeg (x : AssetHoldings) : Prop :=
  ∀ k g, x.entry k = some g → 0 ≤ g.Quantity

/-- The event a non-muted `Deposit_StageOnly` logs. -/
def depositEvent (to_ : AccountID) (amount : Holding) (note : String) : history.Event :=
  { Op := { Op := "account_deposit", Note := note,
            Args := [("to", .str to_), ("amount", .holding amount)], Result := none } }

/-- The event a non-muted `Withdraw_StageOnly` logs. -/
def withdrawEvent (from_ : AccountID) (amount : Holding) (note : String) : history.Event :=
  { Op := { Op := "account_withdraw", Note := note,
            Args := [("from", .str from_), ("amount", .holding amount)], Result := none } }

/-- The event a non-muted `Transfer_StageOnly` logs. -/
def transferEvent (from_ to_ : AccountID) (amount : Holding) (note : String) : history.Event :=
  { Op := { Op := "account_transfer", Note := note,
            Args := [("from", .str from_), ("to", .str to_), ("amount", .holding amount)],
            Result := none } }

/-- The event a non-muted `Create_StageOnly` logs. -/
def createEvent (id : AccountID) (owner : OwnerID) (note : String) : history.Event :=
  { Op := { Op := "account_create", Note := note,
            Args := [("id", .str id), ("owner", .str owner)], Result := none } }

end account

/-- Every holding quantity of every stored account is non-negative. -/
def Tree.NonNeg (t : Tree) : Prop :=
  ∀ id a, t.accounts id = some a → a.Assets.NonNeg

/-- The balance of an asset in the account stored under an id; zero when there
is no such account. -/
def Tree.balance (t : Tree) (id : account.AccountID) (asset : account.Asset) : Int :=
  match t.accounts id with
  | some a => (a.Balance asset).Quantity
  | none => 0

/-- The total of an asset over the accounts stored under the listed ids. -/
def Tree.total (t : Tree) (ids : List account.AccountID) (asset : account.Asset) : Int :=
  (ids.map (fun id => t.balance id asset)).sum

namespace account

/-- One call of a staged account mutator, with the context it is given. -/
inductive Call where
  | create (ctx : Context) (id : AccountID) (owner : OwnerID) (note : String)
  | deposit (ctx : Context) (to_ : AccountID) (amount : Holding) (note : String)
  | withdraw (ctx : Context) (from_ : AccountID) (amount : Holding) (note : String)
  | transfer (ctx : Context) (from_ to_ : AccountID) (amount : Holding) (note : String)

/-- The staged tree a call leaves behind, whether it succeeds or fails. -/
def Call.run (t : Tree) : Call → Tree
  | .create ctx id owner note => (Create_StageOnly ctx t id owner note).1
  | .deposit ctx to_ amount note => (Deposit_StageOnly ctx t to_ amount note).1
  | .withdraw ctx from_ amount note => (Withdraw_StageOnly ctx t from_ amount note).1
  | .transfer ctx from_ to_ amount note => (Transfer_StageOnly ctx t from_ to_ amount note).1

/-- The staged tree after a finite sequence of calls. -/
def Call.runAll (t : Tree) (cs : List Call) : Tree :=
  cs.foldl Call.run t

end account

namespace mod

/-- The reason for which reading a stream stops at an envelope, if it does: the
signature does not verify under the sender's public credentials, or the
responder of `fetchVotes` rejects the envelope. -/
def mail.failure (sender : Option id.PublicCredentials) (e : mail.SignedEnvelope) :
    Option String :=
  if sender ≠ some e.Signature then some "signature"
  else if !e.Payload.VerifyConsistency then some "rejected"
  else none

end mod

/-- The motion with the score that scoring gives it: the fixed score when
`Scoring.Fixed` is set; otherwise, when `Scoring.Poll` is set, the score of the
poll's tally for `MotionPollBallotChoice`, zero when the tally has no entry for
that choice; and the motion as it is when neither is set. -/
def spec.scored (tallies : common.BallotName → Option common.Tally) (m : collab.Motion) :
    collab.Motion :=
  match m.Scoring.Fixed, m.Scoring.Poll with
  | some fixed, _ => { m with Score := fixed }
  | none, some poll =>
    match tallies poll with
    | some tally => { m with Score := collab.scoreOf tally.Scores collab.MotionPollBallotChoice }
    | none => m
  | none, none => m

/-- Every poll that scoring reads has a tally: the poll of a motion whose
`Scoring.Fixed` is not set. -/
def collab.PollsExist (tallies : common.BallotName → Option common.Tally)
    (motions : collab.Motions) : Prop :=
  ∀ m ∈ motions, m.Scoring.Fixed = none →
    ∀ poll, m.Scoring.Poll = some poll → ∃ tally, tallies poll = some tally

/-- Every motion of the key-value namespace is stored under its own id, and no
key occurs twice. -/
def collab.Tree.WellKeyed (t : collab.Tree) : Prop :=
  (∀ e ∈ t.motions, e.1 = e.2.ID) ∧ (t.motions.map (fun e => e.1)).Nodup

/-- Every reference in the list of eligible proposals of the concern state has
the type `Resolves`. -/
def concern.ConcernState.AllResolves (st : concern.ConcernState) : Prop :=
  ∀ r ∈ st.EligibleProposals, r.Type_ = pmp.ResolvesRefType

/-! ## Concrete trees used to evaluate the code -/

namespace Example

/-- An ordinary, non-muted context. -/
def ctx : Context :=
  { muted := false }

/-- A holding of the asset `plural`. -/
def plural (q : Int) : account.Holding :=
  { Asset := "plural", Quantity := q }

/-- The account of alice, holding 5 of `plural`. -/
def alice : account.Account :=
  { ID := "alice", Owner := "alice", Assets := { entries := [plural 5] } }

/-- The account of bob, with no holdings. -/
def bob : account.Account :=
  { ID := "bob", Owner := "bob", Assets := { entries := [] } }

/-- A tree with the accounts of alice and bob. -/
def tree : Tree :=
  { Tree.empty with
    accounts := fun id => if id = "alice" then some alice else if id = "bob" then some bob else none }

/-- A tree with the account of alice only. -/
def treeAlice : Tree :=
  { Tree.empty with accounts := fun id => if id = "alice" then some alice else none }

/-- A clone of the governance repository with the accounts of alice and bob,
the group `everybody` and a head commit. -/
def govCloned : gov.OwnerCloned :=
  { Public :=
    { Address := { Repo := "https://example.com/gov.git", Branch := "main" },
      Tree := { tree with groups := fun g => if g = "everybody" then some ["alice", "bob"] else none },
      Head := some "c0ffee" } }

/-- A quadratic-voting strategy descriptor. -/
def qv : common.Strategy :=
  { Name := "qv", Params := "" }

/-- An open concern `C1`. -/
def concernC1 : schema.Motion :=
  { OpenedAt := 0, ID := "C1", Type_ := .concern, Policy := "pmp-concern-policy",
    TrackerURL := "", Title := "An issue", Body := "", Labels := [], Closed := false,
    Frozen := false }

/-- An open proposal `R1`. -/
def proposalR1 : schema.Motion :=
  { OpenedAt := 0, ID := "R1", Type_ := .proposal, Policy := "pmp-proposal-policy",
    TrackerURL := "", Title := "A pull request", Body := "", Labels := [], Closed := false,
    Frozen := false }

/-- A clone that stores the concern `C1`, the proposal `R1` and the policy state
of `R1`, with approval score 5. -/
def motionCloned : gov.Cloned :=
  { Address := { Repo := "https://example.com/gov.git", Branch := "main" },
    Tree :=
      { Tree.empty with
        files := fun p =>
          if p = ["motion", "C1"] then some (.motion concernC1)
          else if p = ["motion", "R1"] then some (.motion proposalR1)
          else if p = ["motion", "R1", "policy", "state.json"] then
            some (.proposalState { LatestApprovalScore := 5 })
          else none },
    Head := some "c0ffee" }

/-- An advertisement of the `mod` packages with the given choices, for the group
`everybody`. -/
def modAd (choices : List String) (closed : Bool) : mod.ballot.Advertisement :=
  { Gov := { Repo := "https://example.com/gov.git", Branch := "main" }, Name := "P1",
    Title := "Title", Description := "Desc", Choices := choices, Strategy := "keep",
    Participants := "everybody", Frozen := false, Closed := closed, Cancelled := false,
    ParentCommit := "c0ffee" }

/-- A government tree of the `mod` packages: the ballot `P1` with the choice
`yes`, the ballot `P0` without choices, the closed ballot `PX`, the group
`everybody` of alice, and the owner's public credentials. -/
def modGovTree : mod.Tree :=
  { mod.Tree.empty with
    ads := fun p =>
      if p = ["ballot", "P1", "ad.json"] then some (modAd ["yes"] false)
      else if p = ["ballot", "P0", "ad.json"] then some (modAd [] false)
      else if p = ["ballot", "PX", "ad.json"] then some (modAd ["yes"] true)
      else none,
    groups := fun g => if g = "everybody" then some ["alice"] else none,
    users := fun u => if u = "alice" then some { Home := "https://example.com/alice.git" } else none,
    identity := some { PublicKey := "gov-key" } }

/-- A clone of the government repository of the `mod` packages. -/
def modGovRepo : mod.git.Repository :=
  { Worktree := modGovTree, Head := some "c0ffee" }

/-- The trees of the voter alice: her public credentials and her private ones. -/
def aliceTree : mod.id.OwnerTree :=
  { Public := { mod.Tree.empty with identity := some { PublicKey := "alice-key" } },
    Private := some { PrivateKey := "alice-secret", PublicCredentials := { PublicKey := "alice-key" } } }

/-- The public repositories of the users after alice has voted `(yes, +2)` on
the ballot `P1`. -/
def votedWorld : mod.id.PublicAddress → Option mod.Tree :=
  fun a =>
    if a = "https://example.com/alice.git" then
      some (mod.ballot.VoteStageOnly aliceTree modGovRepo ["P1"]
        [{ VoteChoice := "yes", VoteStrengthChange := 2 }]).1.Public
    else none

/-- The reference `R1 → C1` of type `resolves`. -/
def refR1C1 : schema.Ref :=
  { Type_ := "resolves", From := "R1", To := "C1" }

/-- The reference `R2 → C1` of type `resolves`. -/
def refR2C1 : schema.Ref :=
  { Type_ := "resolves", From := "R2", To := "C1" }

/-- The advertisement of the priority poll `pp/C1`, with the given frozen flag. -/
def pollAd (frozen : Bool) : common.Advertisement :=
  { Gov := { Repo := "https://example.com/gov.git", Branch := "main" }, Name := "pp/C1",
    Title := "Prioritization poll for motion C1",
    Description := "Up/down vote the priority for concern (issue) C1", Choices := ["rank"],
    Strategy := "qv", Participants := "everybody", Frozen := frozen, Closed := false,
    Cancelled := false, ParentCommit := "c0ffee" }

/-- A tree with the concern `C1`, frozen or not, its priority poll, its policy
state with the given references, and the policy states of the proposals `R1`,
of approval score 5, and `R2`, of approval score 0. -/
def concernTree (refs : schema.Refs) (frozen : Bool) : Tree :=
  { Tree.empty with
    groups := fun g => if g = "everybody" then some ["alice", "bob"] else none,
    files := fun p =>
      if p = ["motion", "C1"] then some (.motion { concernC1 with Frozen := frozen })
      else if p = ["motion", "C1", "policy", "state.json"] then
        some (.concernState { PriorityPoll := "pp/C1", EligibleProposals := refs })
      else if p = ["motion", "R1", "policy", "state.json"] then
        some (.proposalState { LatestApprovalScore := 5 })
      else if p = ["motion", "R2", "policy", "state.json"] then
        some (.proposalState { LatestApprovalScore := 0 })
      else if p = ["ballot", "pp/C1", "ad.json"] then some (.ad (pollAd frozen))
      else none }

/-- A clone of the governance with the tree `concernTree`. -/
def concernCloned (refs : schema.Refs) (frozen : Bool) : gov.OwnerCloned :=
  { Public := { Address := { Repo := "https://example.com/gov.git", Branch := "main" },
                Tree := concernTree refs frozen, Head := some "c0ffee" } }

/-- The registry with the concern policy installed under its name. -/
def registry : policy.Registry :=
  fun n => if n = concern.ConcernPolicyName then some concern.concernPolicy else none

/-- The address of the governance repository. -/
def govAddr : gov.Address :=
  { Repo := "https://example.com/gov.git", Branch := "main" }

/-- The repositories before a mutation: the governance repository with the
accounts of alice and bob and one commit, no clone on the local disk, nothing
performed yet. -/
def world : git.World gov.Address Tree :=
  { remotes := fun a =>
      if a = govAddr then some { Tree := tree, Log := [{ Hash := "c0ffee", Msg := "init" }] }
      else none,
    locals := fun _ => none,
    trace := [] }

/-- A tally of a poll with the given scores. -/
def pollTally (scores : List (String × Int)) : common.Tally :=
  { Ad := pollAd false, Scores := scores, VotesByUser := [], AcceptedVotes := [],
    RejectedVotes := [], Charges := [] }

/-- A tree with four motions: `A` with the fixed score 7 and a poll, `B` and `D`
with a poll only, `C` with neither; the tally of the poll of `B` has 5 for
`rank`, the one of `D` has no entry for `rank`. -/
def collabTree : collab.Tree :=
  { motions :=
      [("A", { ID := "A", Scoring := { Fixed := some 7, Poll := some "pA" }, Score := 0 }),
       ("B", { ID := "B", Scoring := { Fixed := none, Poll := some "pB" }, Score := 1 }),
       ("C", { ID := "C", Scoring := { Fixed := none, Poll := none }, Score := 3 }),
       ("D", { ID := "D", Scoring := { Fixed := none, Poll := some "pD" }, Score := 9 })],
    tallies := fun name =>
      if name = "pA" then some (pollTally [("rank", 100)])
      else if name = "pB" then some (pollTally [("rank", 5)])
      else if name = "pD" then some (pollTally [("other", 4)])
      else none }

/-- A clone of the community repository in which bob has the property `email`. -/
def community : user.Local :=
  { Dir := fun p =>
      if p = ".gov/users/bob/meta/email" then some "bob@example.com" else none,
    Index := [],
    Log := [] }

/-- The tree on which alice holds 1 of `plural` and bob holds 2^53, as staged
by creating the two accounts and depositing the two quantities. -/
def ledger : Gov4Git.Tree :=
  (account.f64.Deposit_StageOnly ctx
    (account.f64.Deposit_StageOnly ctx
      (account.Create_StageOnly ctx
        (account.Create_StageOnly ctx Gov4Git.Tree.empty "alice" "alice" "n").1
        "bob" "bob" "n").1
      "alice" (plural (float64.ofNat 1)) "n").1
    "bob" (plural (float64.ofNat (2 ^ 53))) "n").1

/-- The tree on which alice holds 2^53 of `plural` and bob holds none, as staged
by creating the two accounts and depositing the quantity. -/
def ledgerAlice : Gov4Git.Tree :=
  (account.f64.Deposit_StageOnly ctx
    (account.Create_StageOnly ctx
      (account.Create_StageOnly ctx Gov4Git.Tree.empty "alice" "alice" "n").1
      "bob" "bob" "n").1
    "alice" (plural (float64.ofNat (2 ^ 53))) "n").1

/-- The owner address of the governance. -/
def ownerAddr : gov.OwnerAddress :=
  { Public := { Repo := "https://example.com/gov.git", Branch := "main" },
    Private := { Repo := "https://example.com/gov-private.git", Branch := "main" } }

/-- Two phases that record their runs in a log: the tally phase returns the
parallelism bound, the bureau phase the number of runs before it. -/
def phases : sync.Phases (List String) Int Nat :=
  { TallyAll := fun w _ maxPar =>
      (w ++ ["tally"], .ok { Msg := "Tally all", Op := "ballot_tally_all", Args := [],
                             Result := maxPar }),
    Process := fun w _ group =>
      (w ++ ["bureau " ++ group], .ok { Msg := "Process", Op := "bureau_process", Args := [],
                                        Result := w.length }) }

end Example

/-! ## Lemmas on holdings -/

namespace account

theorem entry_asset (x : AssetHoldings) (k : Asset) (g : Holding) (hg : x.entry k = some g) :
    g.Asset = k := by
  unfold AssetHoldings.entry at hg
  have := List.find?_some hg
  simpa using this

theorem entry_assign_same (x : AssetHoldings) (k : Asset) (d : Holding) (hd : d.Asset = k) :
    (x.assign k d).entry k = some d := by
  simp [AssetHoldings.entry, AssetHoldings.assign, hd]

theorem entry_assign_other (x : AssetHoldings) (k a : Asset) (d : Holding) (hd : d.Asset = k)
    (ha : a ≠ k) : (x.assign k d).entry a = x.entry a := by
  have hda : ¬ d.Asset = a := by rw [hd]; exact fun h => ha h.symm
  simp only [AssetHoldings.entry, AssetHoldings.assign]
  rw [List.find?_cons_of_neg _ (by simpa using hda), List.find?_filter]
  congr 1
  funext g
  by_cases hg : g.Asset = a
  · have : ¬ g.Asset = k := by rw [hg]; exact ha
    simp [hg, ha]
  · simp [hg]

theorem Balance_assign_same (x : AssetHoldings) (k : Asset) (d : Holding) (hd : d.Asset = k) :
    (x.assign k d).Balance k = d := by
  simp [AssetHoldings.Balance, entry_assign_same x k d hd]

theorem Balance_assign_other (x : AssetHoldings) (k a : Asset) (d : Holding) (hd : d.Asset = k)
    (ha : a ≠ k) : (x.assign k d).Balance a = x.Balance a := by
  simp [AssetHoldings.Balance, entry_assign_other x k a d hd ha]

theorem Deposit_cases (x : AssetHoldings) (h : Holding) :
    ((∃ e, x.Deposit h = .error e) ∧ (x.Balance h.Asset).Quantity + h.Quantity < 0) ∨
    (∃ d : Holding, x.Deposit h = .ok (x.assign h.Asset d) ∧ 0 ≤ d.Quantity ∧
      d.Asset = h.Asset ∧ d.Quantity = (x.Balance h.Asset).Quantity + h.Quantity) := by
  unfold AssetHoldings.Deposit AssetHoldings.Balance SumHolding must.Assertf ZeroHolding
  cases hx : x.entry h.Asset with
  | none =>
    by_cases hq : h.Quantity ≥ 0
    · right; exact ⟨h, by simp [hq], hq, rfl, by simp⟩
    · left
      have hq' : h.Quantity < 0 := not_le.mp hq
      exact ⟨⟨.failed "no funds", by simp [hq]⟩, by simpa using hq'⟩
  | some g =>
    have ha : g.Asset = h.Asset := entry_asset x _ g hx
    by_cases hq : g.Quantity + h.Quantity ≥ 0
    · right; exact ⟨⟨g.Asset, g.Quantity + h.Quantity⟩, by simp [ha, hq], hq, ha, rfl⟩
    · left
      have hq' : g.Quantity + h.Quantity < 0 := not_le.mp hq
      exact ⟨⟨.failed "insufficient funds", by simp [ha, hq]⟩, by simpa using hq'⟩

theorem Deposit_ok_iff (x : AssetHoldings) (h : Holding) :
    (∃ y, x.Deposit h = .ok y) ↔ 0 ≤ (x.Balance h.Asset).Quantity + h.Quantity := by
  rcases Deposit_cases x h with ⟨⟨e, he⟩, hq⟩ | ⟨d, hd, hq, _, hs⟩
  · constructor
    · rintro ⟨y, hy⟩; rw [he] at hy; cases hy
    · intro h0; omega
  · constructor
    · intro _; rw [← hs]; exact hq
    · intro _; exact ⟨_, hd⟩

theorem Deposit_error_iff (x : AssetHoldings) (h : Holding) :
    (∃ e, x.Deposit h = .error e) ↔ (x.Balance h.Asset).Quantity + h.Quantity < 0 := by
  rcases Deposit_cases x h with ⟨he, hq⟩ | ⟨d, hd, hq, _, hs⟩
  · exact ⟨fun _ => hq, fun _ => he⟩
  · constructor
    · rintro ⟨e, he⟩; rw [hd] at he; cases he
    · intro h0; omega

theorem Deposit_ok_effect (x y : AssetHoldings) (h : Holding) (hy : x.Deposit h = .ok y) :
    (y.Balance h.Asset).Quantity = (x.Balance h.Asset).Quantity + h.Quantity ∧
    (y.Balance h.Asset).Asset = h.Asset ∧
    (∀ k, k ≠ h.Asset → y.entry k = x.entry k) ∧
    (∀ k, k ≠ h.Asset → y.Balance k = x.Balance k) ∧
    0 ≤ (y.Balance h.Asset).Quantity := by
  rcases Deposit_cases x h with ⟨⟨e, he⟩, _⟩ | ⟨d, hd, hq, ha, hs⟩
  · rw [he] at hy; cases hy
  · rw [hd] at hy
    cases hy
    rw [Balance_assign_same x _ d ha]
    exact ⟨hs, ha, fun k hk => entry_assign_other x _ k d ha hk,
      fun k hk => Balance_assign_other x _ k d ha hk, hq⟩

theorem Deposit_NonNeg (x y : AssetHoldings) (h : Holding) (hx : x.NonNeg)
    (hy : x.Deposit h = .ok y) : y.NonNeg := by
  rcases Deposit_cases x h with ⟨⟨e, he⟩, _⟩ | ⟨d, hd, hq, ha, _⟩
  · rw [he] at hy; cases hy
  · rw [hd] at hy
    cases hy
    intro k g hg
    by_cases hk : k = h.Asset
    · rw [hk, entry_assign_same x _ d ha] at hg
      cases hg
      exact hq
    · rw [entry_assign_other x _ k d ha hk] at hg
      exact hx k g hg

end account

/-! ## Claims on holdings -/

/-- C2: for every holdings map and every signed holding, `AssetHoldings.Deposit`
succeeds if and only if the balance of the holding's asset (zero when the asset
is absent) plus its quantity is non-negative; on success the new balance of
that asset is the old balance plus the quantity, and the holding of every other
asset is unchanged. -/
theorem account.deposit_succeeds_iff_and_effect (x : account.AssetHoldings)
    (h : account.Holding) :
    ((∃ y, x.Deposit h = .ok y) ↔ 0 ≤ (x.Balance h.Asset).Quantity + h.Quantity) ∧
    (∀ y, x.Deposit h = .ok y →
      (y.Balance h.Asset).Quantity = (x.Balance h.Asset).Quantity + h.Quantity ∧
      (∀ k, k ≠ h.Asset → y.entry k = x.entry k)) := by
  refine ⟨account.Deposit_ok_iff x h, ?_⟩
  intro y hy
  obtain ⟨h1, _, h3, _, _⟩ := account.Deposit_ok_effect x y h hy
  exact ⟨h1, h3⟩

/-- C4: `AssetHoldings.Withdraw` and `Account.Withdraw` have exactly the outcome
of the deposit of the holding with its quantity negated; consequently the
withdrawal succeeds if and only if the balance minus the quantity is
non-negative, and then the new balance is the old one lowered by exactly the
quantity, every other asset being unchanged. -/
theorem account.withdraw_is_deposit_of_negation (x : account.AssetHoldings)
    (a : account.Account) (h : account.Holding) :
    x.Withdraw h = x.Deposit { Asset := h.Asset, Quantity := -h.Quantity } ∧
    a.Withdraw h = a.Deposit { Asset := h.Asset, Quantity := -h.Quantity } ∧
    ((∃ y, x.Withdraw h = .ok y) ↔ 0 ≤ (x.Balance h.Asset).Quantity - h.Quantity) ∧
    (∀ y, x.Withdraw h = .ok y →
      (y.Balance h.Asset).Quantity = (x.Balance h.Asset).Quantity - h.Quantity ∧
      (∀ k, k ≠ h.Asset → y.entry k = x.entry k)) := by
  refine ⟨rfl, rfl, ?_, ?_⟩
  · have := account.Deposit_ok_iff x (account.NegHolding h)
    simpa [account.AssetHoldings.Withdraw, account.NegHolding, sub_eq_add_neg] using this
  · intro y hy
    obtain ⟨h1, _, h3, _, _⟩ := account.Deposit_ok_effect x y (account.NegHolding h) hy
    exact ⟨by simpa [account.NegHolding, sub_eq_add_neg] using h1, h3⟩

/-! ## Lemmas on the staged operations -/

namespace account

theorem Log_accounts (ctx : Context) (t : Tree) (ev : history.Event) :
    (history.Log_StageOnly ctx t ev).accounts = t.accounts := by
  unfold history.Log_StageOnly
  split <;> rfl

theorem Log_muted (ctx : Context) (t : Tree) (ev : history.Event) :
    history.Log_StageOnly (history.Mute ctx) t ev = t := by
  simp [history.Log_StageOnly, history.Mute]

theorem Log_unmuted (ctx : Context) (t : Tree) (ev : history.Event) (hctx : ctx.muted = false) :
    history.Log_StageOnly ctx t ev = { t with history := t.history ++ [ev] } := by
  simp [history.Log_StageOnly, hctx]

theorem Deposit_StageOnly_cases (ctx : Context) (t : Tree) (to_ : AccountID) (amount : Holding)
    (note : String) :
    (∃ e, Deposit_StageOnly ctx t to_ amount note = (t, .error e) ∧
      (t.accounts to_ = none ∨ ∃ a, t.accounts to_ = some a ∧ a.Assets.Deposit amount = .error e)) ∨
    (∃ a x, t.accounts to_ = some a ∧ a.Assets.Deposit amount = .ok x ∧
      Deposit_StageOnly ctx t to_ amount note =
        (history.Log_StageOnly ctx (set_StageOnly t to_ { a with Assets := x })
          (depositEvent to_ amount note), .ok ())) := by
  unfold Deposit_StageOnly Get_Local Account.Deposit
  cases ha : t.accounts to_ with
  | none => left; exact ⟨_, rfl, Or.inl rfl⟩
  | some a =>
    cases hd : a.Assets.Deposit amount with
    | error e => left; exact ⟨e, by simp [hd], Or.inr ⟨a, rfl, hd⟩⟩
    | ok x => right; exact ⟨a, x, rfl, hd, by simp [hd, depositEvent]⟩

theorem Withdraw_StageOnly_cases (ctx : Context) (t : Tree) (from_ : AccountID)
    (amount : Holding) (note : String) :
    (∃ e, Withdraw_StageOnly ctx t from_ amount note = (t, .error e) ∧
      (t.accounts from_ = none ∨
        ∃ a, t.accounts from_ = some a ∧ a.Assets.Withdraw amount = .error e)) ∨
    (∃ a x, t.accounts from_ = some a ∧ a.Assets.Withdraw amount = .ok x ∧
      Withdraw_StageOnly ctx t from_ amount note =
        (history.Log_StageOnly ctx (set_StageOnly t from_ { a with Assets := x })
          (withdrawEvent from_ amount note), .ok ())) := by
  unfold Withdraw_StageOnly Get_Local Account.Withdraw
  cases ha : t.accounts from_ with
  | none => left; exact ⟨_, rfl, Or.inl rfl⟩
  | some a =>
    cases hd : a.Assets.Withdraw amount with
    | error e => left; exact ⟨e, by simp [hd], Or.inr ⟨a, rfl, hd⟩⟩
    | ok x => right; exact ⟨a, x, rfl, hd, by simp [hd, withdrawEvent]⟩

theorem set_StageOnly_NonNeg (t : Tree) (id : AccountID) (a : Account) (ht : t.NonNeg)
    (ha : a.Assets.NonNeg) : (set_StageOnly t id a).NonNeg := by
  intro i b hb
  unfold set_StageOnly at hb
  by_cases hi : i = id
  · simp [hi] at hb; rw [← hb]; exact ha
  · simp [hi] at hb; exact ht i b hb

theorem Log_NonNeg (ctx : Context) (t : Tree) (ev : history.Event) (ht : t.NonNeg) :
    (history.Log_StageOnly ctx t ev).NonNeg := by
  intro i b hb
  rw [Log_accounts] at hb
  exact ht i b hb

theorem Deposit_StageOnly_NonNeg (ctx : Context) (t : Tree) (to_ : AccountID)
    (amount : Holding) (note : String) (ht : t.NonNeg) :
    (Deposit_StageOnly ctx t to_ amount note).1.NonNeg := by
  rcases Deposit_StageOnly_cases ctx t to_ amount note with ⟨e, he, _⟩ | ⟨a, x, ha, hx, hr⟩
  · rw [he]; exact ht
  · rw [hr]
    exact Log_NonNeg _ _ _ (set_StageOnly_NonNeg t to_ _ ht (Deposit_NonNeg _ x amount (ht to_ a ha) hx))

theorem Withdraw_StageOnly_NonNeg (ctx : Context) (t : Tree) (from_ : AccountID)
    (amount : Holding) (note : String) (ht : t.NonNeg) :
    (Withdraw_StageOnly ctx t from_ amount note).1.NonNeg := by
  rcases Withdraw_StageOnly_cases ctx t from_ amount note with ⟨e, he, _⟩ | ⟨a, x, ha, hx, hr⟩
  · rw [he]; exact ht
  · rw [hr]
    exact Log_NonNeg _ _ _
      (set_StageOnly_NonNeg t from_ _ ht (Deposit_NonNeg _ x (NegHolding amount) (ht from_ a ha) hx))

theorem Transfer_StageOnly_fst (ctx : Context) (t : Tree) (from_ to_ : AccountID)
    (amount : Holding) (note : String) :
    (Transfer_StageOnly ctx t from_ to_ amount note).1 =
      (Deposit_StageOnly (history.Mute ctx)
        (Withdraw_StageOnly (history.Mute ctx) t from_ amount note).1 to_ amount note).1 ∨
    (Transfer_StageOnly ctx t from_ to_ amount note).1 =
      (Withdraw_StageOnly (history.Mute ctx) t from_ amount note).1 ∨
    (Transfer_StageOnly ctx t from_ to_ amount note).1 =
      history.Log_StageOnly ctx (Deposit_StageOnly (history.Mute ctx)
        (Withdraw_StageOnly (history.Mute ctx) t from_ amount note).1 to_ amount note).1
        (transferEvent from_ to_ amount note) := by
  unfold Transfer_StageOnly
  rcases hw : Withdraw_StageOnly (history.Mute ctx) t from_ amount note with ⟨t1, r1⟩
  cases r1 with
  | error e => right; left; rfl
  | ok u =>
    rcases hd : Deposit_StageOnly (history.Mute ctx) t1 to_ amount note with ⟨t2, r2⟩
    cases r2 with
    | error e => left; simp [hd]
    | ok u2 => right; right; simp [hd, transferEvent]

theorem Transfer_StageOnly_NonNeg (ctx : Context) (t : Tree) (from_ to_ : AccountID)
    (amount : Holding) (note : String) (ht : t.NonNeg) :
    (Transfer_StageOnly ctx t from_ to_ amount note).1.NonNeg := by
  have hw := Withdraw_StageOnly_NonNeg (history.Mute ctx) t from_ amount note ht
  have hd := Deposit_StageOnly_NonNeg (history.Mute ctx) _ to_ amount note hw
  rcases Transfer_StageOnly_fst ctx t from_ to_ amount note with h | h | h
  · rw [h]; exact hd
  · rw [h]; exact hw
  · rw [h]; exact Log_NonNeg _ _ _ hd

theorem Create_StageOnly_cases (ctx : Context) (t : Tree) (id : AccountID) (owner : OwnerID)
    (note : String) :
    ((∃ a, t.accounts id = some a) ∧ ∃ e, Create_StageOnly ctx t id owner note = (t, .error e)) ∨
    (t.accounts id = none ∧
      Create_StageOnly ctx t id owner note =
        (history.Log_StageOnly ctx (set_StageOnly t id (NewAccount id owner))
          (createEvent id owner note), .ok ())) := by
  unfold Create_StageOnly Exists_Local Get_Local
  cases ha : t.accounts id with
  | none => right; exact ⟨rfl, by simp [git.IsNotExist, must.Assertf, createEvent]⟩
  | some a => left; exact ⟨⟨a, rfl⟩, _, by simp [must.Assertf]; rfl⟩

theorem Create_StageOnly_NonNeg (ctx : Context) (t : Tree) (id : AccountID) (owner : OwnerID)
    (note : String) (ht : t.NonNeg) : (Create_StageOnly ctx t id owner note).1.NonNeg := by
  rcases Create_StageOnly_cases ctx t id owner note with ⟨_, e, he⟩ | ⟨_, hr⟩
  · rw [he]; exact ht
  · rw [hr]
    refine Log_NonNeg _ _ _ (set_StageOnly_NonNeg t id _ ht ?_)
    intro k g hg
    simp [NewAccount, AssetHoldings.entry] at hg

end account

/-! ## Claims on the staged account operations -/

/-- C1: starting from a tree in which every holding quantity of every stored
account is non-negative, after any finite sequence of `Create_StageOnly`,
`Deposit_StageOnly`, `Withdraw_StageOnly` and `Transfer_StageOnly` calls, each
succeeding or failing, under any contexts, every holding quantity of every
stored account is still non-negative. -/
theorem account.balances_never_negative (t : Tree) (cs : List account.Call) (ht : t.NonNeg) :
    (account.Call.runAll t cs).NonNeg := by
  unfold account.Call.runAll
  induction cs generalizing t with
  | nil => exact ht
  | cons c cs ih =>
    rw [List.foldl_cons]
    apply ih
    cases c with
    | create ctx id owner note => exact account.Create_StageOnly_NonNeg ctx t id owner note ht
    | deposit ctx to_ amount note => exact account.Deposit_StageOnly_NonNeg ctx t to_ amount note ht
    | withdraw ctx from_ amount note =>
      exact account.Withdraw_StageOnly_NonNeg ctx t from_ amount note ht
    | transfer ctx from_ to_ amount note =>
      exact account.Transfer_StageOnly_NonNeg ctx t from_ to_ amount note ht

/-- C3: `Deposit_StageOnly` fails exactly when the account does not exist or
the resulting quantity would be negative, and likewise `Withdraw_StageOnly`;
whenever either fails nothing is staged: the tree after the call, and so the
stored account record and the history log, is the tree before the call. -/
theorem account.failed_deposit_or_withdraw_stages_nothing (ctx : Context) (t : Tree)
    (id : account.AccountID) (amount : account.Holding) (note : String) :
    (((∃ e, (account.Deposit_StageOnly ctx t id amount note).2 = .error e) ↔
        (t.accounts id = none ∨
          ∃ a, t.accounts id = some a ∧
            (a.Balance amount.Asset).Quantity + amount.Quantity < 0)) ∧
      ((∃ e, (account.Deposit_StageOnly ctx t id amount note).2 = .error e) →
        (account.Deposit_StageOnly ctx t id amount note).1 = t)) ∧
    (((∃ e, (account.Withdraw_StageOnly ctx t id amount note).2 = .error e) ↔
        (t.accounts id = none ∨
          ∃ a, t.accounts id = some a ∧
            (a.Balance amount.Asset).Quantity - amount.Quantity < 0)) ∧
      ((∃ e, (account.Withdraw_StageOnly ctx t id amount note).2 = .error e) →
        (account.Withdraw_StageOnly ctx t id amount note).1 = t)) := by
  refine ⟨⟨?_, ?_⟩, ⟨?_, ?_⟩⟩
  · rcases account.Deposit_StageOnly_cases ctx t id amount note with
      ⟨e1, he1, hc⟩ | ⟨a, x, ha, hx, hr⟩
    · refine ⟨fun _ => ?_, fun _ => ⟨e1, by rw [he1]⟩⟩
      rcases hc with hc | ⟨a, ha, hd⟩
      · exact Or.inl hc
      · exact Or.inr ⟨a, ha, (account.Deposit_error_iff a.Assets amount).mp ⟨e1, hd⟩⟩
    · constructor
      · rintro ⟨e, he⟩; rw [hr] at he; cases he
      · rintro (hn | ⟨b, hb, hq⟩)
        · rw [hn] at ha; cases ha
        · have hab : b = a := by rw [hb] at ha; exact Option.some.inj ha
          subst hab
          obtain ⟨e, he⟩ := (account.Deposit_error_iff b.Assets amount).mpr hq
          rw [he] at hx; cases hx
  · rintro ⟨e, he⟩
    rcases account.Deposit_StageOnly_cases ctx t id amount note with
      ⟨e1, he1, _⟩ | ⟨a, x, _, _, hr⟩
    · rw [he1]
    · rw [hr] at he; cases he
  · have hneg : ∀ a : account.Account,
        (∃ e, a.Assets.Withdraw amount = .error e) ↔
          (a.Balance amount.Asset).Quantity - amount.Quantity < 0 := by
      intro a
      have := account.Deposit_error_iff a.Assets (account.NegHolding amount)
      simpa [account.AssetHoldings.Withdraw, account.NegHolding, account.Account.Balance,
        sub_eq_add_neg] using this
    rcases account.Withdraw_StageOnly_cases ctx t id amount note with
      ⟨e1, he1, hc⟩ | ⟨a, x, ha, hx, hr⟩
    · refine ⟨fun _ => ?_, fun _ => ⟨e1, by rw [he1]⟩⟩
      rcases hc with hc | ⟨a, ha, hd⟩
      · exact Or.inl hc
      · exact Or.inr ⟨a, ha, (hneg a).mp ⟨e1, hd⟩⟩
    · constructor
      · rintro ⟨e, he⟩; rw [hr] at he; cases he
      · rintro (hn | ⟨b, hb, hq⟩)
        · rw [hn] at ha; cases ha
        · have hab : b = a := by rw [hb] at ha; exact Option.some.inj ha
          subst hab
          obtain ⟨e, he⟩ := (hneg b).mpr hq
          rw [he] at hx; cases hx
  · rintro ⟨e, he⟩
    rcases account.Withdraw_StageOnly_cases ctx t id amount note with
      ⟨e1, he1, _⟩ | ⟨a, x, _, _, hr⟩
    · rw [he1]
    · rw [hr] at he; cases he

/-! ## Lemmas on transfers -/

namespace account

theorem balance_Log (ctx : Context) (t : Tree) (ev : history.Event) (id : AccountID)
    (k : Asset) : (history.Log_StageOnly ctx t ev).balance id k = t.balance id k := by
  unfold Tree.balance
  rw [Log_accounts]

theorem balance_set_same (t : Tree) (id : AccountID) (a : Account) (k : Asset) :
    (set_StageOnly t id a).balance id k = (a.Assets.Balance k).Quantity := by
  simp [Tree.balance, set_StageOnly, Account.Balance]

theorem balance_set_other (t : Tree) (id i : AccountID) (a : Account) (k : Asset)
    (hi : i ≠ id) : (set_StageOnly t id a).balance i k = t.balance i k := by
  simp [Tree.balance, set_StageOnly, hi]

theorem Withdraw_StageOnly_ok (ctx : Context) (t : Tree) (from_ : AccountID) (amount : Holding)
    (note : String) (a : Account) (x : AssetHoldings) (ha : t.accounts from_ = some a)
    (hx : a.Assets.Withdraw amount = .ok x) :
    Withdraw_StageOnly ctx t from_ amount note =
      (history.Log_StageOnly ctx (set_StageOnly t from_ { a with Assets := x })
        (withdrawEvent from_ amount note), .ok ()) := by
  simp [Withdraw_StageOnly, Get_Local, Account.Withdraw, ha, hx, withdrawEvent]

theorem Deposit_StageOnly_ok (ctx : Context) (t : Tree) (to_ : AccountID) (amount : Holding)
    (note : String) (a : Account) (x : AssetHoldings) (ha : t.accounts to_ = some a)
    (hx : a.Assets.Deposit amount = .ok x) :
    Deposit_StageOnly ctx t to_ amount note =
      (history.Log_StageOnly ctx (set_StageOnly t to_ { a with Assets := x })
        (depositEvent to_ amount note), .ok ()) := by
  simp [Deposit_StageOnly, Get_Local, Account.Deposit, ha, hx, depositEvent]

theorem Transfer_StageOnly_ok (ctx : Context) (t t1 t2 : Tree) (from_ to_ : AccountID)
    (amount : Holding) (note : String)
    (hw : Withdraw_StageOnly (history.Mute ctx) t from_ amount note = (t1, .ok ()))
    (hd : Deposit_StageOnly (history.Mute ctx) t1 to_ amount note = (t2, .ok ())) :
    Transfer_StageOnly ctx t from_ to_ amount note =
      (history.Log_StageOnly ctx t2 (transferEvent from_ to_ amount note), .ok ()) := by
  simp [Transfer_StageOnly, hw, hd, transferEvent]

theorem Transfer_StageOnly_ok_inv (ctx : Context) (t : Tree) (from_ to_ : AccountID)
    (amount : Holding) (note : String)
    (hok : (Transfer_StageOnly ctx t from_ to_ amount note).2 = .ok ()) :
    ∃ t1 t2, Withdraw_StageOnly (history.Mute ctx) t from_ amount note = (t1, .ok ()) ∧
      Deposit_StageOnly (history.Mute ctx) t1 to_ amount note = (t2, .ok ()) ∧
      Transfer_StageOnly ctx t from_ to_ amount note =
        (history.Log_StageOnly ctx t2 (transferEvent from_ to_ amount note), .ok ()) := by
  unfold Transfer_StageOnly at hok ⊢
  rcases hw : Withdraw_StageOnly (history.Mute ctx) t from_ amount note with ⟨t1, r1⟩
  rw [hw] at hok
  cases r1 with
  | error e => simp at hok
  | ok u =>
    rcases hd : Deposit_StageOnly (history.Mute ctx) t1 to_ amount note with ⟨t2, r2⟩
    simp only [hd] at hok
    cases r2 with
    | error e => simp at hok
    | ok u2 => exact ⟨t1, t2, rfl, by rw [hd], by simp [hd, transferEvent]⟩

theorem muted_Deposit_history (ctx : Context) (t : Tree) (to_ : AccountID) (amount : Holding)
    (note : String) :
    (Deposit_StageOnly (history.Mute ctx) t to_ amount note).1.history = t.history := by
  rcases Deposit_StageOnly_cases (history.Mute ctx) t to_ amount note with
    ⟨e, he, _⟩ | ⟨a, x, _, _, hr⟩
  · rw [he]
  · rw [hr, Log_muted]; rfl

theorem muted_Withdraw_history (ctx : Context) (t : Tree) (from_ : AccountID)
    (amount : Holding) (note : String) :
    (Withdraw_StageOnly (history.Mute ctx) t from_ amount note).1.history = t.history := by
  rcases Withdraw_StageOnly_cases (history.Mute ctx) t from_ amount note with
    ⟨e, he, _⟩ | ⟨a, x, _, _, hr⟩
  · rw [he]
  · rw [hr, Log_muted]; rfl

theorem sum_map_shift (l : List AccountID) (f g : AccountID → Int) (a b : AccountID) (q : Int)
    (hab : a ≠ b) (hga : g a = f a - q) (hgb : g b = f b + q)
    (hother : ∀ i, i ≠ a → i ≠ b → g i = f i) (hnd : l.Nodup) :
    (l.map g).sum = (l.map f).sum + (if a ∈ l then -q else 0) + (if b ∈ l then q else 0) := by
  induction l with
  | nil => simp
  | cons i l ih =>
    rw [List.nodup_cons] at hnd
    obtain ⟨hi, hnd⟩ := hnd
    have ih := ih hnd
    simp only [List.map_cons, List.sum_cons, List.mem_cons]
    by_cases hia : i = a
    · subst hia
      have hbi : ¬ b = i := fun h => hab h.symm
      simp only [true_or, if_true, hbi, false_or, if_neg hi] at ih ⊢
      rw [ih, hga]
      omega
    · by_cases hib : i = b
      · subst hib
        have hai : ¬ a = i := fun h => hab h
        simp only [true_or, if_true, hai, false_or, if_neg hi] at ih ⊢
        rw [ih, hgb]
        omega
      · have hai : ¬ a = i := fun h => hia h.symm
        have hbi : ¬ b = i := fun h => hib h.symm
        simp only [hai, hbi, false_or]
        rw [ih, hother i hia hib]
        omega

theorem balance_of_some (t : Tree) (id : AccountID) (a : Account) (k : Asset)
    (ha : t.accounts id = some a) : t.balance id k = (a.Assets.Balance k).Quantity := by
  simp [Tree.balance, ha, Account.Balance]

theorem Transfer_StageOnly_effect (ctx : Context) (t : Tree) (from_ to_ : AccountID)
    (amount : Holding) (note : String) (af at_ : Account) (hne : from_ ≠ to_)
    (hf : t.accounts from_ = some af) (ht : t.accounts to_ = some at_)
    (hw : 0 ≤ (af.Assets.Balance amount.Asset).Quantity - amount.Quantity)
    (hd : 0 ≤ (at_.Assets.Balance amount.Asset).Quantity + amount.Quantity) :
    ∃ xf xt, af.Assets.Withdraw amount = .ok xf ∧ at_.Assets.Deposit amount = .ok xt ∧
      Transfer_StageOnly ctx t from_ to_ amount note =
        (history.Log_StageOnly ctx
          (set_StageOnly (set_StageOnly t from_ { af with Assets := xf }) to_
            { at_ with Assets := xt })
          (transferEvent from_ to_ amount note), .ok ()) := by
  obtain ⟨xf, hxf⟩ : ∃ y, af.Assets.Withdraw amount = .ok y := by
    apply (Deposit_ok_iff af.Assets (NegHolding amount)).mpr
    simp only [NegHolding]
    omega
  obtain ⟨xt, hxt⟩ : ∃ y, at_.Assets.Deposit amount = .ok y :=
    (Deposit_ok_iff at_.Assets amount).mpr hd
  refine ⟨xf, xt, hxf, hxt, ?_⟩
  have hW := Withdraw_StageOnly_ok (history.Mute ctx) t from_ amount note af xf hf hxf
  rw [Log_muted] at hW
  have ht1 : (set_StageOnly t from_ { af with Assets := xf }).accounts to_ = some at_ := by
    have : ¬ to_ = from_ := fun h => hne h.symm
    simp [set_StageOnly, this, ht]
  have hD := Deposit_StageOnly_ok (history.Mute ctx) _ to_ amount note at_ xt ht1 hxt
  rw [Log_muted] at hD
  exact Transfer_StageOnly_ok ctx t _ _ from_ to_ amount note hW hD

theorem balance_nonneg (t : Tree) (hst : t.NonNeg) (id : AccountID) (k : Asset) :
    0 ≤ t.balance id k := by
  unfold Tree.balance
  cases ha : t.accounts id with
  | none => exact le_refl _
  | some a =>
    simp only [Account.Balance, AssetHoldings.Balance]
    cases he : a.Assets.entry k with
    | none => exact le_refl _
    | some g => exact hst id a ha k g he

theorem Transfer_StageOnly_conserved (ctx : Context) (t : Tree) (from_ to_ : AccountID)
    (h : Holding) (note : String) (af at_ : Account)
    (hne : from_ ≠ to_) (hf : t.accounts from_ = some af) (ht : t.accounts to_ = some at_)
    (hw : 0 ≤ t.balance from_ h.Asset - h.Quantity)
    (hd : 0 ≤ t.balance to_ h.Asset + h.Quantity) :
    (Transfer_StageOnly ctx t from_ to_ h note).2 = .ok () ∧
    (Transfer_StageOnly ctx t from_ to_ h note).1.balance from_ h.Asset =
      t.balance from_ h.Asset - h.Quantity ∧
    (Transfer_StageOnly ctx t from_ to_ h note).1.balance to_ h.Asset =
      t.balance to_ h.Asset + h.Quantity ∧
    (∃ af1 at1,
      (Transfer_StageOnly ctx t from_ to_ h note).1.accounts from_ = some af1 ∧
      (Transfer_StageOnly ctx t from_ to_ h note).1.accounts to_ = some at1 ∧
      af1.ID = af.ID ∧ af1.Owner = af.Owner ∧ at1.ID = at_.ID ∧ at1.Owner = at_.Owner ∧
      ∀ k, k ≠ h.Asset →
        af1.Assets.entry k = af.Assets.entry k ∧ at1.Assets.entry k = at_.Assets.entry k) ∧
    (∀ id, id ≠ from_ → id ≠ to_ →
      (Transfer_StageOnly ctx t from_ to_ h note).1.accounts id = t.accounts id) ∧
    (∀ ids : List AccountID, ids.Nodup → from_ ∈ ids → to_ ∈ ids →
      (Transfer_StageOnly ctx t from_ to_ h note).1.total ids h.Asset =
        t.total ids h.Asset) := by
  have hbf := balance_of_some t from_ af h.Asset hf
  have hbt := balance_of_some t to_ at_ h.Asset ht
  obtain ⟨xf, xt, hxf, hxt, hT⟩ :=
    Transfer_StageOnly_effect ctx t from_ to_ h note af at_ hne hf ht
      (by omega) (by omega)
  obtain ⟨hf1, _, hf3, _, _⟩ := Deposit_ok_effect af.Assets xf (NegHolding h) hxf
  obtain ⟨ht1, _, ht3, _, _⟩ := Deposit_ok_effect at_.Assets xt h hxt
  have htf : ¬ to_ = from_ := fun e => hne e.symm
  have hbalf : (Transfer_StageOnly ctx t from_ to_ h note).1.balance from_ h.Asset =
      t.balance from_ h.Asset - h.Quantity := by
    rw [hT]
    simp only []
    rw [balance_Log, balance_set_other _ _ _ _ _ hne, balance_set_same]
    simp only [NegHolding] at hf1
    rw [hf1, hbf]
    omega
  have hbalt : (Transfer_StageOnly ctx t from_ to_ h note).1.balance to_ h.Asset =
      t.balance to_ h.Asset + h.Quantity := by
    rw [hT]
    simp only []
    rw [balance_Log, balance_set_same, ht1, hbt]
  have hother : ∀ id, id ≠ from_ → id ≠ to_ →
      (Transfer_StageOnly ctx t from_ to_ h note).1.accounts id = t.accounts id := by
    intro id h1 h2
    rw [hT]
    simp only []
    rw [Log_accounts]
    simp [set_StageOnly, h1, h2]
  refine ⟨by rw [hT], hbalf, hbalt, ?_, hother, ?_⟩
  · refine ⟨{ af with Assets := xf }, { at_ with Assets := xt }, ?_, ?_, rfl, rfl, rfl, rfl, ?_⟩
    · rw [hT]
      simp only []
      rw [Log_accounts]
      simp [set_StageOnly, hne]
    · rw [hT]
      simp only []
      rw [Log_accounts]
      simp [set_StageOnly]
    · intro k hk
      exact ⟨hf3 k hk, ht3 k hk⟩
  · intro ids hnd hfm htm
    unfold Tree.total
    rw [sum_map_shift ids (fun id => t.balance id h.Asset) _ from_ to_ h.Quantity hne
      hbalf hbalt ?_ hnd]
    · simp [hfm, htm]
    · intro i h1 h2
      simp only [Tree.balance]
      rw [hother i h1 h2]

end account

theorem account.f64.Deposit_exact (x : account.AssetHoldings) (h : account.Holding)
    (hx : float64.round ((x.Balance h.Asset).Quantity + h.Quantity) =
      (x.Balance h.Asset).Quantity + h.Quantity) :
    account.f64.AssetHoldings.Deposit x h = x.Deposit h := by
  unfold account.f64.AssetHoldings.Deposit account.AssetHoldings.Deposit
  unfold account.AssetHoldings.Balance at hx
  cases he : x.entry h.Asset with
  | none => rfl
  | some g =>
    rw [he] at hx
    simp only [] at hx
    simp only [account.f64.SumHolding, account.SumHolding, float64.add, hx]

theorem account.f64.Deposit_StageOnly_exact (ctx : Context) (t : Tree) (to_ : account.AccountID)
    (amount : account.Holding) (note : String) (a : account.Account)
    (ha : t.accounts to_ = some a)
    (hx : float64.round ((a.Assets.Balance amount.Asset).Quantity + amount.Quantity) =
      (a.Assets.Balance amount.Asset).Quantity + amount.Quantity) :
    account.f64.Deposit_StageOnly ctx t to_ amount note =
      account.Deposit_StageOnly ctx t to_ amount note := by
  simp only [account.f64.Deposit_StageOnly, account.Deposit_StageOnly, account.Get_Local, ha,
    account.f64.Account.Deposit, account.Account.Deposit,
    account.f64.Deposit_exact a.Assets amount hx]

theorem account.f64.Withdraw_StageOnly_exact (ctx : Context) (t : Tree)
    (from_ : account.AccountID) (amount : account.Holding) (note : String)
    (a : account.Account) (ha : t.accounts from_ = some a)
    (hx : float64.round ((a.Assets.Balance amount.Asset).Quantity + -amount.Quantity) =
      (a.Assets.Balance amount.Asset).Quantity + -amount.Quantity) :
    account.f64.Withdraw_StageOnly ctx t from_ amount note =
      account.Withdraw_StageOnly ctx t from_ amount note := by
  simp only [account.f64.Withdraw_StageOnly, account.Withdraw_StageOnly, account.Get_Local, ha,
    account.f64.Account.Withdraw, account.Account.Withdraw, account.f64.AssetHoldings.Withdraw,
    account.AssetHoldings.Withdraw,
    account.f64.Deposit_exact a.Assets (account.NegHolding amount) hx]

theorem account.f64.Transfer_StageOnly_exact (ctx : Context) (t : Tree)
    (from_ to_ : account.AccountID) (amount : account.Holding) (note : String)
    (af at_ : account.Account) (hne : from_ ≠ to_)
    (hf : t.accounts from_ = some af) (ht : t.accounts to_ = some at_)
    (hxf : float64.round ((af.Assets.Balance amount.Asset).Quantity + -amount.Quantity) =
      (af.Assets.Balance amount.Asset).Quantity + -amount.Quantity)
    (hxt : float64.round ((at_.Assets.Balance amount.Asset).Quantity + amount.Quantity) =
      (at_.Assets.Balance amount.Asset).Quantity + amount.Quantity) :
    account.f64.Transfer_StageOnly ctx t from_ to_ amount note =
      account.Transfer_StageOnly ctx t from_ to_ amount note := by
  unfold account.f64.Transfer_StageOnly account.Transfer_StageOnly
  rw [account.f64.Withdraw_StageOnly_exact (history.Mute ctx) t from_ amount note af hf hxf]
  rcases account.Withdraw_StageOnly_cases (history.Mute ctx) t from_ amount note with
    ⟨e, he, _⟩ | ⟨a, x, _, _, hr⟩
  · rw [he]
  · rw [hr]
    simp only []
    have ht1 : (history.Log_StageOnly (history.Mute ctx)
        (account.set_StageOnly t from_ { a with Assets := x })
        (account.withdrawEvent from_ amount note)).accounts to_ = some at_ := by
      rw [account.Log_accounts]
      have : ¬ to_ = from_ := fun e => hne e.symm
      simp [account.set_StageOnly, this, ht]
    rw [account.f64.Deposit_StageOnly_exact (history.Mute ctx) _ to_ amount note at_ ht1 hxt]

theorem account.f64.Deposit_keeps_NonNeg (x y : account.AssetHoldings) (h : account.Holding)
    (hx : x.NonNeg) (hy : account.f64.AssetHoldings.Deposit x h = .ok y) : y.NonNeg := by
  unfold account.f64.AssetHoldings.Deposit account.f64.SumHolding must.Assertf at hy
  have key : ∀ d : account.Holding, d.Asset = h.Asset → 0 ≤ d.Quantity →
      (x.assign h.Asset d).NonNeg := by
    intro d ha hq k g hg
    by_cases hk : k = h.Asset
    · rw [hk, account.entry_assign_same x _ d ha] at hg
      cases hg
      exact hq
    · rw [account.entry_assign_other x _ k d ha hk] at hg
      exact hx k g hg
  cases he : x.entry h.Asset with
  | none =>
    rw [he] at hy
    by_cases hq : h.Quantity ≥ 0
    · simp only [hq, decide_True, if_true, Except.ok.injEq] at hy
      rw [← hy]
      exact key h rfl hq
    · simp [hq] at hy
  | some g =>
    rw [he] at hy
    have ha : g.Asset = h.Asset := account.entry_asset x _ g he
    by_cases hq : float64.add g.Quantity h.Quantity ≥ 0
    · simp only [ha, decide_True, if_true, hq, Except.ok.injEq] at hy
      rw [← hy]
      exact key _ rfl hq
    · simp [ha, hq] at hy

theorem account.f64.Deposit_StageOnly_keeps_NonNeg (ctx : Context) (t : Tree)
    (to_ : account.AccountID) (amount : account.Holding) (note : String) (ht : t.NonNeg) :
    (account.f64.Deposit_StageOnly ctx t to_ amount note).1.NonNeg := by
  unfold account.f64.Deposit_StageOnly account.Get_Local account.f64.Account.Deposit
  cases ha : t.accounts to_ with
  | none => exact ht
  | some a =>
    cases hd : account.f64.AssetHoldings.Deposit a.Assets amount with
    | error e => simp only [hd]; exact ht
    | ok x =>
      simp only [hd]
      exact account.Log_NonNeg _ _ _
        (account.set_StageOnly_NonNeg t to_ { a with Assets := x } ht
          (account.f64.Deposit_keeps_NonNeg _ x amount (ht to_ a ha) hd))

theorem account.f64.Withdraw_StageOnly_keeps_NonNeg (ctx : Context) (t : Tree)
    (from_ : account.AccountID) (amount : account.Holding) (note : String) (ht : t.NonNeg) :
    (account.f64.Withdraw_StageOnly ctx t from_ amount note).1.NonNeg := by
  unfold account.f64.Withdraw_StageOnly account.Get_Local account.f64.Account.Withdraw
    account.f64.AssetHoldings.Withdraw
  cases ha : t.accounts from_ with
  | none => exact ht
  | some a =>
    cases hd : account.f64.AssetHoldings.Deposit a.Assets (account.NegHolding amount) with
    | error e => simp only [hd]; exact ht
    | ok x =>
      simp only [hd]
      exact account.Log_NonNeg _ _ _
        (account.set_StageOnly_NonNeg t from_ { a with Assets := x } ht
          (account.f64.Deposit_keeps_NonNeg _ x (account.NegHolding amount) (ht from_ a ha) hd))

theorem account.f64.Transfer_StageOnly_keeps_NonNeg (ctx : Context) (t : Tree)
    (from_ to_ : account.AccountID) (amount : account.Holding) (note : String)
    (ht : t.NonNeg) : (account.f64.Transfer_StageOnly ctx t from_ to_ amount note).1.NonNeg := by
  have hw := account.f64.Withdraw_StageOnly_keeps_NonNeg (history.Mute ctx) t from_ amount note ht
  unfold account.f64.Transfer_StageOnly
  rcases hW : account.f64.Withdraw_StageOnly (history.Mute ctx) t from_ amount note with ⟨t1, r1⟩
  rw [hW] at hw
  cases r1 with
  | error e => exact hw
  | ok u =>
    have hd := account.f64.Deposit_StageOnly_keeps_NonNeg (history.Mute ctx) t1 to_ amount note hw
    rcases hD : account.f64.Deposit_StageOnly (history.Mute ctx) t1 to_ amount note with ⟨t2, r2⟩
    rw [hD] at hd
    cases r2 with
    | error e => simp only [hD]; exact hd
    | ok u2 => simp only [hD]; exact account.Log_NonNeg _ _ _ hd

theorem float64.excess_of_lt (fuel n : Nat) (h : n < 2 ^ 53) : float64.excess fuel n = 0 := by
  cases fuel with
  | zero => rfl
  | succ fuel => unfold float64.excess; rw [if_pos h]

theorem float64.round_of_lt (x : Int) (h : x.natAbs < 2 ^ 53) : float64.round x = x := by
  unfold float64.round
  simp only [float64.excess_of_lt _ _ h, pow_zero, Nat.div_one, Nat.mod_one, Nat.mul_one,
    Nat.mul_zero]
  have hc : ¬ (1 < 0 ∨ (0 = 1 ∧ x.natAbs % 2 = 1)) := by omega
  rw [if_neg hc]
  split <;> omega

theorem float64.round_of_IsValue (x : Int) (h : float64.IsValue x = true) :
    float64.round x = x := by
  simp only [float64.IsValue, Bool.and_eq_true, decide_eq_true_eq] at h
  exact h.1

/-! ## Claims on transfers and account creation -/

theorem Example.tree_NonNeg : Example.tree.NonNeg := by
  intro id a ha k g hg
  simp only [Example.tree, Tree.empty] at ha
  split at ha
  · cases ha
    simp only [Example.alice, Example.plural, account.AssetHoldings.entry, List.find?_cons,
      List.find?_nil] at hg
    split at hg
    · cases hg; decide
    · cases hg
  · split at ha
    · cases ha
      simp [Example.bob, account.AssetHoldings.entry] at hg
    · cases ha

theorem Example.ledger_NonNeg : Example.ledger.NonNeg := by
  have h0 : Tree.empty.NonNeg := by
    intro id a ha
    cases ha
  exact account.f64.Deposit_StageOnly_keeps_NonNeg _ _ _ _ _
    (account.f64.Deposit_StageOnly_keeps_NonNeg _ _ _ _ _
      (account.Create_StageOnly_NonNeg _ _ _ _ _
        (account.Create_StageOnly_NonNeg _ _ _ _ _ h0)))

theorem Example.ledgerAlice_NonNeg : Example.ledgerAlice.NonNeg := by
  have h0 : Tree.empty.NonNeg := by
    intro id a ha
    cases ha
  exact account.f64.Deposit_StageOnly_keeps_NonNeg _ _ _ _ _
    (account.Create_StageOnly_NonNeg _ _ _ _ _
      (account.Create_StageOnly_NonNeg _ _ _ _ _ h0))

/-- C5, as stated, fails: the quantities are `float64` values, and each of the
two sums of a transfer is rounded. In both trees the accounts of alice and bob
are distinct and exist, no holding is negative, and the quantity is between 0
and the balance of alice.

On the first tree alice holds 1 of `plural` and bob holds 2^53, both staged by
deposits. `Transfer_StageOnly` of 1 from alice to bob succeeds and leaves alice
with 0, yet the balance of bob is still 2^53, because 2^53 + 1 is not a
`float64` and is rounded to 2^53: the balance is not raised by the quantity,
and the total of the asset over the two accounts is not the total of before.

On the second tree alice holds 2^53 and bob holds none. `Transfer_StageOnly` of
one half from alice to bob succeeds and leaves bob with one half, yet the
balance of alice is still 2^53, because 2^53 - 1/2 is not a `float64` and is
rounded to 2^53: the balance is not lowered by the quantity, and again the
total is not the total of before. -/
theorem account.transfer_rounds_its_sums :
    "alice" ≠ "bob" ∧
    (Example.ledger.NonNeg ∧
      Example.ledger.accounts "alice" =
        some ⟨"alice", "alice", ⟨[Example.plural (float64.ofNat 1)]⟩⟩ ∧
      Example.ledger.accounts "bob" =
        some ⟨"bob", "bob", ⟨[Example.plural (float64.ofNat (2 ^ 53))]⟩⟩ ∧
      0 ≤ (Example.plural (float64.ofNat 1)).Quantity ∧
      (Example.plural (float64.ofNat 1)).Quantity ≤ Example.ledger.balance "alice" "plural" ∧
      float64.IsValue
        (Example.ledger.balance "bob" "plural" + (Example.plural (float64.ofNat 1)).Quantity) =
        false ∧
      (account.f64.Transfer_StageOnly Example.ctx Example.ledger "alice" "bob"
        (Example.plural (float64.ofNat 1)) "n").2 = .ok () ∧
      (account.f64.Transfer_StageOnly Example.ctx Example.ledger "alice" "bob"
        (Example.plural (float64.ofNat 1)) "n").1.balance "alice" "plural" = 0 ∧
      (account.f64.Transfer_StageOnly Example.ctx Example.ledger "alice" "bob"
        (Example.plural (float64.ofNat 1)) "n").1.balance "bob" "plural" =
        Example.ledger.balance "bob" "plural" ∧
      (account.f64.Transfer_StageOnly Example.ctx Example.ledger "alice" "bob"
        (Example.plural (float64.ofNat 1)) "n").1.balance "bob" "plural" ≠
        Example.ledger.balance "bob" "plural" + (Example.plural (float64.ofNat 1)).Quantity ∧
      (account.f64.Transfer_StageOnly Example.ctx Example.ledger "alice" "bob"
        (Example.plural (float64.ofNat 1)) "n").1.total ["alice", "bob"] "plural" ≠
        Example.ledger.total ["alice", "bob"] "plural") ∧
    (Example.ledgerAlice.NonNeg ∧
      Example.ledgerAlice.accounts "alice" =
        some ⟨"alice", "alice", ⟨[Example.plural (float64.ofNat (2 ^ 53))]⟩⟩ ∧
      Example.ledgerAlice.accounts "bob" = some ⟨"bob", "bob", ⟨[]⟩⟩ ∧
      0 ≤ (Example.plural (float64.ofNat 1 / 2)).Quantity ∧
      (Example.plural (float64.ofNat 1 / 2)).Quantity ≤
        Example.ledgerAlice.balance "alice" "plural" ∧
      (Example.plural (float64.ofNat 1 / 2)).Quantity * 2 = float64.ofNat 1 ∧
      float64.IsValue
        (Example.ledgerAlice.balance "alice" "plural" -
          (Example.plural (float64.ofNat 1 / 2)).Quantity) = false ∧
      (account.f64.Transfer_StageOnly Example.ctx Example.ledgerAlice "alice" "bob"
        (Example.plural (float64.ofNat 1 / 2)) "n").2 = .ok () ∧
      (account.f64.Transfer_StageOnly Example.ctx Example.ledgerAlice "alice" "bob"
        (Example.plural (float64.ofNat 1 / 2)) "n").1.balance "bob" "plural" =
        float64.ofNat 1 / 2 ∧
      (account.f64.Transfer_StageOnly Example.ctx Example.ledgerAlice "alice" "bob"
        (Example.plural (float64.ofNat 1 / 2)) "n").1.balance "alice" "plural" =
        Example.ledgerAlice.balance "alice" "plural" ∧
      (account.f64.Transfer_StageOnly Example.ctx Example.ledgerAlice "alice" "bob"
        (Example.plural (float64.ofNat 1 / 2)) "n").1.balance "alice" "plural" ≠
        Example.ledgerAlice.balance "alice" "plural" -
          (Example.plural (float64.ofNat 1 / 2)).Quantity ∧
      (account.f64.Transfer_StageOnly Example.ctx Example.ledgerAlice "alice" "bob"
        (Example.plural (float64.ofNat 1 / 2)) "n").1.total ["alice", "bob"] "plural" ≠
        Example.ledgerAlice.total ["alice", "bob"] "plural") :=
  ⟨by decide,
   ⟨Example.ledger_NonNeg, by decide, by decide, by decide, by decide, by decide, rfl,
    by decide, by decide, by decide, by decide⟩,
   ⟨Example.ledgerAlice_NonNeg, by decide, by decide, by decide, by decide, by decide,
    by decide, rfl, by decide, by decide, by decide, by decide⟩⟩

/-- C5, amended: on a tree in which no holding is negative, for distinct
existing accounts `from_` and `to_` and a holding with 0 ≤ quantity ≤ the
balance of `from_`, where the balance of `from_` minus the quantity and the
balance of `to_` plus the quantity are themselves `float64` values,
`Transfer_StageOnly` succeeds, lowers the balance of `from_` by exactly the
quantity, raises the balance of `to_` by exactly the quantity, leaves every
other asset of both accounts and every other account unchanged, and so leaves
the total of the asset over any duplicate-free list of account ids containing
both the same. -/
theorem account.transfer_conserves (ctx : Context) (t : Tree) (from_ to_ : account.AccountID)
    (h : account.Holding) (note : String) (af at_ : account.Account)
    (hst : t.NonNeg)
    (hne : from_ ≠ to_) (hf : t.accounts from_ = some af) (ht : t.accounts to_ = some at_)
    (h0 : 0 ≤ h.Quantity) (hle : h.Quantity ≤ t.balance from_ h.Asset)
    (hxf : float64.IsValue (t.balance from_ h.Asset - h.Quantity) = true)
    (hxt : float64.IsValue (t.balance to_ h.Asset + h.Quantity) = true) :
    (account.f64.Transfer_StageOnly ctx t from_ to_ h note).2 = .ok () ∧
    (account.f64.Transfer_StageOnly ctx t from_ to_ h note).1.balance from_ h.Asset =
      t.balance from_ h.Asset - h.Quantity ∧
    (account.f64.Transfer_StageOnly ctx t from_ to_ h note).1.balance to_ h.Asset =
      t.balance to_ h.Asset + h.Quantity ∧
    (∃ af1 at1,
      (account.f64.Transfer_StageOnly ctx t from_ to_ h note).1.accounts from_ = some af1 ∧
      (account.f64.Transfer_StageOnly ctx t from_ to_ h note).1.accounts to_ = some at1 ∧
      af1.ID = af.ID ∧ af1.Owner = af.Owner ∧ at1.ID = at_.ID ∧ at1.Owner = at_.Owner ∧
      ∀ k, k ≠ h.Asset →
        af1.Assets.entry k = af.Assets.entry k ∧ at1.Assets.entry k = at_.Assets.entry k) ∧
    (∀ id, id ≠ from_ → id ≠ to_ →
      (account.f64.Transfer_StageOnly ctx t from_ to_ h note).1.accounts id = t.accounts id) ∧
    (∀ ids : List account.AccountID, ids.Nodup → from_ ∈ ids → to_ ∈ ids →
      (account.f64.Transfer_StageOnly ctx t from_ to_ h note).1.total ids h.Asset =
        t.total ids h.Asset) := by
  have hbf := account.balance_of_some t from_ af h.Asset hf
  have hbt := account.balance_of_some t to_ at_ h.Asset ht
  have hrf := float64.round_of_IsValue _ hxf
  have hrt := float64.round_of_IsValue _ hxt
  rw [hbf, sub_eq_add_neg] at hrf
  rw [hbt] at hrt
  rw [account.f64.Transfer_StageOnly_exact ctx t from_ to_ h note af at_ hne hf ht hrf hrt]
  have hto := account.balance_nonneg t hst to_ h.Asset
  exact account.Transfer_StageOnly_conserved ctx t from_ to_ h note af at_ hne hf ht
    (by omega) (by omega)

/-- C5, amended, at a concrete input: a transfer of 3 of `plural` from alice,
who holds 5, to bob, who holds none. -/
theorem account.transfer_conserves_witness :
    Example.tree.NonNeg ∧
    float64.IsValue (Example.tree.balance "alice" "plural" - 3) = true ∧
    float64.IsValue (Example.tree.balance "bob" "plural" + 3) = true ∧
    (account.f64.Transfer_StageOnly Example.ctx Example.tree "alice" "bob"
      (Example.plural 3) "n").2 = .ok () ∧
    (account.f64.Transfer_StageOnly Example.ctx Example.tree "alice" "bob"
      (Example.plural 3) "n").1.total ["alice", "bob"] "plural" =
      Example.tree.total ["alice", "bob"] "plural" := by
  have hw := account.transfer_conserves Example.ctx Example.tree "alice" "bob"
    (Example.plural 3) "n" Example.alice Example.bob Example.tree_NonNeg (by decide) (by rfl)
    (by rfl) (by decide) (by decide) (by decide) (by decide)
  exact ⟨Example.tree_NonNeg, by decide, by decide, hw.1,
    hw.2.2.2.2.2 ["alice", "bob"] (by decide) (by decide) (by decide)⟩

/-- C6: at a concrete input the code stages half a transfer and then fails.
Alice holds 5 of `plural` and there is no account `bob`; `Transfer_StageOnly`
of 3 from alice to bob fails, and `TryTransfer_StageOnly` returns a non-nil
error, yet the tree left behind stores alice with 2: the withdrawal stays
staged, while the history log is unchanged. -/
theorem account.failed_transfer_keeps_withdrawal_staged :
    (account.Transfer_StageOnly Example.ctx Example.treeAlice "alice" "bob"
      (Example.plural 3) "n").2 = .error (.notExist "account/bob") ∧
    (account.TryTransfer_StageOnly Example.ctx Example.treeAlice "alice" "bob"
      (Example.plural 3) "n").2 = some (.notExist "account/bob") ∧
    Example.treeAlice.accounts "alice" = some Example.alice ∧
    Example.treeAlice.balance "alice" "plural" = 5 ∧
    (account.TryTransfer_StageOnly Example.ctx Example.treeAlice "alice" "bob"
      (Example.plural 3) "n").1.accounts "alice" =
      some { Example.alice with Assets := { entries := [Example.plural 2] } } ∧
    (account.TryTransfer_StageOnly Example.ctx Example.treeAlice "alice" "bob"
      (Example.plural 3) "n").1.balance "alice" "plural" = 2 ∧
    (account.Transfer_StageOnly Example.ctx Example.treeAlice "alice" "bob"
      (Example.plural 3) "n").1.balance "alice" "plural" = 2 ∧
    (account.TryTransfer_StageOnly Example.ctx Example.treeAlice "alice" "bob"
      (Example.plural 3) "n").1.history = Example.treeAlice.history :=
  ⟨rfl, by decide, by decide, by decide, by decide, by decide, by decide, by decide⟩

/-- C7, as stated, fails: under a muted context the transfer of 3 of `plural`
from alice to bob succeeds and moves the 3, yet the history log is left as it
was, so it does not grow by an event. -/
theorem account.muted_transfer_logs_no_event :
    (history.Mute Example.ctx).muted = true ∧
    (account.Transfer_StageOnly (history.Mute Example.ctx) Example.tree "alice" "bob"
      (Example.plural 3) "n").2 = .ok () ∧
    (account.Transfer_StageOnly (history.Mute Example.ctx) Example.tree "alice" "bob"
      (Example.plural 3) "n").1.balance "bob" "plural" = 3 ∧
    (account.Transfer_StageOnly (history.Mute Example.ctx) Example.tree "alice" "bob"
      (Example.plural 3) "n").1.history = Example.tree.history ∧
    (account.Transfer_StageOnly (history.Mute Example.ctx) Example.tree "alice" "bob"
      (Example.plural 3) "n").1.history.length ≠ Example.tree.history.length + 1 :=
  ⟨rfl, rfl, by decide, by decide, by decide⟩

/-- C7, amended: for every successful `Transfer_StageOnly`, when the context of
the call is not muted the history log grows by exactly one event, whose op is
`account_transfer` with the given note and the args `from`, `to` and `amount`;
and under every context the inner withdrawal and deposit, run under the muted
context, leave the history log as it was, so no `account_withdraw` or
`account_deposit` event is added. -/
theorem account.transfer_logs_exactly_one_event (ctx : Context) (t : Tree)
    (from_ to_ : account.AccountID) (amount : account.Holding) (note : String)
    (hok : (account.Transfer_StageOnly ctx t from_ to_ amount note).2 = .ok ()) :
    (ctx.muted = false →
      (account.Transfer_StageOnly ctx t from_ to_ amount note).1.history =
        t.history ++
          [{ Op := { Op := "account_transfer", Note := note,
                     Args := [("from", .str from_), ("to", .str to_),
                              ("amount", .holding amount)],
                     Result := none } }]) ∧
    (account.Withdraw_StageOnly (history.Mute ctx) t from_ amount note).1.history = t.history ∧
    (account.Deposit_StageOnly (history.Mute ctx)
      (account.Withdraw_StageOnly (history.Mute ctx) t from_ amount note).1
      to_ amount note).1.history = t.history := by
  obtain ⟨t1, t2, hW, hD, hT⟩ := account.Transfer_StageOnly_ok_inv ctx t from_ to_ amount note hok
  have h1 := account.muted_Withdraw_history ctx t from_ amount note
  have h2 := account.muted_Deposit_history ctx
    (account.Withdraw_StageOnly (history.Mute ctx) t from_ amount note).1 to_ amount note
  refine ⟨?_, h1, by rw [h2, h1]⟩
  intro hctx
  rw [hT, account.Log_unmuted ctx t2 _ hctx]
  rw [hW] at h1 h2
  rw [hD] at h2
  simp only [] at h1 h2
  simp only [account.transferEvent]
  rw [h2, h1]

/-- C7, amended, at a concrete input: the transfer of 3 of `plural` from alice
to bob, under a context that is not muted, on a tree with an empty history
log. -/
theorem account.transfer_logs_exactly_one_event_witness :
    Example.ctx.muted = false ∧
    (account.Transfer_StageOnly Example.ctx Example.tree "alice" "bob"
      (Example.plural 3) "n").1.history =
      Example.tree.history ++
        [{ Op := { Op := "account_transfer", Note := "n",
                   Args := [("from", .str "alice"), ("to", .str "bob"),
                            ("amount", .holding (Example.plural 3))],
                   Result := none } }] :=
  ⟨rfl, (account.transfer_logs_exactly_one_event Example.ctx Example.tree "alice" "bob"
    (Example.plural 3) "n" rfl).1 rfl⟩

/-- C8, as stated, fails: under a muted context `Create_StageOnly` of the
account `bob`, on a tree that stores only alice, succeeds and stores the
account, yet the history log is left as it was: no `account_create` event is
logged. -/
theorem account.muted_create_logs_no_event :
    (history.Mute Example.ctx).muted = true ∧
    Example.treeAlice.accounts "bob" = none ∧
    (account.Create_StageOnly (history.Mute Example.ctx) Example.treeAlice "bob" "bob" "n").2 =
      .ok () ∧
    (account.Create_StageOnly (history.Mute Example.ctx) Example.treeAlice "bob" "bob"
      "n").1.accounts "bob" = some { ID := "bob", Owner := "bob", Assets := { entries := [] } } ∧
    (account.Create_StageOnly (history.Mute Example.ctx) Example.treeAlice "bob" "bob"
      "n").1.history = Example.treeAlice.history ∧
    (account.Create_StageOnly (history.Mute Example.ctx) Example.treeAlice "bob" "bob"
      "n").1.history.length ≠ Example.treeAlice.history.length + 1 :=
  ⟨rfl, by decide, rfl, by decide, by decide, by decide⟩

/-- C8, amended: for every context, tree, id and owner, `Create_StageOnly` fails
if and only if an account is already stored under the id, and then the tree is
left as it was; on success the account stored under the id has the given id and
owner and empty holdings, the balance of every asset being zero, and, when the
context is not muted, the history log grows by exactly one event, of op
`account_create`. -/
theorem account.create_fails_iff_exists (ctx : Context) (t : Tree) (id : account.AccountID)
    (owner : account.OwnerID) (note : String) :
    ((∃ e, (account.Create_StageOnly ctx t id owner note).2 = .error e) ↔
      account.Exists_Local t id = .ok true) ∧
    (account.Exists_Local t id = .ok true ↔ ∃ a, t.accounts id = some a) ∧
    ((∃ e, (account.Create_StageOnly ctx t id owner note).2 = .error e) →
      (account.Create_StageOnly ctx t id owner note).1 = t) ∧
    ((account.Create_StageOnly ctx t id owner note).2 = .ok () →
      (account.Create_StageOnly ctx t id owner note).1.accounts id =
        some { ID := id, Owner := owner, Assets := { entries := [] } } ∧
      (∀ asset, (account.Create_StageOnly ctx t id owner note).1.balance id asset = 0) ∧
      (ctx.muted = false →
        (account.Create_StageOnly ctx t id owner note).1.history =
          t.history ++
            [{ Op := { Op := "account_create", Note := note,
                       Args := [("id", .str id), ("owner", .str owner)],
                       Result := none } }])) := by
  have hex : account.Exists_Local t id = .ok true ↔ ∃ a, t.accounts id = some a := by
    unfold account.Exists_Local account.Get_Local
    cases ha : t.accounts id with
    | none => simp [git.IsNotExist]
    | some a => simp
  rcases account.Create_StageOnly_cases ctx t id owner note with ⟨hs, e, he⟩ | ⟨hn, hr⟩
  · refine ⟨?_, hex, ?_, ?_⟩
    · rw [he]; exact ⟨fun _ => hex.mpr hs, fun _ => ⟨e, rfl⟩⟩
    · intro _; rw [he]
    · intro hok; rw [he] at hok; cases hok
  · have hnot : ¬ ∃ a, t.accounts id = some a := by simp [hn]
    refine ⟨?_, hex, ?_, ?_⟩
    · rw [hr]
      constructor
      · rintro ⟨e, he⟩; cases he
      · intro h; exact absurd (hex.mp h) hnot
    · rintro ⟨e, he⟩; rw [hr] at he; cases he
    · intro _
      rw [hr]
      refine ⟨?_, ?_, ?_⟩
      · simp only []
        rw [account.Log_accounts]
        simp [account.set_StageOnly, account.NewAccount]
      · intro asset
        simp only []
        rw [account.balance_Log]
        simp [Tree.balance, account.set_StageOnly, account.NewAccount, account.Account.Balance,
          account.AssetHoldings.Balance, account.AssetHoldings.entry, account.ZeroHolding]
      · intro hctx
        rw [account.Log_unmuted ctx _ _ hctx]
        simp [account.set_StageOnly, account.createEvent]

/-- C8, amended, at a concrete input: creating `bob` on a tree that stores only
alice, under a context that is not muted, succeeds, stores the account and logs
the one event; creating `alice` fails. -/
theorem account.create_fails_iff_exists_witness :
    Example.ctx.muted = false ∧
    (account.Create_StageOnly Example.ctx Example.treeAlice "bob" "bob" "n").2 = .ok () ∧
    (account.Create_StageOnly Example.ctx Example.treeAlice "bob" "bob" "n").1.accounts "bob" =
      some { ID := "bob", Owner := "bob", Assets := { entries := [] } } ∧
    (account.Create_StageOnly Example.ctx Example.treeAlice "bob" "bob" "n").1.history =
      Example.treeAlice.history ++
        [{ Op := { Op := "account_create", Note := "n",
                   Args := [("id", .str "bob"), ("owner", .str "bob")], Result := none } }] ∧
    (∃ e, (account.Create_StageOnly Example.ctx Example.treeAlice "alice" "eve" "n").2 =
      .error e) :=
  ⟨rfl, rfl,
   ((account.create_fails_iff_exists Example.ctx Example.treeAlice "bob" "bob" "n").2.2.2
      rfl).1,
   ((account.create_fails_iff_exists Example.ctx Example.treeAlice "bob" "bob" "n").2.2.2
      rfl).2.2 rfl,
   (account.create_fails_iff_exists Example.ctx Example.treeAlice "alice" "eve" "n").1.mpr
      rfl⟩

/-! ## The claims at concrete inputs -/

/-- C1 at a concrete input: on the tree of alice and bob, a deposit, an
overdrawing withdrawal that fails, a transfer and a creation that fails leave
every holding quantity non-negative. -/
theorem account.balances_never_negative_witness :
    Example.tree.NonNeg ∧
    (account.Call.runAll Example.tree
      [.deposit Example.ctx "bob" (Example.plural 4) "n",
       .withdraw Example.ctx "bob" (Example.plural 7) "n",
       .transfer Example.ctx "alice" "bob" (Example.plural 5) "n",
       .create Example.ctx "alice" "eve" "n"]).NonNeg :=
  ⟨Example.tree_NonNeg, account.balances_never_negative _ _ Example.tree_NonNeg⟩

/-- C2 at a concrete input: alice holds 5 of `plural`; depositing -3 succeeds
and leaves 2, depositing -6 fails. -/
theorem account.deposit_succeeds_iff_and_effect_witness :
    (∃ y, Example.alice.Assets.Deposit (Example.plural (-3)) = .ok y) ∧
    ¬ (∃ y, Example.alice.Assets.Deposit (Example.plural (-6)) = .ok y) :=
  ⟨(account.deposit_succeeds_iff_and_effect Example.alice.Assets (Example.plural (-3))).1.mpr
      (by decide),
   fun h => absurd
      ((account.deposit_succeeds_iff_and_effect Example.alice.Assets (Example.plural (-6))).1.mp h)
      (by decide)⟩

/-- C3 at a concrete input: a deposit into the missing account `bob` and an
overdrawing withdrawal from alice both fail and leave the tree as it was. -/
theorem account.failed_deposit_or_withdraw_stages_nothing_witness :
    (account.Deposit_StageOnly Example.ctx Example.treeAlice "bob" (Example.plural 1) "n").1 =
      Example.treeAlice ∧
    (account.Withdraw_StageOnly Example.ctx Example.treeAlice "alice" (Example.plural 6) "n").1 =
      Example.treeAlice :=
  ⟨(account.failed_deposit_or_withdraw_stages_nothing Example.ctx Example.treeAlice "bob"
      (Example.plural 1) "n").1.2 ⟨_, rfl⟩,
   (account.failed_deposit_or_withdraw_stages_nothing Example.ctx Example.treeAlice "alice"
      (Example.plural 6) "n").2.2 ⟨_, rfl⟩⟩

/-- C4 at a concrete input: withdrawing 3 of `plural` from alice, who holds 5,
succeeds; withdrawing 6 fails. -/
theorem account.withdraw_is_deposit_of_negation_witness :
    (∃ y, Example.alice.Assets.Withdraw (Example.plural 3) = .ok y) ∧
    ¬ (∃ y, Example.alice.Assets.Withdraw (Example.plural 6) = .ok y) :=
  ⟨(account.withdraw_is_deposit_of_negation Example.alice.Assets Example.alice
      (Example.plural 3)).2.2.1.mpr (by decide),
   fun h => absurd
      ((account.withdraw_is_deposit_of_negation Example.alice.Assets Example.alice
        (Example.plural 6)).2.2.1.mp h)
      (by decide)⟩

/-! ## Lemmas on opening a ballot -/

namespace ballot

open common

theorem Open_StageOnly_cases (strat : Strategy) (govCloned : gov.OwnerCloned) (name : BallotName)
    (title description : String) (choices : List String) (participants : member.Group) :
    ((∃ e, Open_StageOnly strat govCloned name title description choices participants =
        (govCloned, .error e)) ∧
      ((∃ f, govCloned.Public.Tree.files ((BallotPath name).Append AdFilebase) = some f) ∨
        govCloned.Public.Tree.groups participants = none ∨ govCloned.Public.Head = none)) ∨
    (govCloned.Public.Tree.files ((BallotPath name).Append AdFilebase) = none ∧
      (∃ us, govCloned.Public.Tree.groups participants = some us) ∧
      ∃ head, govCloned.Public.Head = some head ∧
        Open_StageOnly strat govCloned name title description choices participants =
          (⟨⟨govCloned.Public.Address,
              git.ToFileStage
                (git.ToFileStage
                  (git.ToFileStage govCloned.Public.Tree ((BallotPath name).Append AdFilebase)
                    (.ad { Gov := govCloned.GovAddress, Name := name, Title := title,
                           Description := description, Choices := choices,
                           Strategy := strat.Name, Participants := participants,
                           Frozen := false, Closed := false, Cancelled := false,
                           ParentCommit := head }))
                  ((BallotPath name).Append TallyFilebase)
                  (.tally { Ad := { Gov := govCloned.GovAddress, Name := name, Title := title,
                                    Description := description, Choices := choices,
                                    Strategy := strat.Name, Participants := participants,
                                    Frozen := false, Closed := false, Cancelled := false,
                                    ParentCommit := head },
                            Scores := [], VotesByUser := [], AcceptedVotes := [],
                            RejectedVotes := [], Charges := [] }))
                ((BallotPath name).Append StrategyFilebase) (.strategy strat),
              govCloned.Public.Head⟩⟩,
           .ok { Msg := "Create ballot of type " ++ strat.Name, Op := "ballot_open",
                 Args := [("strategy", .strategy strat), ("name", .str name),
                          ("participants", .str participants)],
                 Result := { Gov := govCloned.GovAddress, Name := name } })) := by
  cases hf : govCloned.Public.Tree.files ((BallotPath name).Append AdFilebase) with
  | some f =>
    left
    exact ⟨⟨.failed ("ballot already exists: " ++
        String.intercalate "/" ((BallotPath name).Append AdFilebase)),
      by simp only [Open_StageOnly, git.TreeStat, hf]⟩, Or.inl ⟨f, rfl⟩⟩
  | none =>
    cases hg : govCloned.Public.Tree.groups participants with
    | none =>
      left
      exact ⟨⟨.failed ("participant group " ++ participants ++ " does not exist"),
        by simp [Open_StageOnly, git.TreeStat, member.IsGroup_Local, hf, hg]⟩,
        Or.inr (Or.inl rfl)⟩
    | some us =>
      cases hh : govCloned.Public.Head with
      | none =>
        left
        exact ⟨⟨.failed "reference not found",
          by simp [Open_StageOnly, git.TreeStat, member.IsGroup_Local, git.Head, hf, hg, hh]⟩,
          Or.inr (Or.inr rfl)⟩
      | some head =>
        right
        exact ⟨rfl, ⟨us, rfl⟩, head, rfl,
          by simp [Open_StageOnly, git.TreeStat, member.IsGroup_Local, git.Head, hf, hg, hh]⟩

theorem paths_distinct (name : BallotName) :
    (BallotPath name).Append AdFilebase ≠ (BallotPath name).Append TallyFilebase ∧
    (BallotPath name).Append AdFilebase ≠ (BallotPath name).Append StrategyFilebase ∧
    (BallotPath name).Append TallyFilebase ≠ (BallotPath name).Append StrategyFilebase := by
  simp [BallotPath, ns.NS.Append, AdFilebase, TallyFilebase, StrategyFilebase]

end ballot

/-! ## Claims on opening a ballot -/

/-- C9: `Open_StageOnly` fails whenever a file already exists at the
advertisement path of the ballot's name or the participant group does not
exist, and in either case stages nothing: the clone, with its tree, is left as
it was, so no ad, tally or strategy file is written. -/
theorem ballot.open_fails_and_stages_nothing (strat : common.Strategy)
    (govCloned : gov.OwnerCloned) (name : common.BallotName) (title description : String)
    (choices : List String) (participants : member.Group)
    (h : (∃ f, govCloned.Public.Tree.files
            ((common.BallotPath name).Append common.AdFilebase) = some f) ∨
         govCloned.Public.Tree.groups participants = none) :
    (∃ e, (ballot.Open_StageOnly strat govCloned name title description choices
      participants).2 = .error e) ∧
    (ballot.Open_StageOnly strat govCloned name title description choices participants).1 =
      govCloned := by
  rcases ballot.Open_StageOnly_cases strat govCloned name title description choices participants
    with ⟨⟨e, he⟩, _⟩ | ⟨hf, ⟨us, hg⟩, _⟩
  · rw [he]; exact ⟨⟨e, rfl⟩, rfl⟩
  · rcases h with ⟨f, hf1⟩ | hg1
    · rw [hf] at hf1; cases hf1
    · rw [hg] at hg1; cases hg1

/-- C9 at concrete inputs: opening a ballot for the missing group `nobody`, and
opening a ballot whose advertisement path already holds a file, both fail and
leave the clone as it was. -/
theorem ballot.open_fails_and_stages_nothing_witness :
    (ballot.Open_StageOnly Example.qv Example.govCloned "P1" "Title" "Desc" ["yes"] "nobody").1 =
      Example.govCloned ∧
    (ballot.Open_StageOnly Example.qv
      (ballot.Open_StageOnly Example.qv Example.govCloned "P1" "Title" "Desc" ["yes"]
        "everybody").1 "P1" "Again" "Desc" ["no"] "everybody").1 =
      (ballot.Open_StageOnly Example.qv Example.govCloned "P1" "Title" "Desc" ["yes"]
        "everybody").1 :=
  ⟨(ballot.open_fails_and_stages_nothing Example.qv Example.govCloned "P1" "Title" "Desc" ["yes"]
      "nobody" (Or.inr (by decide))).2,
   (ballot.open_fails_and_stages_nothing Example.qv _ "P1" "Again" "Desc" ["no"] "everybody"
      (Or.inl ⟨_, by rfl⟩)).2⟩

/-- C10: for every successful `Open_StageOnly`, the staged advertisement carries
the given name, title, description, choices and participant group, the
strategy's name, the governance address, the head commit, and `Frozen`,
`Closed` and `Cancelled` all false; the staged tally embeds that same
advertisement and has no scores, no votes by user, no accepted or rejected
votes and no charges; the strategy file holds the strategy; the three paths are
distinct files under the ballot's path, and every other path, the accounts, the
history log, the groups, the address and the head of the clone are unchanged. -/
theorem ballot.open_stages_ad_tally_strategy (strat : common.Strategy)
    (govCloned : gov.OwnerCloned) (name : common.BallotName) (title description : String)
    (choices : List String) (participants : member.Group)
    (chg : git.Change common.BallotAddress)
    (hok : (ballot.Open_StageOnly strat govCloned name title description choices
      participants).2 = .ok chg) :
    ∃ head, govCloned.Public.Head = some head ∧
      (ballot.Open_StageOnly strat govCloned name title description choices
        participants).1.Public.Tree.files ((common.BallotPath name).Append common.AdFilebase) =
        some (.ad { Gov := govCloned.GovAddress, Name := name, Title := title,
                    Description := description, Choices := choices, Strategy := strat.Name,
                    Participants := participants, Frozen := false, Closed := false,
                    Cancelled := false, ParentCommit := head }) ∧
      (ballot.Open_StageOnly strat govCloned name title description choices
        participants).1.Public.Tree.files ((common.BallotPath name).Append common.TallyFilebase) =
        some (.tally
          { Ad := { Gov := govCloned.GovAddress, Name := name, Title := title,
                    Description := description, Choices := choices, Strategy := strat.Name,
                    Participants := participants, Frozen := false, Closed := false,
                    Cancelled := false, ParentCommit := head },
            Scores := [], VotesByUser := [], AcceptedVotes := [], RejectedVotes := [],
            Charges := [] }) ∧
      (ballot.Open_StageOnly strat govCloned name title description choices
        participants).1.Public.Tree.files
          ((common.BallotPath name).Append common.StrategyFilebase) = some (.strategy strat) ∧
      (∀ p, p ≠ (common.BallotPath name).Append common.AdFilebase →
        p ≠ (common.BallotPath name).Append common.TallyFilebase →
        p ≠ (common.BallotPath name).Append common.StrategyFilebase →
        (ballot.Open_StageOnly strat govCloned name title description choices
          participants).1.Public.Tree.files p = govCloned.Public.Tree.files p) ∧
      ((common.BallotPath name).Append common.AdFilebase ≠
          (common.BallotPath name).Append common.TallyFilebase ∧
        (common.BallotPath name).Append common.AdFilebase ≠
          (common.BallotPath name).Append common.StrategyFilebase ∧
        (common.BallotPath name).Append common.TallyFilebase ≠
          (common.BallotPath name).Append common.StrategyFilebase) ∧
      (ballot.Open_StageOnly strat govCloned name title description choices
        participants).1.Public.Tree.accounts = govCloned.Public.Tree.accounts ∧
      (ballot.Open_StageOnly strat govCloned name title description choices
        participants).1.Public.Tree.history = govCloned.Public.Tree.history ∧
      (ballot.Open_StageOnly strat govCloned name title description choices
        participants).1.Public.Tree.groups = govCloned.Public.Tree.groups ∧
      (ballot.Open_StageOnly strat govCloned name title description choices
        participants).1.Public.Address = govCloned.Public.Address ∧
      (ballot.Open_StageOnly strat govCloned name title description choices
        participants).1.Public.Head = govCloned.Public.Head := by
  obtain ⟨h12, h13, h23⟩ := ballot.paths_distinct name
  rcases ballot.Open_StageOnly_cases strat govCloned name title description choices participants
    with ⟨⟨e, he⟩, _⟩ | ⟨_, _, head, hh, hr⟩
  · rw [he] at hok; cases hok
  · refine ⟨head, hh, ?_, ?_, ?_, ?_, ⟨h12, h13, h23⟩, ?_, ?_, ?_, ?_, ?_⟩
    · rw [hr]; simp [git.ToFileStage, h12, h13]
    · rw [hr]; simp [git.ToFileStage, h23]
    · rw [hr]; simp [git.ToFileStage]
    · intro p h1 h2 h3
      rw [hr]; simp [git.ToFileStage, h1, h2, h3]
    · rw [hr]; rfl
    · rw [hr]; rfl
    · rw [hr]; rfl
    · rw [hr]
    · rw [hr]

/-- C10 at a concrete input: opening the ballot `P1` with the choice `yes` for
the group `everybody` stages its advertisement under `ballot/P1/ad.json`. -/
theorem ballot.open_stages_ad_tally_strategy_witness :
    ∃ head, Example.govCloned.Public.Head = some head ∧
      (ballot.Open_StageOnly Example.qv Example.govCloned "P1" "Title" "Desc" ["yes"]
        "everybody").1.Public.Tree.files ["ballot", "P1", "ad.json"] =
        some (.ad { Gov := Example.govCloned.GovAddress, Name := "P1", Title := "Title",
                    Description := "Desc", Choices := ["yes"], Strategy := "qv",
                    Participants := "everybody", Frozen := false, Closed := false,
                    Cancelled := false, ParentCommit := head }) := by
  obtain ⟨head, hh, had, _⟩ :=
    ballot.open_stages_ad_tally_strategy Example.qv Example.govCloned "P1" "Title" "Desc" ["yes"]
      "everybody" _ rfl
  exact ⟨head, hh, had⟩

/-! ## Proposal eligibility -/

namespace pmp_0

theorem IsConcernProposalEligible_true_iff (cloned : gov.Cloned)
    (conID propID : schema.MotionID) (refType : schema.RefType) :
    IsConcernProposalEligible cloned conID propID refType = .ok true ↔
      refType = ClaimsRefType ∧
      ∃ con prop st, motionapi.LookupMotion_Local cloned conID = .ok con ∧
        motionapi.LookupMotion_Local cloned propID = .ok prop ∧
        con.IsConcern = true ∧ prop.IsProposal = true ∧ con.Closed = false ∧
        prop.Closed = false ∧ motionapi.LoadPolicyState_Local cloned prop.ID = .ok st ∧
        0 < st.LatestApprovalScore := by
  unfold IsConcernProposalEligible
  by_cases hr : refType = ClaimsRefType
  · simp only [hr, ne_eq, not_true_eq_false, if_false, true_and]
    cases hc : motionapi.LookupMotion_Local cloned conID with
    | error e => simp
    | ok con =>
      cases hp : motionapi.LookupMotion_Local cloned propID with
      | error e => simp
      | ok prop =>
        cases hs : motionapi.LoadPolicyState_Local cloned prop.ID with
        | error e =>
          cases h1 : con.IsConcern <;> cases h2 : prop.IsProposal <;> cases h3 : con.Closed <;>
            cases h4 : prop.Closed <;> simp [h1, h2, h3, h4, hs]
        | ok st =>
          cases h1 : con.IsConcern <;> cases h2 : prop.IsProposal <;> cases h3 : con.Closed <;>
            cases h4 : prop.Closed <;> simp [h1, h2, h3, h4, hs]
  · simp [hr]

end pmp_0

/-- C14, as stated, fails: the proposal `R1` has `LatestApprovalScore` 5 > 0 and
`C1` is an open concern, yet for the reference type `resolves`
`IsConcernProposalEligible` returns false. -/
theorem pmp_0.positive_score_not_eligible :
    motionapi.LoadPolicyState_Local Example.motionCloned "R1" =
      .ok { LatestApprovalScore := 5 } ∧
    pmp_0.IsConcernProposalEligible Example.motionCloned "C1" "R1" "resolves" = .ok false ∧
    pmp_0.IsConcernProposalEligible Example.motionCloned "C1" "R1" "claims" = .ok true :=
  ⟨rfl, rfl, rfl⟩

/-- C14, amended: `IsConcernProposalEligible` returns true only if the
proposal's policy state has `LatestApprovalScore` > 0; and for the reference
type `Claims`, a first motion that is a concern and a second motion that is a
proposal, neither of them closed, it returns true if and only if the proposal's
policy state has `LatestApprovalScore` > 0. -/
theorem pmp_0.eligible_iff_positive_score (cloned : gov.Cloned)
    (conID propID : schema.MotionID) (refType : schema.RefType) :
    (pmp_0.IsConcernProposalEligible cloned conID propID refType = .ok true →
      ∃ prop st, motionapi.LookupMotion_Local cloned propID = .ok prop ∧
        motionapi.LoadPolicyState_Local cloned prop.ID = .ok st ∧
        0 < st.LatestApprovalScore) ∧
    (∀ con prop st, refType = pmp_0.ClaimsRefType →
      motionapi.LookupMotion_Local cloned conID = .ok con →
      motionapi.LookupMotion_Local cloned propID = .ok prop →
      con.IsConcern = true → prop.IsProposal = true → con.Closed = false →
      prop.Closed = false → motionapi.LoadPolicyState_Local cloned prop.ID = .ok st →
      (pmp_0.IsConcernProposalEligible cloned conID propID refType = .ok true ↔
        0 < st.LatestApprovalScore)) := by
  constructor
  · intro h
    obtain ⟨_, con, prop, st, _, hp, _, _, _, _, hs, hpos⟩ :=
      (pmp_0.IsConcernProposalEligible_true_iff cloned conID propID refType).mp h
    exact ⟨prop, st, hp, hs, hpos⟩
  · intro con prop st hr hc hp h1 h2 h3 h4 hs
    rw [pmp_0.IsConcernProposalEligible_true_iff]
    constructor
    · rintro ⟨_, con1, prop1, st1, _, hp1, _, _, _, _, hs1, hpos⟩
      rw [hp] at hp1
      cases hp1
      rw [hs] at hs1
      cases hs1
      exact hpos
    · intro hpos
      exact ⟨hr, con, prop, st, hc, hp, h1, h2, h3, h4, hs, hpos⟩

/-- C14, amended, at a concrete input: the concern `C1` and the proposal `R1`,
whose approval score is 5, under the reference type `claims`. -/
theorem pmp_0.eligible_iff_positive_score_witness :
    pmp_0.IsConcernProposalEligible Example.motionCloned "C1" "R1" "claims" = .ok true ↔
      (0 : Int) < 5 :=
  (pmp_0.eligible_iff_positive_score Example.motionCloned "C1" "R1" "claims").2
    Example.concernC1 Example.proposalR1 { LatestApprovalScore := 5 } rfl rfl rfl rfl rfl rfl rfl
    rfl

/-! ## Voting -/

namespace mod.ballot

theorem stringIsIn_iff (s : String) (l : List String) : stringIsIn s l = true ↔ s ∈ l := by
  induction l with
  | nil => simp [stringIsIn]
  | cons x rest ih =>
    unfold stringIsIn
    by_cases h : s = x
    · simp [h]
    · simp [h, ih]

theorem check_error_iff (ad : Advertisement) (elections : List Election) :
    (∃ err, verifyElections.check ad elections = .error err) ↔
      ∃ e ∈ elections, e.VoteChoice ∉ ad.Choices := by
  induction elections with
  | nil => simp [verifyElections.check]
  | cons e rest ih =>
    unfold verifyElections.check
    by_cases h : e.VoteChoice ∈ ad.Choices
    · have hs : stringIsIn e.VoteChoice ad.Choices = true := (stringIsIn_iff _ _).mpr h
      simp only [hs, Bool.not_true, Bool.false_eq_true, if_false, ih, List.mem_cons]
      constructor
      · rintro ⟨e1, he1, hn⟩; exact ⟨e1, Or.inr he1, hn⟩
      · rintro ⟨e1, he1 | he1, hn⟩
        · rw [he1] at hn; exact absurd h hn
        · exact ⟨e1, he1, hn⟩
    · have hs : stringIsIn e.VoteChoice ad.Choices = false := by
        cases hb : stringIsIn e.VoteChoice ad.Choices with
        | false => rfl
        | true => exact absurd ((stringIsIn_iff _ _).mp hb) h
      simp only [hs, Bool.not_false, if_true]
      exact ⟨fun _ => ⟨e, List.mem_cons_self _ _, h⟩, fun _ => ⟨_, rfl⟩⟩

theorem verifyElections_error_iff (ad : Advertisement) (elections : List Election) :
    (∃ err, verifyElections ad elections = .error err) ↔
      ad.Choices ≠ [] ∧ ∃ e ∈ elections, e.VoteChoice ∉ ad.Choices := by
  unfold verifyElections
  cases hc : ad.Choices with
  | nil => simp
  | cons c cs =>
    have := check_error_iff ad elections
    rw [hc] at this
    simpa using this

end mod.ballot

/-- C11, as stated, fails: the advertisement of the ballot `P0` lists no
choices, so the election naming `nope` names a choice that is not one of the
advertisement's choices, yet `VoteStageOnly` succeeds and appends the envelope
to the voter's stream. -/
theorem mod.ballot.vote_succeeds_without_choices :
    Example.modGovTree.ads ["ballot", "P0", "ad.json"] = some (Example.modAd [] false) ∧
    "nope" ∉ (Example.modAd [] false).Choices ∧
    (mod.ballot.VoteStageOnly Example.aliceTree Example.modGovRepo ["P0"]
      [{ VoteChoice := "nope", VoteStrengthChange := 1 }]).2 =
      .ok { Result := 0, Msg := "Sent signed mail" } ∧
    ((mod.ballot.VoteStageOnly Example.aliceTree Example.modGovRepo ["P0"]
      [{ VoteChoice := "nope", VoteStrengthChange := 1 }]).1.Public.outbox "gov-key"
        "ballot/P0").map (fun e => e.Payload.Elections) =
      [[{ VoteChoice := "nope", VoteStrengthChange := 1 }]] :=
  ⟨by decide, by decide, rfl, by decide⟩

/-- C11, amended: for every ballot whose advertisement lists at least one choice
and every list of elections, `VoteStageOnly` fails, and sends no envelope (the
voter's tree is left as it was), whenever some election names a choice that is
not one of the advertisement's choices. -/
theorem mod.ballot.vote_fails_on_unavailable_choice (voterTree : mod.id.OwnerTree)
    (govRepo : mod.git.Repository) (ballotName : ns.NS)
    (elections : List mod.ballot.Election) (ad : mod.ballot.Advertisement)
    (had : govRepo.Worktree.ads
      ((mod.ballot.OpenBallotNS ballotName).Append mod.ballot.adFilebase) = some ad)
    (hch : ad.Choices ≠ [])
    (hbad : ∃ e ∈ elections, e.VoteChoice ∉ ad.Choices) :
    (∃ err, (mod.ballot.VoteStageOnly voterTree govRepo ballotName elections).2 = .error err) ∧
    (mod.ballot.VoteStageOnly voterTree govRepo ballotName elections).1 = voterTree := by
  obtain ⟨err, herr⟩ := (mod.ballot.verifyElections_error_iff ad elections).mpr ⟨hch, hbad⟩
  have h : mod.ballot.VoteStageOnly voterTree govRepo ballotName elections =
      (voterTree, .error err) := by
    simp only [mod.ballot.VoteStageOnly, had, herr]
  rw [h]
  exact ⟨⟨err, rfl⟩, rfl⟩

/-- C11, amended, at a concrete input: the ballot `P1` lists the choice `yes`
and the election names `nope`. -/
theorem mod.ballot.vote_fails_on_unavailable_choice_witness :
    (mod.ballot.VoteStageOnly Example.aliceTree Example.modGovRepo ["P1"]
      [{ VoteChoice := "nope", VoteStrengthChange := 1 }]).1 = Example.aliceTree :=
  (mod.ballot.vote_fails_on_unavailable_choice Example.aliceTree Example.modGovRepo ["P1"]
    [{ VoteChoice := "nope", VoteStrengthChange := 1 }] (Example.modAd ["yes"] false)
    (by decide) (by decide) ⟨_, List.mem_singleton.mpr rfl, by decide⟩).2

/-! ## Receiving the unread envelopes -/

namespace mod.ballot

theorem Receive_fields {σ : Type} (t : Tree) (a : id.PublicAddress) (sender : Tree)
    (topic : String) (respond : σ → VoteEnvelope → σ × Except Err VoteEnvelope) (st : σ)
    (me : id.PublicCredentials) (hid : t.identity = some me) :
    (mail.ReceiveSignedStageOnly t a sender topic respond st).2 =
      .ok ((mail.receiveUnread sender.identity respond
            ((sender.outbox me.PublicKey topic).drop (t.consumed a topic))
            (t.consumed a topic) st []).State,
          (mail.receiveUnread sender.identity respond
            ((sender.outbox me.PublicKey topic).drop (t.consumed a topic))
            (t.consumed a topic) st []).Responses) ∧
    (mail.ReceiveSignedStageOnly t a sender topic respond st).1.consumed =
      (fun a1 t1 =>
        if a1 = a ∧ t1 = topic then
          (mail.receiveUnread sender.identity respond
            ((sender.outbox me.PublicKey topic).drop (t.consumed a topic))
            (t.consumed a topic) st []).Next
        else t.consumed a1 t1) ∧
    (mail.ReceiveSignedStageOnly t a sender topic respond st).1.rejected =
      (fun a1 t1 n =>
        match (mail.receiveUnread sender.identity respond
            ((sender.outbox me.PublicKey topic).drop (t.consumed a topic))
            (t.consumed a topic) st []).Rejected with
        | some (seqNo, reason) =>
          if a1 = a ∧ t1 = topic ∧ n = seqNo then some reason else t.rejected a1 t1 n
        | none => t.rejected a1 t1 n) := by
  unfold mail.ReceiveSignedStageOnly
  split
  · rename_i hnone; rw [hid] at hnone; cases hnone
  · rename_i me1 hsome
    rw [hid] at hsome
    cases hsome
    exact ⟨rfl, rfl, rfl⟩

end mod.ballot

/-! ## The concern policy: update -/

theorem git.files_ToFileStage (t : Tree) (p q : ns.NS) (f : File) :
    (git.ToFileStage t p f).files q = if q = p then some f else t.files q := rfl

theorem concern.LoadState_SaveState (t : Tree) (policyNS : ns.NS) (st : concern.ConcernState) :
    concern.LoadState_Local (concern.SaveState_StageOnly t policyNS st) policyNS = .ok st := by
  simp [concern.LoadState_Local, concern.SaveState_StageOnly, git.files_ToFileStage]

theorem concern.eligible_spec (cloned : gov.Cloned) :
    ∀ (l : List schema.Ref) (el : schema.Refs),
      concern.concernPolicy.Update.eligible cloned l = .ok el →
      el.Sublist l ∧
      ∀ r, r ∈ el ↔ r ∈ l ∧ concern.IsProposalEligible cloned r.From = .ok true := by
  intro l
  induction l with
  | nil =>
    intro el h
    simp only [concern.concernPolicy.Update.eligible, Except.ok.injEq] at h
    subst h
    simp
  | cons ref rest ih =>
    intro el h
    unfold concern.concernPolicy.Update.eligible at h
    cases hb : concern.IsProposalEligible cloned ref.From with
    | error e => rw [hb] at h; cases h
    | ok b =>
      cases hr : concern.concernPolicy.Update.eligible cloned rest with
      | error e => rw [hb, hr] at h; cases h
      | ok l1 =>
        rw [hb, hr] at h
        simp only [Except.ok.injEq] at h
        obtain ⟨hsub, hmem⟩ := ih l1 hr
        cases b with
        | true =>
          simp only [if_true] at h
          subst h
          refine ⟨hsub.cons₂ ref, ?_⟩
          intro r
          simp only [List.mem_cons, hmem]
          constructor
          · rintro (rfl | ⟨h1, h2⟩)
            · exact ⟨Or.inl rfl, hb⟩
            · exact ⟨Or.inr h1, h2⟩
          · rintro ⟨rfl | h1, h2⟩
            · exact Or.inl rfl
            · exact Or.inr ⟨h1, h2⟩
        | false =>
          simp only [Bool.false_eq_true, if_false] at h
          subst h
          refine ⟨hsub.cons ref, ?_⟩
          intro r
          simp only [List.mem_cons, hmem]
          constructor
          · rintro ⟨h1, h2⟩
            exact ⟨Or.inr h1, h2⟩
          · rintro ⟨rfl | h1, h2⟩
            · rw [hb] at h2; cases h2
            · exact ⟨h1, h2⟩

theorem concern.eligible_total (cloned : gov.Cloned) :
    ∀ (l : List schema.Ref),
      (∀ r ∈ l, ∃ b, concern.IsProposalEligible cloned r.From = .ok b) →
      ∃ el, concern.concernPolicy.Update.eligible cloned l = .ok el := by
  intro l
  induction l with
  | nil => intro _; exact ⟨[], rfl⟩
  | cons ref rest ih =>
    intro h
    obtain ⟨b, hb⟩ := h ref (List.mem_cons_self _ _)
    obtain ⟨l1, hr⟩ := ih (fun r hr => h r (List.mem_cons_of_mem _ hr))
    exact ⟨if b then ref :: l1 else l1, by
      simp only [concern.concernPolicy.Update.eligible, hb, hr]⟩

theorem concern.FreezeMotion_effect (reg : policy.Registry) (c : gov.OwnerCloned)
    (id : schema.MotionID) (stored : schema.Motion)
    (hget : schema.MotionKV.Get c.Public.Tree id = .ok stored)
    (hreg : reg stored.Policy = some concern.concernPolicy) :
    (∀ q, q ≠ schema.MotionNS.Append id →
      (∀ n, q ≠ (common.BallotPath n).Append common.AdFilebase) →
      (ops.FreezeMotion_StageOnly reg c id).1.Public.Tree.files q = c.Public.Tree.files q) ∧
    schema.MotionKV.Get (ops.FreezeMotion_StageOnly reg c id).1.Public.Tree id =
      .ok { stored with Frozen := true } ∧
    (∀ ad, c.Public.Tree.files
        ((common.BallotPath (pmp.ConcernPollBallotName stored.ID)).Append common.AdFilebase) =
          some (.ad ad) →
      (ops.FreezeMotion_StageOnly reg c id).2 = .ok () ∧
      ballot.IsFrozen_Local (ops.FreezeMotion_StageOnly reg c id).1.Public
        (pmp.ConcernPollBallotName stored.ID) = .ok true) := by
  have hpath : ∀ n, (common.BallotPath n).Append common.AdFilebase ≠ schema.MotionNS.Append id := by
    intro n h
    simp [common.BallotPath, ns.NS.Append, schema.MotionNS] at h
  cases hf : c.Public.Tree.files
      ((common.BallotPath (pmp.ConcernPollBallotName stored.ID)).Append common.AdFilebase) with
  | none =>
    have h1 : ops.FreezeMotion_StageOnly reg c id =
        (c.withTree (schema.MotionKV.Set c.Public.Tree id { stored with Frozen := true }),
          .error (.notExist (String.intercalate "/"
            ((common.BallotPath (pmp.ConcernPollBallotName stored.ID)).Append
              common.AdFilebase)))) := by
      simp only [ops.FreezeMotion_StageOnly, hget, policy.Get, hreg, concern.concernPolicy,
        concern.concernPolicy.Freeze, ballot.IsFrozen_Local, gov.OwnerCloned.PublicClone,
        gov.OwnerCloned.withTree, schema.MotionKV.Set, git.files_ToFileStage, hpath, hf,
        if_false]
    rw [h1]
    refine ⟨?_, ?_, ?_⟩
    · intro q hq _
      simp only [gov.OwnerCloned.withTree, schema.MotionKV.Set, git.files_ToFileStage, hq,
        if_false]
    · simp [gov.OwnerCloned.withTree, schema.MotionKV.Set, schema.MotionKV.Get,
        git.files_ToFileStage]
    · intro ad had
      cases had
  | some f =>
    rcases f with a | _ | _ | _ | _ | _ | _
    · -- the priority poll has an advertisement
      cases hfr : a.Frozen with
      | true =>
        have h1 : ops.FreezeMotion_StageOnly reg c id =
            (c.withTree (schema.MotionKV.Set c.Public.Tree id { stored with Frozen := true }),
              .ok ()) := by
          simp only [ops.FreezeMotion_StageOnly, hget, policy.Get, hreg, concern.concernPolicy,
            concern.concernPolicy.Freeze, ballot.IsFrozen_Local, gov.OwnerCloned.PublicClone,
            gov.OwnerCloned.withTree, schema.MotionKV.Set, git.files_ToFileStage, hpath, hf,
            if_false, hfr]
        rw [h1]
        refine ⟨?_, ?_, ?_⟩
        · intro q hq _
          simp only [gov.OwnerCloned.withTree, schema.MotionKV.Set, git.files_ToFileStage, hq,
            if_false]
        · simp [gov.OwnerCloned.withTree, schema.MotionKV.Set, schema.MotionKV.Get,
            git.files_ToFileStage]
        · intro ad _
          refine ⟨rfl, ?_⟩
          simp only [ballot.IsFrozen_Local, gov.OwnerCloned.withTree, schema.MotionKV.Set,
            git.files_ToFileStage, hpath, if_false, hf, hfr]
      | false =>
        have h1 : ops.FreezeMotion_StageOnly reg c id =
            (c.withTree (git.ToFileStage
              (schema.MotionKV.Set c.Public.Tree id { stored with Frozen := true })
              ((common.BallotPath (pmp.ConcernPollBallotName stored.ID)).Append
                common.AdFilebase) (.ad { a with Frozen := true })), .ok ()) := by
          simp only [ops.FreezeMotion_StageOnly, hget, policy.Get, hreg, concern.concernPolicy,
            concern.concernPolicy.Freeze, ballot.IsFrozen_Local, ballot.Freeze_StageOnly,
            gov.OwnerCloned.PublicClone,
            gov.OwnerCloned.withTree, schema.MotionKV.Set, git.files_ToFileStage, hpath, hf,
            if_false, hfr]
        rw [h1]
        refine ⟨?_, ?_, ?_⟩
        · intro q hq hq2
          simp only [gov.OwnerCloned.withTree, schema.MotionKV.Set, git.files_ToFileStage, hq,
            hq2, if_false]
        · simp [gov.OwnerCloned.withTree, schema.MotionKV.Set, schema.MotionKV.Get,
            git.files_ToFileStage, (hpath _).symm]
        · intro ad _
          refine ⟨rfl, ?_⟩
          simp only [ballot.IsFrozen_Local, gov.OwnerCloned.withTree,
            git.files_ToFileStage, if_true]
    all_goals
      have h1 : ops.FreezeMotion_StageOnly reg c id =
          (c.withTree (schema.MotionKV.Set c.Public.Tree id { stored with Frozen := true }),
            .error (.notExist (String.intercalate "/"
              ((common.BallotPath (pmp.ConcernPollBallotName stored.ID)).Append
                common.AdFilebase)))) := by
        simp only [ops.FreezeMotion_StageOnly, hget, policy.Get, hreg, concern.concernPolicy,
          concern.concernPolicy.Freeze, ballot.IsFrozen_Local, gov.OwnerCloned.PublicClone,
          gov.OwnerCloned.withTree, schema.MotionKV.Set, git.files_ToFileStage, hpath, hf,
          if_false]
      rw [h1]
      refine ⟨?_, ?_, ?_⟩
      · intro q hq _
        simp only [gov.OwnerCloned.withTree, schema.MotionKV.Set, git.files_ToFileStage, hq,
          if_false]
      · simp [gov.OwnerCloned.withTree, schema.MotionKV.Set, schema.MotionKV.Get,
          git.files_ToFileStage]
      · intro ad had
        cases had

theorem concern.UnfreezeMotion_effect (reg : policy.Registry) (c : gov.OwnerCloned)
    (id : schema.MotionID) (stored : schema.Motion)
    (hget : schema.MotionKV.Get c.Public.Tree id = .ok stored)
    (hreg : reg stored.Policy = some concern.concernPolicy) :
    (∀ q, q ≠ schema.MotionNS.Append id →
      (∀ n, q ≠ (common.BallotPath n).Append common.AdFilebase) →
      (ops.UnfreezeMotion_StageOnly reg c id).1.Public.Tree.files q = c.Public.Tree.files q) ∧
    schema.MotionKV.Get (ops.UnfreezeMotion_StageOnly reg c id).1.Public.Tree id =
      .ok { stored with Frozen := false } ∧
    (∀ ad, c.Public.Tree.files
        ((common.BallotPath (pmp.ConcernPollBallotName stored.ID)).Append common.AdFilebase) =
          some (.ad ad) →
      (ops.UnfreezeMotion_StageOnly reg c id).2 = .ok () ∧
      ballot.IsFrozen_Local (ops.UnfreezeMotion_StageOnly reg c id).1.Public
        (pmp.ConcernPollBallotName stored.ID) = .ok false) := by
  have hpath : ∀ n, (common.BallotPath n).Append common.AdFilebase ≠ schema.MotionNS.Append id := by
    intro n h
    simp [common.BallotPath, ns.NS.Append, schema.MotionNS] at h
  cases hf : c.Public.Tree.files
      ((common.BallotPath (pmp.ConcernPollBallotName stored.ID)).Append common.AdFilebase) with
  | none =>
    have h1 : ops.UnfreezeMotion_StageOnly reg c id =
        (c.withTree (schema.MotionKV.Set c.Public.Tree id { stored with Frozen := false }),
          .error (.notExist (String.intercalate "/"
            ((common.BallotPath (pmp.ConcernPollBallotName stored.ID)).Append
              common.AdFilebase)))) := by
      simp only [ops.UnfreezeMotion_StageOnly, hget, policy.Get, hreg, concern.concernPolicy,
        concern.concernPolicy.Unfreeze, ballot.IsFrozen_Local, gov.OwnerCloned.PublicClone,
        gov.OwnerCloned.withTree, schema.MotionKV.Set, git.files_ToFileStage, hpath, hf,
        if_false]
    rw [h1]
    refine ⟨?_, ?_, ?_⟩
    · intro q hq _
      simp only [gov.OwnerCloned.withTree, schema.MotionKV.Set, git.files_ToFileStage, hq,
        if_false]
    · simp [gov.OwnerCloned.withTree, schema.MotionKV.Set, schema.MotionKV.Get,
        git.files_ToFileStage]
    · intro ad had
      cases had
  | some f =>
    rcases f with a | _ | _ | _ | _ | _ | _
    · -- the priority poll has an advertisement
      cases hfr : a.Frozen with
      | false =>
        have h1 : ops.UnfreezeMotion_StageOnly reg c id =
            (c.withTree (schema.MotionKV.Set c.Public.Tree id { stored with Frozen := false }),
              .ok ()) := by
          simp only [ops.UnfreezeMotion_StageOnly, hget, policy.Get, hreg, concern.concernPolicy,
            concern.concernPolicy.Unfreeze, ballot.IsFrozen_Local, gov.OwnerCloned.PublicClone,
            gov.OwnerCloned.withTree, schema.MotionKV.Set, git.files_ToFileStage, hpath, hf,
            if_false, hfr]
        rw [h1]
        refine ⟨?_, ?_, ?_⟩
        · intro q hq _
          simp only [gov.OwnerCloned.withTree, schema.MotionKV.Set, git.files_ToFileStage, hq,
            if_false]
        · simp [gov.OwnerCloned.withTree, schema.MotionKV.Set, schema.MotionKV.Get,
            git.files_ToFileStage]
        · intro ad _
          refine ⟨rfl, ?_⟩
          simp only [ballot.IsFrozen_Local, gov.OwnerCloned.withTree, schema.MotionKV.Set,
            git.files_ToFileStage, hpath, if_false, hf, hfr]
      | true =>
        have h1 : ops.UnfreezeMotion_StageOnly reg c id =
            (c.withTree (git.ToFileStage
              (schema.MotionKV.Set c.Public.Tree id { stored with Frozen := false })
              ((common.BallotPath (pmp.ConcernPollBallotName stored.ID)).Append
                common.AdFilebase) (.ad { a with Frozen := false })), .ok ()) := by
          simp only [ops.UnfreezeMotion_StageOnly, hget, policy.Get, hreg, concern.concernPolicy,
            concern.concernPolicy.Unfreeze, ballot.IsFrozen_Local, ballot.Unfreeze_StageOnly,
            gov.OwnerCloned.PublicClone,
            gov.OwnerCloned.withTree, schema.MotionKV.Set, git.files_ToFileStage, hpath, hf,
            if_false, hfr]
        rw [h1]
        refine ⟨?_, ?_, ?_⟩
        · intro q hq hq2
          simp only [gov.OwnerCloned.withTree, schema.MotionKV.Set, git.files_ToFileStage, hq,
            hq2, if_false]
        · simp [gov.OwnerCloned.withTree, schema.MotionKV.Set, schema.MotionKV.Get,
            git.files_ToFileStage, (hpath _).symm]
        · intro ad _
          refine ⟨rfl, ?_⟩
          simp only [ballot.IsFrozen_Local, gov.OwnerCloned.withTree,
            git.files_ToFileStage, if_true]
    all_goals
      have h1 : ops.UnfreezeMotion_StageOnly reg c id =
          (c.withTree (schema.MotionKV.Set c.Public.Tree id { stored with Frozen := false }),
            .error (.notExist (String.intercalate "/"
              ((common.BallotPath (pmp.ConcernPollBallotName stored.ID)).Append
                common.AdFilebase)))) := by
        simp only [ops.UnfreezeMotion_StageOnly, hget, policy.Get, hreg, concern.concernPolicy,
          concern.concernPolicy.Unfreeze, ballot.IsFrozen_Local, gov.OwnerCloned.PublicClone,
          gov.OwnerCloned.withTree, schema.MotionKV.Set, git.files_ToFileStage, hpath, hf,
          if_false]
      rw [h1]
      refine ⟨?_, ?_, ?_⟩
      · intro q hq _
        simp only [gov.OwnerCloned.withTree, schema.MotionKV.Set, git.files_ToFileStage, hq,
          if_false]
      · simp [gov.OwnerCloned.withTree, schema.MotionKV.Set, schema.MotionKV.Get,
          git.files_ToFileStage]
      · intro ad had
        cases had


theorem concern.updateFreeze_cases (reg : policy.Registry) (c0 : gov.OwnerCloned)
    (motion : schema.Motion) (policyNS : ns.NS) (st : concern.ConcernState)
    (hst : concern.LoadState_Local c0.Public.Tree policyNS = .ok st) :
    (st.EligibleProposals ≠ [] → motion.Frozen = false →
      concern.concernPolicy.updateFreeze reg c0 motion policyNS =
        ((ops.FreezeMotion_StageOnly reg c0 motion.ID).1,
          (ops.FreezeMotion_StageOnly reg c0 motion.ID).2.map (fun _ =>
            (none, ["Freezing ❄️ issue as there are eligible PRs addressing it."])))) ∧
    (st.EligibleProposals = [] → motion.Frozen = true →
      concern.concernPolicy.updateFreeze reg c0 motion policyNS =
        ((ops.UnfreezeMotion_StageOnly reg c0 motion.ID).1,
          (ops.UnfreezeMotion_StageOnly reg c0 motion.ID).2.map (fun _ =>
            (none, ["Unfreezing 🌤️ issue as there are no eligible PRs are addressing it."])))) ∧
    ((st.EligibleProposals ≠ [] ↔ motion.Frozen = true) →
      concern.concernPolicy.updateFreeze reg c0 motion policyNS = (c0, .ok (none, []))) := by
  have hlen : ∀ l : schema.Refs, l ≠ [] → (decide (schema.Refs.Len l > 0) = true ∧
      decide (schema.Refs.Len l = 0) = false) := by
    intro l hl
    cases l with
    | nil => exact absurd rfl hl
    | cons a l => simp [schema.Refs.Len]
  refine ⟨?_, ?_, ?_⟩
  · intro hne hfr
    obtain ⟨h1, h2⟩ := hlen _ hne
    rcases hfm : ops.FreezeMotion_StageOnly reg c0 motion.ID with ⟨c1, e | u⟩ <;>
      simp [concern.concernPolicy.updateFreeze, hst, h1, h2, hfr, hfm, Except.map,
        notice.Noticef]
  · intro he hfr
    rcases hfm : ops.UnfreezeMotion_StageOnly reg c0 motion.ID with ⟨c1, e | u⟩ <;>
      simp [concern.concernPolicy.updateFreeze, hst, he, schema.Refs.Len, hfr, hfm, Except.map,
        notice.Noticef]
  · intro hiff
    cases hfr : motion.Frozen with
    | true =>
      have hne := hiff.mpr hfr
      obtain ⟨h1, h2⟩ := hlen _ hne
      simp [concern.concernPolicy.updateFreeze, hst, h1, h2, hfr]
    | false =>
      have he : st.EligibleProposals = [] := by
        by_contra hne
        have := hiff.mp hne
        rw [hfr] at this
        cases this
      simp [concern.concernPolicy.updateFreeze, hst, he, schema.Refs.Len, hfr]


theorem concern.state_path_frame (id : schema.MotionID) :
    (policy.MotionPolicyNS id).Append policy.StateFilebase ≠ schema.MotionNS.Append id ∧
    ∀ n, (policy.MotionPolicyNS id).Append policy.StateFilebase ≠
      (common.BallotPath n).Append common.AdFilebase := by
  constructor
  · intro h
    simp [policy.MotionPolicyNS, ns.NS.Append, schema.MotionNS] at h
  · intro n h
    simp [policy.MotionPolicyNS, ns.NS.Append, common.BallotPath] at h

theorem concern.Get_SaveState (t : Tree) (id : schema.MotionID) (st : concern.ConcernState) :
    schema.MotionKV.Get (concern.SaveState_StageOnly t (policy.MotionPolicyNS id) st) id =
      schema.MotionKV.Get t id := by
  simp only [schema.MotionKV.Get, concern.SaveState_StageOnly, git.files_ToFileStage,
    (concern.state_path_frame id).1.symm, if_false]

theorem concern.Update_state_ok (cloned : gov.OwnerCloned) (motion : schema.Motion)
    (policyNS : ns.NS) (prev : concern.ConcernState)
    (hprev : concern.LoadState_Local cloned.Public.Tree policyNS = .ok prev)
    (helig : ∀ r ∈ prev.EligibleProposals,
      ∃ b, concern.IsProposalEligible cloned.PublicClone r.From = .ok b) :
    ∃ saved : concern.ConcernState,
      concern.concernPolicy.Update.state cloned motion policyNS = .ok saved ∧
      saved.PriorityPoll = pmp.ConcernPollBallotName motion.ID ∧
      List.Sorted (fun r p => r ≤ p) saved.EligibleProposals ∧
      saved.EligibleProposals.Nodup ∧
      ∀ r, r ∈ saved.EligibleProposals ↔
        r ∈ prev.EligibleProposals ∧
          concern.IsProposalEligible cloned.PublicClone r.From = .ok true := by
  obtain ⟨el, hel⟩ := concern.eligible_total cloned.PublicClone prev.EligibleProposals.RefSet
    (fun r hr => helig r (List.mem_dedup.mp hr))
  obtain ⟨hsub, hmem⟩ := concern.eligible_spec cloned.PublicClone _ el hel
  refine ⟨{ PriorityPoll := pmp.ConcernPollBallotName motion.ID,
            EligibleProposals := schema.Refs.Sort el }, ?_, rfl, ?_, ?_, ?_⟩
  · simp only [concern.concernPolicy.Update.state, hprev, hel]
  · exact List.sorted_insertionSort _ el
  · exact (List.perm_insertionSort _ el).nodup_iff.mpr
      (List.Nodup.sublist hsub (List.nodup_dedup _))
  · intro r
    simp only [schema.Refs.Sort, List.mem_insertionSort, hmem, schema.Refs.RefSet,
      List.mem_dedup]

/-- C15: when the concern state loads and every referenced proposal has a policy
state, `concernPolicy.Update` saves a state whose `EligibleProposals` is sorted,
has every reference once, and holds exactly the references of the previous list
whose `From` proposal is eligible on the clone (so none that was not in the
previous list); the rest of `Update` is `updateFreeze` on the tree with that
state saved, and with the concern policy registered for the stored motion the
tree that a successful `Update` leaves still holds that state. -/
theorem concern.update_saves_eligible_refs_sorted_once (reg : policy.Registry)
    (cloned : gov.OwnerCloned) (motion : schema.Motion) (policyNS : ns.NS)
    (prev : concern.ConcernState)
    (hprev : concern.LoadState_Local cloned.Public.Tree policyNS = .ok prev)
    (helig : ∀ r ∈ prev.EligibleProposals,
      ∃ b, concern.IsProposalEligible cloned.PublicClone r.From = .ok b) :
    ∃ saved : concern.ConcernState,
      concern.concernPolicy.Update reg cloned motion policyNS =
        concern.concernPolicy.updateFreeze reg
          (cloned.withTree (concern.SaveState_StageOnly cloned.Public.Tree policyNS saved))
          motion policyNS ∧
      concern.LoadState_Local
        (concern.SaveState_StageOnly cloned.Public.Tree policyNS saved) policyNS = .ok saved ∧
      List.Sorted (fun r p => r ≤ p) saved.EligibleProposals ∧
      saved.EligibleProposals.Nodup ∧
      (∀ r, r ∈ saved.EligibleProposals ↔
        r ∈ prev.EligibleProposals ∧
          concern.IsProposalEligible cloned.PublicClone r.From = .ok true) ∧
      (policyNS = policy.MotionPolicyNS motion.ID →
        (∀ stored, schema.MotionKV.Get cloned.Public.Tree motion.ID = .ok stored →
          reg stored.Policy = some concern.concernPolicy) →
        ∀ c1 out, concern.concernPolicy.Update reg cloned motion policyNS = (c1, .ok out) →
          concern.LoadState_Local c1.Public.Tree policyNS = .ok saved) := by
  obtain ⟨saved, hstate, _, hsorted, hnodup, hmem⟩ :=
    concern.Update_state_ok cloned motion policyNS prev hprev helig
  have hupd : concern.concernPolicy.Update reg cloned motion policyNS =
      concern.concernPolicy.updateFreeze reg
        (cloned.withTree (concern.SaveState_StageOnly cloned.Public.Tree policyNS saved))
        motion policyNS := by
    simp only [concern.concernPolicy.Update, hstate]
  have hload := concern.LoadState_SaveState cloned.Public.Tree policyNS saved
  refine ⟨saved, hupd, hload, hsorted, hnodup, hmem, ?_⟩
  intro hns hreg c1 out hok
  subst hns
  rw [hupd] at hok
  obtain ⟨hA, hB, hC⟩ := concern.updateFreeze_cases reg
    (cloned.withTree (concern.SaveState_StageOnly cloned.Public.Tree
      (policy.MotionPolicyNS motion.ID) saved)) motion (policy.MotionPolicyNS motion.ID) saved hload
  have hgetc : schema.MotionKV.Get (cloned.withTree (concern.SaveState_StageOnly
      cloned.Public.Tree (policy.MotionPolicyNS motion.ID) saved)).Public.Tree motion.ID =
      schema.MotionKV.Get cloned.Public.Tree motion.ID :=
    concern.Get_SaveState cloned.Public.Tree motion.ID saved
  have hframe := concern.state_path_frame motion.ID
  -- the state file is outside what freezing and unfreezing write
  have hkeep : ∀ c : gov.OwnerCloned,
      c.Public.Tree.files ((policy.MotionPolicyNS motion.ID).Append policy.StateFilebase) =
        (cloned.withTree (concern.SaveState_StageOnly cloned.Public.Tree
          (policy.MotionPolicyNS motion.ID) saved)).Public.Tree.files
          ((policy.MotionPolicyNS motion.ID).Append policy.StateFilebase) →
      concern.LoadState_Local c.Public.Tree (policy.MotionPolicyNS motion.ID) = .ok saved := by
    intro c hc
    rw [← hload]
    simp only [concern.LoadState_Local, hc]
    rfl
  by_cases hne : saved.EligibleProposals = []
  · cases hfr : motion.Frozen with
    | false =>
      rw [hC (by simp [hne, hfr])] at hok
      cases hok
      exact hload
    | true =>
      rw [hB hne hfr] at hok
      cases hg : schema.MotionKV.Get cloned.Public.Tree motion.ID with
      | error e =>
        rw [← hgetc] at hg
        simp [ops.UnfreezeMotion_StageOnly, hg, Except.map] at hok
      | ok stored =>
        have hr := hreg stored hg
        rw [← hgetc] at hg
        have hk := (concern.UnfreezeMotion_effect reg _ motion.ID stored hg hr).1 _
          hframe.1 hframe.2
        simp only [Prod.mk.injEq] at hok
        rw [← hok.1]
        exact hkeep _ hk
  · cases hfr : motion.Frozen with
    | true =>
      rw [hC (by simp [hne, hfr])] at hok
      cases hok
      exact hload
    | false =>
      rw [hA hne hfr] at hok
      cases hg : schema.MotionKV.Get cloned.Public.Tree motion.ID with
      | error e =>
        rw [← hgetc] at hg
        simp [ops.FreezeMotion_StageOnly, hg, Except.map] at hok
      | ok stored =>
        have hr := hreg stored hg
        rw [← hgetc] at hg
        have hk := (concern.FreezeMotion_effect reg _ motion.ID stored hg hr).1 _
          hframe.1 hframe.2
        simp only [Prod.mk.injEq] at hok
        rw [← hok.1]
        exact hkeep _ hk


/-- C15 at a concrete input: the state of the concern `C1` lists `R2 → C1` once
and `R1 → C1` twice, the approval score of `R1` is 5 and the one of `R2` is 0;
`Update` saves the list with `R1 → C1` alone. -/
theorem concern.update_saves_eligible_refs_sorted_once_witness :
    concern.concernPolicy.Update.state
        (Example.concernCloned [Example.refR2C1, Example.refR1C1, Example.refR1C1] false)
        Example.concernC1 (policy.MotionPolicyNS "C1") =
      .ok ⟨"pp/C1", [Example.refR1C1]⟩ ∧
    ∃ saved : concern.ConcernState,
      saved.EligibleProposals.Nodup ∧
      ∀ r, r ∈ saved.EligibleProposals ↔
        r ∈ [Example.refR2C1, Example.refR1C1, Example.refR1C1] ∧
          concern.IsProposalEligible
            (Example.concernCloned [Example.refR2C1, Example.refR1C1,
              Example.refR1C1] false).PublicClone r.From = .ok true :=
  ⟨rfl,
   (concern.update_saves_eligible_refs_sorted_once Example.registry
      (Example.concernCloned [Example.refR2C1, Example.refR1C1, Example.refR1C1] false)
      Example.concernC1 (policy.MotionPolicyNS "C1")
      ⟨"pp/C1", [Example.refR2C1, Example.refR1C1, Example.refR1C1]⟩ rfl
      (by
        intro r hr
        simp only [List.mem_cons, List.mem_singleton, List.not_mem_nil, or_false] at hr
        rcases hr with rfl | rfl | rfl
        · exact ⟨false, rfl⟩
        · exact ⟨true, rfl⟩
        · exact ⟨true, rfl⟩)).imp
    (fun _ h => ⟨h.2.2.2.1, h.2.2.2.2.1⟩)⟩


/-- C16: for a concern stored under its id with the frozen flag of the motion
record passed in, managed by the concern policy and with its priority poll in
place, `concernPolicy.Update` succeeds and leaves the stored motion frozen
exactly when the saved list of eligible proposals is not empty. It does so by
`FreezeMotion_StageOnly` on a non-frozen concern with an eligible proposal, by
`UnfreezeMotion_StageOnly` on a frozen concern with none, and in the two
remaining cases it returns the tree with the saved state and no notice,
whatever the registry holds. -/
theorem concern.update_freezes_iff_eligible_remains (reg : policy.Registry)
    (cloned : gov.OwnerCloned) (motion stored : schema.Motion) (policyNS : ns.NS)
    (saved : concern.ConcernState) (ad : common.Advertisement)
    (hns : policyNS = policy.MotionPolicyNS motion.ID)
    (hstored : schema.MotionKV.Get cloned.Public.Tree motion.ID = .ok stored)
    (hid : stored.ID = motion.ID)
    (hflag : stored.Frozen = motion.Frozen)
    (hreg : reg stored.Policy = some concern.concernPolicy)
    (had : cloned.Public.Tree.files
      ((common.BallotPath (pmp.ConcernPollBallotName motion.ID)).Append common.AdFilebase) =
        some (.ad ad))
    (hsaved : concern.concernPolicy.Update.state cloned motion policyNS = .ok saved) :
    (∃ c1 notices,
      concern.concernPolicy.Update reg cloned motion policyNS = (c1, .ok (none, notices)) ∧
      schema.MotionKV.Get c1.Public.Tree motion.ID =
        .ok { stored with Frozen := decide (saved.EligibleProposals ≠ []) }) ∧
    (saved.EligibleProposals ≠ [] → motion.Frozen = false →
      concern.concernPolicy.Update reg cloned motion policyNS =
        ((ops.FreezeMotion_StageOnly reg
            (cloned.withTree (concern.SaveState_StageOnly cloned.Public.Tree policyNS saved))
            motion.ID).1,
          (ops.FreezeMotion_StageOnly reg
            (cloned.withTree (concern.SaveState_StageOnly cloned.Public.Tree policyNS saved))
            motion.ID).2.map (fun _ =>
              (none, ["Freezing ❄️ issue as there are eligible PRs addressing it."])))) ∧
    (saved.EligibleProposals = [] → motion.Frozen = true →
      concern.concernPolicy.Update reg cloned motion policyNS =
        ((ops.UnfreezeMotion_StageOnly reg
            (cloned.withTree (concern.SaveState_StageOnly cloned.Public.Tree policyNS saved))
            motion.ID).1,
          (ops.UnfreezeMotion_StageOnly reg
            (cloned.withTree (concern.SaveState_StageOnly cloned.Public.Tree policyNS saved))
            motion.ID).2.map (fun _ =>
              (none,
                ["Unfreezing 🌤️ issue as there are no eligible PRs are addressing it."])))) ∧
    ((saved.EligibleProposals ≠ [] ↔ motion.Frozen = true) →
      ∀ reg1 : policy.Registry,
        concern.concernPolicy.Update reg1 cloned motion policyNS =
          (cloned.withTree (concern.SaveState_StageOnly cloned.Public.Tree policyNS saved),
            .ok (none, []))) := by
  subst hns
  have hupd : ∀ reg1 : policy.Registry,
      concern.concernPolicy.Update reg1 cloned motion (policy.MotionPolicyNS motion.ID) =
      concern.concernPolicy.updateFreeze reg1
        (cloned.withTree (concern.SaveState_StageOnly cloned.Public.Tree
          (policy.MotionPolicyNS motion.ID) saved))
        motion (policy.MotionPolicyNS motion.ID) := by
    intro reg1
    simp only [concern.concernPolicy.Update, hsaved]
  have hload := concern.LoadState_SaveState cloned.Public.Tree
    (policy.MotionPolicyNS motion.ID) saved
  have hcases := fun reg1 => concern.updateFreeze_cases reg1
    (cloned.withTree (concern.SaveState_StageOnly cloned.Public.Tree
      (policy.MotionPolicyNS motion.ID) saved)) motion (policy.MotionPolicyNS motion.ID) saved hload
  have hget : schema.MotionKV.Get (cloned.withTree (concern.SaveState_StageOnly
      cloned.Public.Tree (policy.MotionPolicyNS motion.ID) saved)).Public.Tree motion.ID =
      .ok stored := by
    rw [← hstored]
    exact concern.Get_SaveState cloned.Public.Tree motion.ID saved
  have had0 : (cloned.withTree (concern.SaveState_StageOnly
      cloned.Public.Tree (policy.MotionPolicyNS motion.ID) saved)).Public.Tree.files
      ((common.BallotPath (pmp.ConcernPollBallotName stored.ID)).Append common.AdFilebase) =
        some (.ad ad) := by
    rw [hid, ← had]
    simp only [gov.OwnerCloned.withTree, concern.SaveState_StageOnly, git.files_ToFileStage,
      ((concern.state_path_frame motion.ID).2 _).symm, if_false]
  refine ⟨?_, ?_, ?_, ?_⟩
  · by_cases hne : saved.EligibleProposals = []
    · cases hfr : motion.Frozen with
      | false =>
        refine ⟨(cloned.withTree (concern.SaveState_StageOnly cloned.Public.Tree
          (policy.MotionPolicyNS motion.ID) saved)), [], ?_, ?_⟩
        · rw [hupd, (hcases reg).2.2 (by simp [hne, hfr])]
        · rw [hget]
          have : stored.Frozen = false := by rw [hflag, hfr]
          cases stored
          simp_all
      | true =>
        obtain ⟨_, hg1, hok⟩ := concern.UnfreezeMotion_effect reg _ motion.ID stored hget hreg
        obtain ⟨hok1, _⟩ := hok ad had0
        refine ⟨(ops.UnfreezeMotion_StageOnly reg (cloned.withTree (concern.SaveState_StageOnly cloned.Public.Tree
          (policy.MotionPolicyNS motion.ID) saved)) motion.ID).1,
          ["Unfreezing 🌤️ issue as there are no eligible PRs are addressing it."], ?_, ?_⟩
        · rw [hupd, (hcases reg).2.1 hne hfr, hok1]
          rfl
        · rw [hg1]
          simp [hne]
    · cases hfr : motion.Frozen with
      | true =>
        refine ⟨(cloned.withTree (concern.SaveState_StageOnly cloned.Public.Tree
          (policy.MotionPolicyNS motion.ID) saved)), [], ?_, ?_⟩
        · rw [hupd, (hcases reg).2.2 (by simp [hne, hfr])]
        · rw [hget]
          have : stored.Frozen = true := by rw [hflag, hfr]
          cases stored
          simp_all
      | false =>
        obtain ⟨_, hg1, hok⟩ := concern.FreezeMotion_effect reg _ motion.ID stored hget hreg
        obtain ⟨hok1, _⟩ := hok ad had0
        refine ⟨(ops.FreezeMotion_StageOnly reg (cloned.withTree (concern.SaveState_StageOnly cloned.Public.Tree
          (policy.MotionPolicyNS motion.ID) saved)) motion.ID).1,
          ["Freezing ❄️ issue as there are eligible PRs addressing it."], ?_, ?_⟩
        · rw [hupd, (hcases reg).1 hne hfr, hok1]
          rfl
        · rw [hg1]
          simp [hne]
  · intro hne hfr
    rw [hupd, (hcases reg).1 hne hfr]
  · intro hne hfr
    rw [hupd, (hcases reg).2.1 hne hfr]
  · intro hiff reg1
    rw [hupd, (hcases reg1).2.2 hiff]


/-- C16 at a concrete input: the concern `C1` is not frozen and its state lists
`R1 → C1`, whose proposal has approval score 5, so `Update` freezes it; once
frozen and with no reference left, `Update` unfreezes it. -/
theorem concern.update_freezes_iff_eligible_remains_witness :
    schema.MotionKV.Get
        (concern.concernPolicy.Update Example.registry
          (Example.concernCloned [Example.refR1C1] false) Example.concernC1
          (policy.MotionPolicyNS "C1")).1.Public.Tree "C1" =
      .ok { Example.concernC1 with Frozen := true } ∧
    schema.MotionKV.Get
        (concern.concernPolicy.Update Example.registry
          (Example.concernCloned [] true) { Example.concernC1 with Frozen := true }
          (policy.MotionPolicyNS "C1")).1.Public.Tree "C1" =
      .ok { Example.concernC1 with Frozen := false } ∧
    ∃ c1 notices,
      concern.concernPolicy.Update Example.registry
          (Example.concernCloned [Example.refR1C1] false) Example.concernC1
          (policy.MotionPolicyNS "C1") = (c1, .ok (none, notices)) ∧
      schema.MotionKV.Get c1.Public.Tree "C1" =
        .ok { Example.concernC1 with
              Frozen := decide
                ((⟨"pp/C1", [Example.refR1C1]⟩ : concern.ConcernState).EligibleProposals ≠ []) } :=
  ⟨rfl, rfl,
   (concern.update_freezes_iff_eligible_remains Example.registry
      (Example.concernCloned [Example.refR1C1] false) Example.concernC1 Example.concernC1
      (policy.MotionPolicyNS "C1") ⟨"pp/C1", [Example.refR1C1]⟩ (Example.pollAd false)
      rfl rfl rfl rfl rfl rfl rfl).1⟩


/-! ## The concern policy: open -/

theorem ns.Append_last (p q : ns.NS) (a b : String) (h : p.Append a = q.Append b) : a = b := by
  have := (List.append_inj' h rfl).2
  simpa using this

/-- C17: on a clone that has a head commit and the group `Everybody` and no
ballot under the name of the priority poll, `concernPolicy.Open` succeeds; the
tree it leaves holds the freshly initialised state `NewConcernState` of the
motion in the policy namespace and the advertisement of the priority poll named
in that state, with the quadratic-voting strategy, the concern ballot choice as
its only choice and `Everybody` as participants; apart from the state file and
the three files of that one ballot every file is as before. -/
theorem concern.open_saves_state_and_opens_priority_poll (cloned : gov.OwnerCloned)
    (motion : schema.Motion) (policyNS : ns.NS) (us : List member.User) (head : git.CommitHash)
    (hnew : cloned.Public.Tree.files
      ((common.BallotPath (pmp.ConcernPollBallotName motion.ID)).Append common.AdFilebase) = none)
    (hgrp : cloned.Public.Tree.groups member.Everybody = some us)
    (hhead : cloned.Public.Head = some head) :
    ∃ c2 : gov.OwnerCloned,
      concern.concernPolicy.Open cloned motion policyNS =
        (c2, .ok (none,
          ["Started managing this issue as Gov4Git concern `" ++ motion.ID ++ "`."])) ∧
      concern.LoadState_Local c2.Public.Tree policyNS = .ok (concern.NewConcernState motion.ID) ∧
      c2.Public.Tree.files
          ((common.BallotPath (concern.NewConcernState motion.ID).PriorityPoll).Append
            common.AdFilebase) =
        some (.ad { Gov := cloned.GovAddress,
                    Name := (concern.NewConcernState motion.ID).PriorityPoll,
                    Title := "Prioritization poll for motion " ++ motion.ID,
                    Description := "Up/down vote the priority for concern (issue) " ++ motion.ID,
                    Choices := [pmp.ConcernBallotChoice],
                    Strategy := load.QVStrategyName,
                    Participants := member.Everybody,
                    Frozen := false, Closed := false, Cancelled := false,
                    ParentCommit := head }) ∧
      ∀ q, q ≠ policyNS.Append policy.StateFilebase →
        q ≠ (common.BallotPath (concern.NewConcernState motion.ID).PriorityPoll).Append
          common.AdFilebase →
        q ≠ (common.BallotPath (concern.NewConcernState motion.ID).PriorityPoll).Append
          common.TallyFilebase →
        q ≠ (common.BallotPath (concern.NewConcernState motion.ID).PriorityPoll).Append
          common.StrategyFilebase →
        c2.Public.Tree.files q = cloned.Public.Tree.files q := by
  have hsa : ∀ n : common.BallotName,
      (common.BallotPath n).Append common.AdFilebase ≠ policyNS.Append policy.StateFilebase := by
    intro n h
    have := ns.Append_last _ _ _ _ h
    simp [common.AdFilebase, policy.StateFilebase] at this
  have hst : ∀ n : common.BallotName,
      policyNS.Append policy.StateFilebase ≠ (common.BallotPath n).Append common.TallyFilebase := by
    intro n h
    have := ns.Append_last _ _ _ _ h
    simp [common.TallyFilebase, policy.StateFilebase] at this
  have hss : ∀ n : common.BallotName,
      policyNS.Append policy.StateFilebase ≠
        (common.BallotPath n).Append common.StrategyFilebase := by
    intro n h
    have := ns.Append_last _ _ _ _ h
    simp [common.StrategyFilebase, policy.StateFilebase] at this
  obtain ⟨hat, has, _⟩ := ballot.paths_distinct (concern.NewConcernState motion.ID).PriorityPoll
  rcases ballot.Open_StageOnly_cases load.QVStrategy
      (cloned.withTree (concern.SaveState_StageOnly cloned.Public.Tree policyNS
        (concern.NewConcernState motion.ID)))
      (concern.NewConcernState motion.ID).PriorityPoll
      ("Prioritization poll for motion " ++ motion.ID)
      ("Up/down vote the priority for concern (issue) " ++ motion.ID)
      [pmp.ConcernBallotChoice] member.Everybody with ⟨_, hbad⟩ | ⟨_, _, head1, hh1, hopen⟩
  · exfalso
    rcases hbad with ⟨f, hf⟩ | hg | hh
    · simp [gov.OwnerCloned.withTree, concern.SaveState_StageOnly, git.files_ToFileStage,
        concern.NewConcernState, hsa, hnew] at hf
    · simp [gov.OwnerCloned.withTree, concern.SaveState_StageOnly, git.ToFileStage, hgrp] at hg
    · simp [gov.OwnerCloned.withTree, hhead] at hh
  · have hh : head1 = head := by
      simp only [gov.OwnerCloned.withTree, hhead, Option.some.injEq] at hh1
      exact hh1.symm
    subst hh
    refine ⟨(ballot.Open_StageOnly load.QVStrategy
      (cloned.withTree (concern.SaveState_StageOnly cloned.Public.Tree policyNS
        (concern.NewConcernState motion.ID)))
      (concern.NewConcernState motion.ID).PriorityPoll
      ("Prioritization poll for motion " ++ motion.ID)
      ("Up/down vote the priority for concern (issue) " ++ motion.ID)
      [pmp.ConcernBallotChoice] member.Everybody).1, ?_, ?_, ?_, ?_⟩
    · simp only [concern.concernPolicy.Open, hopen, notice.Noticef]
    all_goals rw [hopen]
    · simp only [concern.LoadState_Local, git.files_ToFileStage, hss, hst, (hsa _).symm,
        if_false, gov.OwnerCloned.withTree, concern.SaveState_StageOnly, if_true]
    · simp only [git.files_ToFileStage, hat, has, if_false, if_true]
      rfl
    · intro q h1 h2 h3 h4
      simp only [git.files_ToFileStage, h1, h2, h3, h4, if_false, gov.OwnerCloned.withTree,
        concern.SaveState_StageOnly]


/-- C17 at a concrete input: opening the concern `C1` on a clone with the group
`everybody` and a head commit saves the state that names the poll `pp/C1` and
stages the advertisement of that poll. -/
theorem concern.open_saves_state_and_opens_priority_poll_witness :
    (concern.concernPolicy.Open Example.govCloned Example.concernC1
        (policy.MotionPolicyNS "C1")).1.Public.Tree.files ["ballot", "pp/C1", "ad.json"] =
      some (.ad (Example.pollAd false)) ∧
    (concern.concernPolicy.Open Example.govCloned Example.concernC1
        (policy.MotionPolicyNS "C1")).1.Public.Tree.files
        ["motion", "C1", "policy", "state.json"] =
      some (.concernState ⟨"pp/C1", []⟩) ∧
    ∃ c2 : gov.OwnerCloned,
      concern.concernPolicy.Open Example.govCloned Example.concernC1
          (policy.MotionPolicyNS "C1") =
        (c2, .ok (none, ["Started managing this issue as Gov4Git concern `C1`."])) ∧
      concern.LoadState_Local c2.Public.Tree (policy.MotionPolicyNS "C1") =
        .ok (concern.NewConcernState "C1") :=
  ⟨rfl, rfl,
   (concern.open_saves_state_and_opens_priority_poll Example.govCloned Example.concernC1
      (policy.MotionPolicyNS "C1") ["alice", "bob"] "c0ffee" rfl rfl rfl).imp
    (fun _ h => ⟨h.1, h.2.1⟩)⟩


/-! ## Opening a motion -/

theorem slices.elems_Sort_Clone (m : slices.Heap) (s : slices.Slice) :
    (slices.Sort (slices.Clone m s).1 (slices.Clone m s).2).elems (slices.Clone m s).2 =
      (m.elems s).insertionSort (fun a b => a ≤ b) := by
  have h1 : (slices.Clone m s).1.elems (slices.Clone m s).2 = m.elems s := by
    simp [slices.Clone, slices.Heap.elems]
  unfold slices.Sort
  rw [h1]
  simp [slices.Clone, slices.Heap.elems, List.length_insertionSort]

theorem slices.elems_Sort_Clone_other (m : slices.Heap) (s c : slices.Slice)
    (hc : c.array < m.arrays.length) :
    (slices.Sort (slices.Clone m s).1 (slices.Clone m s).2).elems c = m.elems c := by
  have hne : m.arrays.length ≠ c.array := by omega
  simp [slices.Sort, slices.Clone, slices.Heap.elems, List.getD_eq_getElem?_getD,
    List.getElem?_set, hne, List.getElem?_append_left hc]

theorem ops.OpenMotion_StageOnly_heap (reg : policy.Registry) (now : Nat)
    (addr : gov.OwnerAddress) (cloned : gov.OwnerCloned) (id : schema.MotionID)
    (policyName : schema.PolicyName) (title desc : String) (typ : schema.MotionType)
    (trackerURL : String) (heap : slices.Heap) (labels : slices.Slice) :
    (ops.OpenMotion_StageOnly reg now addr cloned id policyName title desc typ trackerURL heap
      labels).1 = slices.Sort (slices.Clone heap labels).1 (slices.Clone heap labels).2 := by
  unfold ops.OpenMotion_StageOnly
  simp only []
  split
  · rfl
  · split
    · rfl
    · split <;> rfl

/-- C18: when a motion is stored under the id, `OpenMotion_StageOnly` fails with
`ErrMotionAlreadyExists` and returns the clone as it was, whatever the registry
holds; otherwise it stages under the id a motion with the given id, type,
policy, title, body and tracker URL, not closed, not frozen, whose labels are
the elements of the caller's label slice in sorted order, and then its outcome
is the one of the `Open` handler of the policy registered under the given name,
called on the clone with that motion staged; with no policy under that name it
fails after staging the motion. In every case each slice of a backing array of
before the call, and so the label slice of the caller, has after the call the
elements it had, in the order it had them. -/
theorem ops.open_motion_fails_if_exists_else_stores_and_opens (reg : policy.Registry)
    (now : Nat) (addr : gov.OwnerAddress) (cloned : gov.OwnerCloned) (id : schema.MotionID)
    (policyName : schema.PolicyName) (title desc : String) (typ : schema.MotionType)
    (trackerURL : String) (heap : slices.Heap) (labels : slices.Slice) :
    (ops.IsMotion_Local cloned.Public.Tree id = true →
      ∀ reg1 : policy.Registry,
        (ops.OpenMotion_StageOnly reg1 now addr cloned id policyName title desc typ trackerURL
          heap labels).2 = (cloned, .error schema.ErrMotionAlreadyExists)) ∧
    (ops.IsMotion_Local cloned.Public.Tree id = false →
      ∃ sorted : List String,
        List.Sorted (fun a b => a ≤ b) sorted ∧ sorted.Perm (heap.elems labels) ∧
        schema.MotionKV.Get
            (schema.MotionKV.Set cloned.Public.Tree id
              ⟨now, id, typ, policyName, trackerURL, title, desc, sorted, false, false⟩) id =
          .ok ⟨now, id, typ, policyName, trackerURL, title, desc, sorted, false, false⟩ ∧
        (∀ pcy, reg policyName = some pcy →
          (ops.OpenMotion_StageOnly reg now addr cloned id policyName title desc typ trackerURL
              heap labels).2 =
            ((pcy.Open addr
                (cloned.withTree (schema.MotionKV.Set cloned.Public.Tree id
                  ⟨now, id, typ, policyName, trackerURL, title, desc, sorted, false, false⟩))
                ⟨now, id, typ, policyName, trackerURL, title, desc, sorted, false, false⟩
                (policy.MotionPolicyNS id)).1,
              (pcy.Open addr
                (cloned.withTree (schema.MotionKV.Set cloned.Public.Tree id
                  ⟨now, id, typ, policyName, trackerURL, title, desc, sorted, false, false⟩))
                ⟨now, id, typ, policyName, trackerURL, title, desc, sorted, false, false⟩
                (policy.MotionPolicyNS id)).2.map (fun _ =>
                  ⟨"Open motion " ++ id, "docket_open_motion", [], ()⟩))) ∧
        (reg policyName = none →
          ∃ e, (ops.OpenMotion_StageOnly reg now addr cloned id policyName title desc typ
              trackerURL heap labels).2 =
            (cloned.withTree (schema.MotionKV.Set cloned.Public.Tree id
              ⟨now, id, typ, policyName, trackerURL, title, desc, sorted, false, false⟩),
              .error e))) ∧
    (∀ (reg1 : policy.Registry) (s : slices.Slice), s.array < heap.arrays.length →
      (ops.OpenMotion_StageOnly reg1 now addr cloned id policyName title desc typ trackerURL
        heap labels).1.elems s = heap.elems s) := by
  refine ⟨?_, ?_, ?_⟩
  · intro hex reg1
    simp only [ops.OpenMotion_StageOnly, hex, if_true]
  · intro hnew
    refine ⟨(heap.elems labels).insertionSort (fun a b => a ≤ b), List.sorted_insertionSort _ _,
      List.perm_insertionSort _ _, ?_, ?_, ?_⟩
    · simp [schema.MotionKV.Get, schema.MotionKV.Set, git.files_ToFileStage]
    · intro pcy hp
      rcases ho : pcy.Open addr
          (cloned.withTree (schema.MotionKV.Set cloned.Public.Tree id
            ⟨now, id, typ, policyName, trackerURL, title, desc,
              (heap.elems labels).insertionSort (fun a b => a ≤ b), false, false⟩))
          ⟨now, id, typ, policyName, trackerURL, title, desc,
            (heap.elems labels).insertionSort (fun a b => a ≤ b), false, false⟩
          (policy.MotionPolicyNS id) with ⟨c2, e | r⟩ <;>
        simp only [ops.OpenMotion_StageOnly, hnew, policy.Get, hp, slices.elems_Sort_Clone, ho,
          Except.map, Bool.false_eq_true, if_false]
    · intro hp
      exact ⟨_, by simp [ops.OpenMotion_StageOnly, hnew, policy.Get, hp,
        slices.elems_Sort_Clone]; rfl⟩
  · intro reg1 s hs
    rw [ops.OpenMotion_StageOnly_heap]
    exact slices.elems_Sort_Clone_other heap labels s hs


theorem Example.sort_labels :
    List.insertionSort (fun a b : String => a ≤ b) ["b", "a"] = ["a", "b"] := by
  have h : ¬ ("b" : String) ≤ "a" := by
    rw [String.le_iff_toList_le]
    decide
  simp [List.insertionSort, List.orderedInsert, h]

theorem Example.labels_elems :
    (slices.Heap.mk [["b", "a"]]).elems ⟨0, 0, 2⟩ = ["b", "a"] := rfl

/-- C18 at concrete inputs, the caller holding the labels `b`, `a` in a slice of
the one backing array: opening `C1` again on a clone that stores it fails with
`ErrMotionAlreadyExists` and leaves the clone as it is; opening it on a clone
without it stores the motion with the labels `a`, `b` and opens its priority
poll; after either call the slice of the caller still holds `b`, `a`. -/
theorem ops.open_motion_fails_if_exists_else_stores_and_opens_witness :
    (ops.OpenMotion_StageOnly Example.registry 7 Example.ownerAddr
        (Example.concernCloned [] false) "C1" "pmp-concern-policy" "An issue" "" .concern ""
        ⟨[["b", "a"]]⟩ ⟨0, 0, 2⟩).2 =
      (Example.concernCloned [] false, .error schema.ErrMotionAlreadyExists) ∧
    schema.MotionKV.Get
        (ops.OpenMotion_StageOnly Example.registry 7 Example.ownerAddr Example.govCloned "C1"
          "pmp-concern-policy" "An issue" "" .concern "" ⟨[["b", "a"]]⟩
          ⟨0, 0, 2⟩).2.1.Public.Tree "C1" =
      .ok ⟨7, "C1", .concern, "pmp-concern-policy", "", "An issue", "", ["a", "b"], false,
        false⟩ ∧
    (ops.OpenMotion_StageOnly Example.registry 7 Example.ownerAddr Example.govCloned "C1"
        "pmp-concern-policy" "An issue" "" .concern "" ⟨[["b", "a"]]⟩
        ⟨0, 0, 2⟩).2.1.Public.Tree.files ["ballot", "pp/C1", "ad.json"] =
      some (.ad (Example.pollAd false)) ∧
    (ops.OpenMotion_StageOnly Example.registry 7 Example.ownerAddr Example.govCloned "C1"
        "pmp-concern-policy" "An issue" "" .concern "" ⟨[["b", "a"]]⟩
        ⟨0, 0, 2⟩).1.elems ⟨0, 0, 2⟩ = ["b", "a"] ∧
    (ops.OpenMotion_StageOnly Example.registry 7 Example.ownerAddr
        (Example.concernCloned [] false) "C1" "pmp-concern-policy" "An issue" "" .concern ""
        ⟨[["b", "a"]]⟩ ⟨0, 0, 2⟩).1.elems ⟨0, 0, 2⟩ = ["b", "a"] :=
  ⟨(ops.open_motion_fails_if_exists_else_stores_and_opens Example.registry 7 Example.ownerAddr
      (Example.concernCloned [] false) "C1" "pmp-concern-policy" "An issue" "" .concern ""
      ⟨[["b", "a"]]⟩ ⟨0, 0, 2⟩).1 rfl Example.registry,
   by simp only [ops.OpenMotion_StageOnly, slices.elems_Sort_Clone, Example.labels_elems,
        Example.sort_labels]; rfl,
   by simp only [ops.OpenMotion_StageOnly, slices.elems_Sort_Clone, Example.labels_elems,
        Example.sort_labels]; rfl,
   (ops.open_motion_fails_if_exists_else_stores_and_opens Example.registry 7 Example.ownerAddr
      Example.govCloned "C1" "pmp-concern-policy" "An issue" "" .concern ""
      ⟨[["b", "a"]]⟩ ⟨0, 0, 2⟩).2.2 Example.registry ⟨0, 0, 2⟩ (by decide),
   (ops.open_motion_fails_if_exists_else_stores_and_opens Example.registry 7 Example.ownerAddr
      (Example.concernCloned [] false) "C1" "pmp-concern-policy" "An issue" "" .concern ""
      ⟨[["b", "a"]]⟩ ⟨0, 0, 2⟩).2.2 Example.registry ⟨0, 0, 2⟩ (by decide)⟩


/-! ## Clone, stage, commit, push -/

theorem git.cloneAll_spec {A T : Type} [DecidableEq A] (addr : A) (r : git.Repo T) :
    ∀ (clones : List A) (w : git.World A T), w.remotes addr = some r → w.locals addr = some r →
      (w.cloneAll clones).trace = w.trace ++ clones.map git.Effect.clone ∧
      (w.cloneAll clones).remotes = w.remotes ∧
      (w.cloneAll clones).locals addr = some r := by
  intro clones
  induction clones with
  | nil =>
    intro w _ hl
    simp [git.World.cloneAll, hl]
  | cons a rest ih =>
    intro w hr hl
    have h1 : (w.clone a).1.remotes = w.remotes := by
      unfold git.World.clone
      split <;> rfl
    have h2 : (w.clone a).1.trace = w.trace ++ [git.Effect.clone a] := by
      unfold git.World.clone
      split <;> rfl
    have h3 : (w.clone a).1.locals addr = some r := by
      unfold git.World.clone
      split
      · exact hl
      · rename_i r1 hr1
        by_cases ha : addr = a
        · subst ha
          rw [hr] at hr1
          simp [hr1]
        · simp [ha, hl]
    obtain ⟨i1, i2, i3⟩ := ih (w.clone a).1 (by rw [h1]; exact hr) h3
    refine ⟨?_, ?_, i3⟩
    · simp only [git.World.cloneAll, i1, h2, List.map_cons, List.append_assoc,
        List.singleton_append]
    · simp only [git.World.cloneAll, i2, h1]


theorem spec.pattern_no_remote {A T R : Type} [DecidableEq A] (w : git.World A T) (addr : A)
    (hash : git.CommitHash) (stage : git.Repo T → List A × Except Err (T × R × String))
    (hr : w.remotes addr = none) :
    spec.cloneStageCommitPush w addr hash stage =
      ({ w with trace := w.trace ++ [.clone addr] }, .error (.failed "repository not found")) := by
  simp only [spec.cloneStageCommitPush, git.World.clone, hr]

theorem spec.pattern_stage_error {A T R : Type} [DecidableEq A] (w : git.World A T) (addr : A)
    (hash : git.CommitHash) (stage : git.Repo T → List A × Except Err (T × R × String))
    (r : git.Repo T) (clones : List A) (e : Err)
    (hr : w.remotes addr = some r) (hs : stage r = (clones, .error e)) :
    (spec.cloneStageCommitPush w addr hash stage).2 = .error e ∧
    (spec.cloneStageCommitPush w addr hash stage).1.trace =
      w.trace ++ [.clone addr] ++ clones.map git.Effect.clone ∧
    (spec.cloneStageCommitPush w addr hash stage).1.remotes = w.remotes := by
  obtain ⟨h1, h2, _⟩ := git.cloneAll_spec addr r clones
    { w with locals := fun a => if a = addr then some r else w.locals a,
             trace := w.trace ++ [.clone addr] } hr (by simp)
  simp only [spec.cloneStageCommitPush, git.World.clone, hr, hs]
  exact ⟨trivial, h1, h2⟩

theorem spec.pattern_ok {A T R : Type} [DecidableEq A] (w : git.World A T) (addr : A)
    (hash : git.CommitHash) (stage : git.Repo T → List A × Except Err (T × R × String))
    (r : git.Repo T) (clones : List A) (staged : T) (result : R) (msg : String)
    (hr : w.remotes addr = some r) (hs : stage r = (clones, .ok (staged, result, msg))) :
    (spec.cloneStageCommitPush w addr hash stage).2 = .ok result ∧
    (spec.cloneStageCommitPush w addr hash stage).1.trace =
      w.trace ++ [.clone addr] ++ clones.map git.Effect.clone ++
        [.commit addr msg, .push addr] ∧
    (spec.cloneStageCommitPush w addr hash stage).1.remotes addr =
      some { Tree := staged, Log := r.Log ++ [{ Hash := hash, Msg := msg }] } ∧
    ∀ a, a ≠ addr → (spec.cloneStageCommitPush w addr hash stage).1.remotes a = w.remotes a := by
  obtain ⟨h1, h2, h3⟩ := git.cloneAll_spec addr r clones
    { w with locals := fun a => if a = addr then some r else w.locals a,
             trace := w.trace ++ [.clone addr] } hr (by simp)
  have hr2 : (git.World.cloneAll
      { w with locals := fun a => if a = addr then some r else w.locals a,
               trace := w.trace ++ [.clone addr] } clones).remotes addr = some r := by
    rw [h2]; exact hr
  simp only [spec.cloneStageCommitPush, git.World.clone, hr, hs, git.World.commit, h3,
    git.World.push, if_true, hr2]
  refine ⟨trivial, ?_, ?_, ?_⟩
  · simp only [h1, List.append_assoc, List.cons_append, List.nil_append]
  · simp
  · intro a ha
    simp only [ha, if_false, h2]


theorem account.Create_pattern (ctx : Context) (w : git.World gov.Address Tree)
    (hash : git.CommitHash) (addr : gov.Address) (id : account.AccountID)
    (owner : account.OwnerID) (note : String) :
    account.Create ctx w hash addr id owner note =
      spec.cloneStageCommitPush w addr hash (fun r =>
        spec.staged (account.Create_StageOnly ctx r.Tree id owner note) (fun _ => ())
          (fun _ => "create account " ++ id ++ " (" ++ note ++ ")")) := by
  unfold account.Create spec.cloneStageCommitPush gov.Clone
  rcases hc : w.clone addr with ⟨w1, e | r⟩
  · rfl
  · simp only []
    rcases hs : account.Create_StageOnly ctx r.Tree id owner note with ⟨t1, e | u⟩
    · rfl
    · simp only [spec.staged, git.World.cloneAll, proto.Commitf, gov.Cloned.withTree,
        gov.Cloned.Push]
      rcases hm : w1.commit addr t1 hash
        ("create account " ++ id ++ " (" ++ note ++ ")") with ⟨w2, e | u⟩
      · rfl
      · simp only []
        rcases hp : w2.push addr with ⟨w3, e | u⟩ <;> rfl

theorem account.Transfer_pattern (ctx : Context) (w : git.World gov.Address Tree)
    (hash : git.CommitHash) (addr : gov.Address) (from_ to_ : account.AccountID)
    (amount : account.Holding) (note : String) :
    account.Transfer ctx w hash addr from_ to_ amount note =
      spec.cloneStageCommitPush w addr hash (fun r =>
        spec.staged (account.Transfer_StageOnly ctx r.Tree from_ to_ amount note) (fun _ => ())
          (fun _ => "transfer " ++ amount.format ++ " from " ++ from_ ++ " to " ++ to_ ++ " (" ++ note ++ ")")) := by
  unfold account.Transfer spec.cloneStageCommitPush gov.Clone
  rcases hc : w.clone addr with ⟨w1, e | r⟩
  · rfl
  · simp only []
    rcases hs : account.Transfer_StageOnly ctx r.Tree from_ to_ amount note with ⟨t1, e | u⟩
    · rfl
    · simp only [spec.staged, git.World.cloneAll, proto.Commitf, gov.Cloned.withTree,
        gov.Cloned.Push]
      rcases hm : w1.commit addr t1 hash
        ("transfer " ++ amount.format ++ " from " ++ from_ ++ " to " ++ to_ ++ " (" ++ note ++ ")") with ⟨w2, e | u⟩
      · rfl
      · simp only []
        rcases hp : w2.push addr with ⟨w3, e | u⟩ <;> rfl

theorem account.Deposit_pattern (ctx : Context) (w : git.World gov.Address Tree)
    (hash : git.CommitHash) (addr : gov.Address) (to_ : account.AccountID)
    (amount : account.Holding) (note : String) :
    account.Deposit ctx w hash addr to_ amount note =
      spec.cloneStageCommitPush w addr hash (fun r =>
        spec.staged (account.Deposit_StageOnly ctx r.Tree to_ amount note) (fun _ => ())
          (fun _ => "deposit " ++ amount.format ++ " to " ++ to_ ++ " (" ++ note ++ ")")) := by
  unfold account.Deposit spec.cloneStageCommitPush gov.Clone
  rcases hc : w.clone addr with ⟨w1, e | r⟩
  · rfl
  · simp only []
    rcases hs : account.Deposit_StageOnly ctx r.Tree to_ amount note with ⟨t1, e | u⟩
    · rfl
    · simp only [spec.staged, git.World.cloneAll, proto.Commitf, gov.Cloned.withTree,
        gov.Cloned.Push]
      rcases hm : w1.commit addr t1 hash
        ("deposit " ++ amount.format ++ " to " ++ to_ ++ " (" ++ note ++ ")") with ⟨w2, e | u⟩
      · rfl
      · simp only []
        rcases hp : w2.push addr with ⟨w3, e | u⟩ <;> rfl

theorem account.Withdraw_pattern (ctx : Context) (w : git.World gov.Address Tree)
    (hash : git.CommitHash) (addr : gov.Address) (from_ : account.AccountID)
    (amount : account.Holding) (note : String) :
    account.Withdraw ctx w hash addr from_ amount note =
      spec.cloneStageCommitPush w addr hash (fun r =>
        spec.staged (account.Withdraw_StageOnly ctx r.Tree from_ amount note) (fun _ => ())
          (fun _ => "withdraw " ++ amount.format ++ " from " ++ from_ ++ " (" ++ note ++ ")")) := by
  unfold account.Withdraw spec.cloneStageCommitPush gov.Clone
  rcases hc : w.clone addr with ⟨w1, e | r⟩
  · rfl
  · simp only []
    rcases hs : account.Withdraw_StageOnly ctx r.Tree from_ amount note with ⟨t1, e | u⟩
    · rfl
    · simp only [spec.staged, git.World.cloneAll, proto.Commitf, gov.Cloned.withTree,
        gov.Cloned.Push]
      rcases hm : w1.commit addr t1 hash
        ("withdraw " ++ amount.format ++ " from " ++ from_ ++ " (" ++ note ++ ")") with ⟨w2, e | u⟩
      · rfl
      · simp only []
        rcases hp : w2.push addr with ⟨w3, e | u⟩ <;> rfl

theorem ballot.Open_StageOnly_address (strat : common.Strategy) (govCloned : gov.OwnerCloned)
    (name : common.BallotName) (title description : String) (choices : List String)
    (participants : member.Group) :
    (ballot.Open_StageOnly strat govCloned name title description choices
      participants).1.Public.Address = govCloned.Public.Address := by
  rcases ballot.Open_StageOnly_cases strat govCloned name title description choices
    participants with ⟨⟨e, h⟩, _⟩ | ⟨_, _, head, _, h⟩ <;> rw [h]

theorem ballot.Open_pattern (strat : common.Strategy) (w : git.World gov.Address Tree)
    (hash : git.CommitHash) (govAddr : gov.OwnerAddress) (name : common.BallotName)
    (title description : String) (choices : List String) (participants : member.Group) :
    ballot.Open strat w hash govAddr name title description choices participants =
      spec.cloneStageCommitPush w govAddr.Public hash (fun r =>
        spec.staged
          ((ballot.Open_StageOnly strat ⟨⟨govAddr.Public, r.Tree, r.Head⟩⟩ name title
              description choices participants).1.Public.Tree,
            (ballot.Open_StageOnly strat ⟨⟨govAddr.Public, r.Tree, r.Head⟩⟩ name title
              description choices participants).2)
          (fun chg => chg) (fun chg => chg.Msg)) := by
  unfold ballot.Open spec.cloneStageCommitPush gov.CloneOwner gov.Clone
  rcases hc : w.clone govAddr.Public with ⟨w1, e | r⟩
  · rfl
  · simp only []
    have ha := ballot.Open_StageOnly_address strat ⟨⟨govAddr.Public, r.Tree, r.Head⟩⟩ name title
      description choices participants
    rcases hs : ballot.Open_StageOnly strat ⟨⟨govAddr.Public, r.Tree, r.Head⟩⟩ name title
      description choices participants with ⟨c1, e | chg⟩
    · rfl
    · rw [hs] at ha
      simp only [] at ha
      simp only [spec.staged, git.World.cloneAll, proto.Commit, gov.Cloned.Push, ha]
      rcases hm : w1.commit govAddr.Public c1.Public.Tree hash chg.Msg with ⟨w2, e | u⟩
      · rfl
      · simp only []
        rcases hp : w2.push govAddr.Public with ⟨w3, e | u⟩ <;> rfl

theorem collab.ScoreMotions_pattern (w : git.World gov.Address collab.Tree)
    (hash : git.CommitHash) (addr : gov.Address) :
    collab.ScoreMotions w hash addr =
      spec.cloneStageCommitPush w addr hash (fun r =>
        spec.staged (collab.ScoreMotions_StageOnly addr r.Tree) (fun chg => chg)
          (fun chg => chg.Msg)) := by
  unfold collab.ScoreMotions spec.cloneStageCommitPush collab.Clone
  rcases hc : w.clone addr with ⟨w1, e | r⟩
  · rfl
  · simp only []
    rcases hs : collab.ScoreMotions_StageOnly addr r.Tree with ⟨t1, e | chg⟩
    · rfl
    · simp only [spec.staged, git.World.cloneAll]
      rcases hm : w1.commit addr t1 hash chg.Msg with ⟨w2, e | u⟩
      · rfl
      · simp only []
        rcases hp : w2.push addr with ⟨w3, e | u⟩ <;> rfl

/-- The outcome of `TallyStageOnly` as the pattern takes it: the homes it clones
to fetch the votes, the staged tree, the change and its message. -/
theorem mod.ballot.Tally_pattern (s : mod.ballot.Strategy)
    (w : git.World mod.id.PublicAddress mod.Tree) (hash : git.CommitHash)
    (govAddr : mod.id.OwnerAddress) (ballotName : ns.NS) :
    mod.ballot.Tally s w hash govAddr ballotName =
      spec.cloneStageCommitPush w govAddr.Public hash (fun r =>
        (mod.ballot.TallyStageOnly.clones (fun a => (w.remotes a).map (fun r => r.Tree)) r.Tree
            ballotName,
          match mod.ballot.TallyStageOnly s (fun a => (w.remotes a).map (fun r => r.Tree)) r.Tree
              ballotName with
          | (_, .error e) => .error e
          | (govTree1, .ok chg) => .ok (govTree1, chg, chg.Msg))) := by
  unfold mod.ballot.Tally spec.cloneStageCommitPush mod.id.CloneOwner git.World.clone
  cases hr : w.remotes govAddr.Public with
  | none => rfl
  | some r =>
    simp only []
    rcases hs : mod.ballot.TallyStageOnly s (fun a => (w.remotes a).map (fun r => r.Tree))
      r.Tree ballotName with ⟨t1, e | chg⟩
    · simp only [hs]
    · simp only [hs, mod.Commit, mod.git.Push]
      split
      · rename_i h1
        simp only [h1]
      · rename_i h1
        simp only [h1]
        split
        · rename_i h2
          simp only [h2]
        · rename_i h2
          simp only [h2]


/-- C19: each of the organizer's mutators `account.Create`, `account.Transfer`,
`account.Deposit`, `account.Withdraw`, `Open` and `Tally` of the ballots and
`ScoreMotions` is the pattern clone, stage-only variant, commit, push, in which
the stage-only variant is given the clone alone, so that it neither commits nor
pushes. In that pattern a call whose stage-only variant succeeds performs the
clone, then the clones the stage-only variant reads votes from, then one commit
and then one push and nothing else, and the remote repository gains exactly one
commit; a call whose stage-only variant fails performs no commit and no push
and leaves the remote repositories as they were. -/
theorem organizer_mutators_clone_stage_commit_push :
    (∀ ctx w hash addr id owner note,
      account.Create ctx w hash addr id owner note =
        spec.cloneStageCommitPush w addr hash (fun r =>
          spec.staged (account.Create_StageOnly ctx r.Tree id owner note) (fun _ => ())
            (fun _ => "create account " ++ id ++ " (" ++ note ++ ")"))) ∧
    (∀ ctx w hash addr from_ to_ amount note,
      account.Transfer ctx w hash addr from_ to_ amount note =
        spec.cloneStageCommitPush w addr hash (fun r =>
          spec.staged (account.Transfer_StageOnly ctx r.Tree from_ to_ amount note)
            (fun _ => ())
            (fun _ => "transfer " ++ amount.format ++ " from " ++ from_ ++ " to " ++ to_ ++
              " (" ++ note ++ ")"))) ∧
    (∀ ctx w hash addr to_ amount note,
      account.Deposit ctx w hash addr to_ amount note =
        spec.cloneStageCommitPush w addr hash (fun r =>
          spec.staged (account.Deposit_StageOnly ctx r.Tree to_ amount note) (fun _ => ())
            (fun _ => "deposit " ++ amount.format ++ " to " ++ to_ ++ " (" ++ note ++ ")"))) ∧
    (∀ ctx w hash addr from_ amount note,
      account.Withdraw ctx w hash addr from_ amount note =
        spec.cloneStageCommitPush w addr hash (fun r =>
          spec.staged (account.Withdraw_StageOnly ctx r.Tree from_ amount note) (fun _ => ())
            (fun _ => "withdraw " ++ amount.format ++ " from " ++ from_ ++
              " (" ++ note ++ ")"))) ∧
    (∀ strat w hash govAddr name title description choices participants,
      ballot.Open strat w hash govAddr name title description choices participants =
        spec.cloneStageCommitPush w govAddr.Public hash (fun r =>
          spec.staged
            ((ballot.Open_StageOnly strat ⟨⟨govAddr.Public, r.Tree, r.Head⟩⟩ name title
                description choices participants).1.Public.Tree,
              (ballot.Open_StageOnly strat ⟨⟨govAddr.Public, r.Tree, r.Head⟩⟩ name title
                description choices participants).2)
            (fun chg => chg) (fun chg => chg.Msg))) ∧
    (∀ s w hash govAddr ballotName,
      mod.ballot.Tally s w hash govAddr ballotName =
        spec.cloneStageCommitPush w govAddr.Public hash (fun r =>
          (mod.ballot.TallyStageOnly.clones (fun a => (w.remotes a).map (fun r => r.Tree))
              r.Tree ballotName,
            match mod.ballot.TallyStageOnly s (fun a => (w.remotes a).map (fun r => r.Tree))
                r.Tree ballotName with
            | (_, .error e) => .error e
            | (govTree1, .ok chg) => .ok (govTree1, chg, chg.Msg)))) ∧
    (∀ w hash addr,
      collab.ScoreMotions w hash addr =
        spec.cloneStageCommitPush w addr hash (fun r =>
          spec.staged (collab.ScoreMotions_StageOnly addr r.Tree) (fun chg => chg)
            (fun chg => chg.Msg))) ∧
    (∀ (A T R : Type) [DecidableEq A] (w : git.World A T) (addr : A) (hash : git.CommitHash)
        (stage : git.Repo T → List A × Except Err (T × R × String)) (r : git.Repo T),
      w.remotes addr = some r →
      (∀ clones staged result msg, stage r = (clones, .ok (staged, result, msg)) →
        (spec.cloneStageCommitPush w addr hash stage).2 = .ok result ∧
        (spec.cloneStageCommitPush w addr hash stage).1.trace =
          w.trace ++ [.clone addr] ++ clones.map git.Effect.clone ++
            [.commit addr msg, .push addr] ∧
        (spec.cloneStageCommitPush w addr hash stage).1.remotes addr =
          some { Tree := staged, Log := r.Log ++ [{ Hash := hash, Msg := msg }] } ∧
        ∀ a, a ≠ addr →
          (spec.cloneStageCommitPush w addr hash stage).1.remotes a = w.remotes a) ∧
      (∀ clones e, stage r = (clones, .error e) →
        (spec.cloneStageCommitPush w addr hash stage).2 = .error e ∧
        (spec.cloneStageCommitPush w addr hash stage).1.trace =
          w.trace ++ [.clone addr] ++ clones.map git.Effect.clone ∧
        (spec.cloneStageCommitPush w addr hash stage).1.remotes = w.remotes)) := by
  refine ⟨account.Create_pattern, account.Transfer_pattern, account.Deposit_pattern,
    account.Withdraw_pattern, ballot.Open_pattern, mod.ballot.Tally_pattern,
    collab.ScoreMotions_pattern, ?_⟩
  intro A T R _ w addr hash stage r hr
  exact ⟨fun clones staged result msg hs =>
      spec.pattern_ok w addr hash stage r clones staged result msg hr hs,
    fun clones e hs => spec.pattern_stage_error w addr hash stage r clones e hr hs⟩

/-- C19 at a concrete input: a deposit of 2 `plural` to alice on the governance
repository performs one clone, one commit and one push, in this order, and the
remote log gains the one commit. -/
theorem organizer_mutators_clone_stage_commit_push_witness :
    (account.Deposit Example.ctx Example.world "d00d" Example.govAddr "alice"
        (Example.plural 2) "grant").1.trace =
      [.clone Example.govAddr,
       .commit Example.govAddr
         ("deposit " ++ (Example.plural 2).format ++ " to " ++ "alice" ++ " (" ++ "grant" ++ ")"),
       .push Example.govAddr] ∧
    ((account.Deposit Example.ctx Example.world "d00d" Example.govAddr "alice"
        (Example.plural 2) "grant").1.remotes Example.govAddr).map (fun r => r.Log.length) =
      some 2 := by
  have h := organizer_mutators_clone_stage_commit_push
  obtain ⟨hd, hp⟩ := (⟨h.2.2.1, h.2.2.2.2.2.2.2⟩ :
    _ ∧ _)
  have hw : Example.world.remotes Example.govAddr =
      some { Tree := Example.tree, Log := [{ Hash := "c0ffee", Msg := "init" }] } := by
    simp [Example.world]
  obtain ⟨_, h2, h3, _⟩ := (hp gov.Address Tree Unit Example.world Example.govAddr "d00d"
    (fun r => spec.staged
      (account.Deposit_StageOnly Example.ctx r.Tree "alice" (Example.plural 2) "grant")
      (fun _ => ())
      (fun _ => "deposit " ++ (Example.plural 2).format ++ " to " ++ "alice" ++
        " (" ++ "grant" ++ ")")) _ hw).1
    [] (account.Deposit_StageOnly Example.ctx Example.tree "alice" (Example.plural 2) "grant").1
    () ("deposit " ++ (Example.plural 2).format ++ " to " ++ "alice" ++ " (" ++ "grant" ++ ")")
    rfl
  rw [hd]
  exact ⟨by simpa using h2, by rw [h3]; rfl⟩


/-! ## The sync orchestrator -/

/-- C20: `Sync` runs `TallyAll` on the repositories it is given, with the
governance address and the parallelism bound, and then `Process` on the
repositories `TallyAll` leaves, for the group `Everybody`. When both return
their changes, `Sync` returns the change "Governance-community sync" whose
result maps `tally_result` to the result of the tally change and `bureau_result`
to the result of the bureau change and whose steps are the tally change and
then the bureau change. When `TallyAll` panics `Process` does not run, and when
`Process` panics so does `Sync`. -/
theorem sync.sync_runs_tally_then_bureau {W RT RB : Type} (p : sync.Phases W RT RB) (w : W)
    (govAddr : gov.OwnerAddress) (maxPar : Int) :
    (∀ w1 e, p.TallyAll w govAddr maxPar = (w1, .error e) →
      ∀ process : W → gov.OwnerAddress → member.Group → W × Except Err (git.Change RB),
        sync.Sync ⟨p.TallyAll, process⟩ w govAddr maxPar = (w1, .error e)) ∧
    (∀ w1 tallyChg, p.TallyAll w govAddr maxPar = (w1, .ok tallyChg) →
      (∀ w2 e, p.Process w1 govAddr member.Everybody = (w2, .error e) →
        sync.Sync p w govAddr maxPar = (w2, .error e)) ∧
      (∀ w2 bureauChg, p.Process w1 govAddr member.Everybody = (w2, .ok bureauChg) →
        sync.Sync p w govAddr maxPar =
          (w2, .ok ⟨"Governance-community sync", "sync_sync", [],
            [("tally_result", .inl tallyChg.Result), ("bureau_result", .inr bureauChg.Result)],
            [.inl tallyChg, .inr bureauChg]⟩))) := by
  refine ⟨?_, ?_⟩
  · intro w1 e ht process
    simp only [sync.Sync, ht]
  · intro w1 tallyChg ht
    refine ⟨?_, ?_⟩
    · intro w2 e hp
      simp only [sync.Sync, ht, hp]
    · intro w2 bureauChg hp
      simp only [sync.Sync, ht, hp]

/-- C20 at a concrete input: with phases that log their runs, `Sync` leaves the
log `tally`, `bureau everybody` and returns the two results and the two changes
in this order. -/
theorem sync.sync_runs_tally_then_bureau_witness :
    (sync.Sync Example.phases [] Example.ownerAddr 4).1 = ["tally", "bureau everybody"] ∧
    sync.Sync Example.phases [] Example.ownerAddr 4 =
      (["tally", "bureau everybody"],
        .ok ⟨"Governance-community sync", "sync_sync", [],
          [("tally_result", .inl 4), ("bureau_result", .inr 1)],
          [.inl ⟨"Tally all", "ballot_tally_all", [], 4⟩,
           .inr ⟨"Process", "bureau_process", [], 1⟩]⟩) :=
  ⟨rfl,
   ((sync.sync_runs_tally_then_bureau Example.phases [] Example.ownerAddr 4).2
      ["tally"] ⟨"Tally all", "ballot_tally_all", [], 4⟩ rfl).2
      ["tally", "bureau everybody"] ⟨"Process", "bureau_process", [], 1⟩ rfl⟩


/-! ## Eligibility of a proposal for a concern, in full -/

/-- C21: `IsConcernProposalEligible` returns true exactly when the reference
type is `Claims`, the motion stored under the first id is a concern, the motion
stored under the second id is a proposal, neither of them is closed and the
policy state of the proposal has `LatestApprovalScore` > 0; and for a reference
type other than `Claims` it returns false on every clone, also on one that
stores neither motion, so that it does not fail there, while for `Claims` a
missing motion makes it fail. -/
theorem pmp_0.eligible_exactly_when_all_guards_hold (cloned : gov.Cloned)
    (conID propID : schema.MotionID) (refType : schema.RefType) :
    (pmp_0.IsConcernProposalEligible cloned conID propID refType = .ok true ↔
      refType = pmp_0.ClaimsRefType ∧
      ∃ con prop st, motionapi.LookupMotion_Local cloned conID = .ok con ∧
        motionapi.LookupMotion_Local cloned propID = .ok prop ∧
        con.IsConcern = true ∧ prop.IsProposal = true ∧ con.Closed = false ∧
        prop.Closed = false ∧ motionapi.LoadPolicyState_Local cloned prop.ID = .ok st ∧
        0 < st.LatestApprovalScore) ∧
    (refType ≠ pmp_0.ClaimsRefType →
      pmp_0.IsConcernProposalEligible cloned conID propID refType = .ok false) ∧
    (refType = pmp_0.ClaimsRefType →
      (∀ e, motionapi.LookupMotion_Local cloned conID = .error e →
        pmp_0.IsConcernProposalEligible cloned conID propID refType = .error e) ∧
      (∀ con e, motionapi.LookupMotion_Local cloned conID = .ok con →
        motionapi.LookupMotion_Local cloned propID = .error e →
        pmp_0.IsConcernProposalEligible cloned conID propID refType = .error e)) := by
  refine ⟨pmp_0.IsConcernProposalEligible_true_iff cloned conID propID refType, ?_, ?_⟩
  · intro hr
    simp only [pmp_0.IsConcernProposalEligible, hr, ne_eq, not_false_eq_true, if_true]
  · intro hr
    constructor
    · intro e hc
      simp only [pmp_0.IsConcernProposalEligible, hr, hc, ne_eq, not_true_eq_false, if_false]
    · intro con e hc hp
      simp only [pmp_0.IsConcernProposalEligible, hr, hc, hp, ne_eq, not_true_eq_false,
        if_false]

/-- C21 at concrete inputs: on the clone that stores the concern `C1` and the
proposal `R1` of approval score 5, the pair is eligible under `claims`; under
`resolves` the result is false, also for ids under which no motion is stored;
under `claims` a missing motion is a failure. -/
theorem pmp_0.eligible_exactly_when_all_guards_hold_witness :
    pmp_0.IsConcernProposalEligible Example.motionCloned "C1" "R1" "claims" = .ok true ∧
    pmp_0.IsConcernProposalEligible Example.motionCloned "C9" "R9" "resolves" = .ok false ∧
    pmp_0.IsConcernProposalEligible Example.motionCloned "C9" "R1" "claims" =
      .error (.notExist "motion/C9") :=
  ⟨(pmp_0.eligible_exactly_when_all_guards_hold Example.motionCloned "C1" "R1" "claims").1.mpr
      ⟨rfl, Example.concernC1, Example.proposalR1, { LatestApprovalScore := 5 }, rfl, rfl, rfl,
        rfl, rfl, rfl, rfl, by decide⟩,
   (pmp_0.eligible_exactly_when_all_guards_hold Example.motionCloned "C9" "R9" "resolves").2.1
      (by decide),
   ((pmp_0.eligible_exactly_when_all_guards_hold Example.motionCloned "C9" "R1" "claims").2.2
      rfl).1 _ rfl⟩


/-! ## Parsing the elections of the command line -/

theorem cmd.parseElections_loop_spec {S Q E : Type} (NewElection : S → String → Q → S × E) :
    ∀ (choices : List String) (strengths : List Q) (s : S),
      choices.length = strengths.length →
      ∃ states : Nat → S,
        states 0 = s ∧
        (cmd.parseElections.loop NewElection s choices strengths).1 = states choices.length ∧
        (cmd.parseElections.loop NewElection s choices strengths).2.length = choices.length ∧
        ∀ i (hc : i < choices.length) (hs : i < strengths.length),
          (cmd.parseElections.loop NewElection s choices strengths).2[i]? =
            some (NewElection (states i) (choices.get ⟨i, hc⟩) (strengths.get ⟨i, hs⟩)).2 ∧
          states (i + 1) =
            (NewElection (states i) (choices.get ⟨i, hc⟩) (strengths.get ⟨i, hs⟩)).1 := by
  intro choices
  induction choices with
  | nil =>
    intro strengths s _
    refine ⟨fun _ => s, rfl, ?_, ?_, ?_⟩
    · simp [cmd.parseElections.loop]
    · simp [cmd.parseElections.loop]
    · intro i hc
      simp at hc
  | cons c cs ih =>
    intro strengths s hlen
    cases strengths with
    | nil => simp at hlen
    | cons q qs =>
      have hlen1 : cs.length = qs.length := by simpa using hlen
      obtain ⟨states1, h0, h1, h2, h3⟩ := ih qs (NewElection s c q).1 hlen1
      refine ⟨fun i => match i with
        | 0 => s
        | i + 1 => states1 i, rfl, ?_, ?_, ?_⟩
      · simp only [cmd.parseElections.loop, List.length_cons]
        exact h1
      · simp only [cmd.parseElections.loop, List.length_cons, h2]
      · intro i hc hs
        cases i with
        | zero =>
          simp only [cmd.parseElections.loop, List.getElem?_cons_zero, List.get_eq_getElem,
            List.getElem_cons_zero, h0, and_self]
        | succ j =>
          have hc1 : j < cs.length := by simpa using hc
          have hs1 : j < qs.length := by simpa using hs
          have := h3 j hc1 hs1
          simpa only [cmd.parseElections.loop, List.getElem?_cons_succ, List.get_eq_getElem,
            List.getElem_cons_succ] using this

theorem cmd.parseElections_loop_pure {Q E : Type} (f : String → Q → E) :
    ∀ (choices : List String) (strengths : List Q),
      cmd.parseElections.loop (fun (_ : Unit) c q => ((), f c q)) () choices strengths =
        ((), List.zipWith f choices strengths) := by
  intro choices
  induction choices with
  | nil => intro strengths; simp [cmd.parseElections.loop]
  | cons c cs ih =>
    intro strengths
    cases strengths with
    | nil => simp [cmd.parseElections.loop]
    | cons q qs => simp [cmd.parseElections.loop, ih qs]

/-- C25: `parseElections` fails if and only if the list of choices and the list
of strengths differ in length, and then `NewElection` is not called; otherwise
it returns a list of the length of the choices whose election at every index
`i` is the one that `NewElection` made of the choice and the strength at `i`,
the calls being made in the order of the indices; for a `NewElection` without a
state of its own the list is `NewElection` applied to the pairs, in order. -/
theorem cmd.parseElections_fails_iff_lengths_differ {S Q E : Type}
    (NewElection : S → String → Q → S × E) (s : S) (choices : List String)
    (strengths : List Q) :
    ((∃ e, (cmd.parseElections NewElection s choices strengths).2 = .error e) ↔
      choices.length ≠ strengths.length) ∧
    (choices.length ≠ strengths.length →
      (cmd.parseElections NewElection s choices strengths).1 = s) ∧
    (choices.length = strengths.length →
      ∃ (el : List E) (states : Nat → S),
        cmd.parseElections NewElection s choices strengths = (states choices.length, .ok el) ∧
        el.length = choices.length ∧ states 0 = s ∧
        ∀ i (hc : i < choices.length) (hs : i < strengths.length),
          el[i]? =
            some (NewElection (states i) (choices.get ⟨i, hc⟩) (strengths.get ⟨i, hs⟩)).2 ∧
          states (i + 1) =
            (NewElection (states i) (choices.get ⟨i, hc⟩) (strengths.get ⟨i, hs⟩)).1) ∧
    (choices.length = strengths.length →
      ∀ f : String → Q → E,
        (cmd.parseElections (fun (_ : Unit) c q => ((), f c q)) () choices strengths).2 =
          .ok (List.zipWith f choices strengths)) := by
  by_cases hlen : choices.length = strengths.length
  · obtain ⟨states, h0, h1, h2, h3⟩ :=
      cmd.parseElections_loop_spec NewElection choices strengths s hlen
    refine ⟨?_, fun hne => absurd hlen hne, fun _ => ?_, fun _ f => ?_⟩
    · simp [cmd.parseElections, hlen]
    · refine ⟨(cmd.parseElections.loop NewElection s choices strengths).2, states, ?_, h2, h0,
        h3⟩
      have hif : ¬ (choices.length ≠ strengths.length) := fun h => h hlen
      simp only [cmd.parseElections, if_neg hif]
      rw [h1]
    · simp only [cmd.parseElections, hlen, ne_eq, not_true_eq_false, if_false,
        cmd.parseElections_loop_pure f choices strengths]
  · refine ⟨?_, fun _ => ?_, fun h => absurd h hlen, fun h => absurd h hlen⟩
    · simp [cmd.parseElections, hlen]
    · simp [cmd.parseElections, hlen]

/-- C25 at concrete inputs: two choices with two strengths give the two
elections in order, the state counting the calls; two choices with one strength
fail. -/
theorem cmd.parseElections_fails_iff_lengths_differ_witness :
    cmd.parseElections (fun (n : Nat) c (q : Int) => (n + 1, (n, c, q))) 0 ["yes", "no"]
        [2, -1] = (2, .ok [(0, "yes", 2), (1, "no", -1)]) ∧
    ∃ e, (cmd.parseElections (fun (n : Nat) c (q : Int) => (n + 1, (n, c, q))) 0 ["yes", "no"]
        [2]).2 = .error e :=
  ⟨rfl,
   (cmd.parseElections_fails_iff_lengths_differ (fun (n : Nat) c (q : Int) => (n + 1, (n, c, q)))
      0 ["yes", "no"] [2]).1.mpr (by decide)⟩


/-! ## Transfers of a negative amount -/

theorem account.Transfer_StageOnly_balances (ctx : Context) (t : Tree)
    (from_ to_ : account.AccountID) (amount : account.Holding) (note : String)
    (af at_ : account.Account) (hne : from_ ≠ to_)
    (hf : t.accounts from_ = some af) (ht : t.accounts to_ = some at_)
    (hw : 0 ≤ t.balance from_ amount.Asset - amount.Quantity)
    (hd : 0 ≤ t.balance to_ amount.Asset + amount.Quantity) :
    (account.Transfer_StageOnly ctx t from_ to_ amount note).2 = .ok () ∧
    (account.Transfer_StageOnly ctx t from_ to_ amount note).1.balance from_ amount.Asset =
      t.balance from_ amount.Asset - amount.Quantity ∧
    (account.Transfer_StageOnly ctx t from_ to_ amount note).1.balance to_ amount.Asset =
      t.balance to_ amount.Asset + amount.Quantity ∧
    (∀ id k, (id ≠ from_ ∧ id ≠ to_) ∨ k ≠ amount.Asset →
      (account.Transfer_StageOnly ctx t from_ to_ amount note).1.balance id k =
        t.balance id k) := by
  have hbf := account.balance_of_some t from_ af amount.Asset hf
  have hbt := account.balance_of_some t to_ at_ amount.Asset ht
  obtain ⟨xf, xt, hxf, hxt, hT⟩ :=
    account.Transfer_StageOnly_effect ctx t from_ to_ amount note af at_ hne hf ht
      (by rw [← hbf]; exact hw) (by rw [← hbt]; exact hd)
  obtain ⟨hf1, _, _, hf4, _⟩ :=
    account.Deposit_ok_effect af.Assets xf (account.NegHolding amount) hxf
  obtain ⟨ht1, _, _, ht4, _⟩ := account.Deposit_ok_effect at_.Assets xt amount hxt
  have htf : to_ ≠ from_ := fun e => hne e.symm
  rw [hT]
  simp only []
  refine ⟨trivial, ?_, ?_, ?_⟩
  · rw [account.balance_Log, account.balance_set_other _ _ _ _ _ hne, account.balance_set_same]
    simp only [account.NegHolding] at hf1
    rw [hf1, hbf]
    omega
  · rw [account.balance_Log, account.balance_set_same, ht1, hbt]
  · intro id k hcase
    rw [account.balance_Log]
    by_cases h2 : id = to_
    · subst h2
      rcases hcase with ⟨_, h⟩ | hk
      · exact absurd rfl h
      · rw [account.balance_set_same, ht4 k hk, account.balance_of_some t id at_ k ht]
    · rw [account.balance_set_other _ _ _ _ _ h2]
      by_cases h1 : id = from_
      · subst h1
        rcases hcase with ⟨h, _⟩ | hk
        · exact absurd rfl h
        · rw [account.balance_set_same]
          have := hf4 k (by simpa [account.NegHolding] using hk)
          rw [this, account.balance_of_some t id af k hf]
      · rw [account.balance_set_other _ _ _ _ _ h1]


/-- C26: `Transfer_StageOnly` does not reject a negative amount: on a tree in
which no holding is negative, for distinct existing accounts `from_` and `to_`
and every `a` > 0 not exceeding the balance of `to_` in the asset,
`Transfer_StageOnly` from `from_` to `to_` of the holding of `-a` succeeds,
raises the balance of `from_` by `a` and lowers the balance of `to_` by `a`;
`Transfer_StageOnly` from `to_` to `from_` of the holding of `a` succeeds as
well and leaves the same balance in every account and asset. -/
theorem account.transfer_of_negative_amount_runs_backwards (ctx : Context) (t : Tree)
    (from_ to_ : account.AccountID) (asset : account.Asset) (a : Int) (note : String)
    (af at_ : account.Account) (hst : t.NonNeg) (hne : from_ ≠ to_)
    (hf : t.accounts from_ = some af) (ht : t.accounts to_ = some at_)
    (ha : 0 < a) (hle : a ≤ t.balance to_ asset) :
    (account.Transfer_StageOnly ctx t from_ to_ ⟨asset, -a⟩ note).2 = .ok () ∧
    (account.Transfer_StageOnly ctx t from_ to_ ⟨asset, -a⟩ note).1.balance from_ asset =
      t.balance from_ asset + a ∧
    (account.Transfer_StageOnly ctx t from_ to_ ⟨asset, -a⟩ note).1.balance to_ asset =
      t.balance to_ asset - a ∧
    (account.Transfer_StageOnly ctx t to_ from_ ⟨asset, a⟩ note).2 = .ok () ∧
    ∀ id k,
      (account.Transfer_StageOnly ctx t from_ to_ ⟨asset, -a⟩ note).1.balance id k =
        (account.Transfer_StageOnly ctx t to_ from_ ⟨asset, a⟩ note).1.balance id k := by
  have hfrom := account.balance_nonneg t hst from_ asset
  obtain ⟨n1, n2, n3, n4⟩ := account.Transfer_StageOnly_balances ctx t from_ to_ ⟨asset, -a⟩
    note af at_ hne hf ht (by simp only []; omega) (by simp only []; omega)
  obtain ⟨p1, p2, p3, p4⟩ := account.Transfer_StageOnly_balances ctx t to_ from_ ⟨asset, a⟩
    note at_ af (fun e => hne e.symm) ht hf (by simp only []; omega) (by simp only []; omega)
  simp only [] at n2 n3 n4 p2 p3 p4
  refine ⟨n1, by rw [n2]; omega, by rw [n3]; omega, p1, ?_⟩
  intro id k
  by_cases hk : k = asset
  · subst hk
    by_cases h1 : id = from_
    · subst h1
      rw [n2, p3]
      omega
    · by_cases h2 : id = to_
      · subst h2
        rw [n3, p2]
        omega
      · rw [n4 id k (Or.inl ⟨h1, h2⟩), p4 id k (Or.inl ⟨h2, h1⟩)]
  · rw [n4 id k (Or.inr hk), p4 id k (Or.inr hk)]

/-- C26 at a concrete input: on the tree of alice and bob, where no holding is
negative, a transfer of -3 of `plural` from bob, who holds none, to alice, who
holds 5, succeeds and leaves bob with 3 and alice with 2. -/
theorem account.transfer_of_negative_amount_runs_backwards_witness :
    Example.tree.NonNeg ∧
    (account.Transfer_StageOnly Example.ctx Example.tree "bob" "alice"
      (Example.plural (-3)) "n").2 = .ok () ∧
    (account.Transfer_StageOnly Example.ctx Example.tree "bob" "alice"
      (Example.plural (-3)) "n").1.balance "bob" "plural" = 3 ∧
    (account.Transfer_StageOnly Example.ctx Example.tree "bob" "alice"
      (Example.plural (-3)) "n").1.balance "alice" "plural" = 2 := by
  have hw := account.transfer_of_negative_amount_runs_backwards Example.ctx Example.tree "bob"
    "alice" "plural" 3 "n" Example.bob Example.alice Example.tree_NonNeg (by decide) (by rfl)
    (by rfl) (by decide) (by decide)
  exact ⟨Example.tree_NonNeg, hw.1, hw.2.1.trans (by decide), hw.2.2.1.trans (by decide)⟩

/-! ## The concern policy: references from proposals -/

theorem concern.AddRefFrom_cases (cloned : gov.OwnerCloned) (refType : schema.RefType)
    (from_ to_ : schema.Motion) (fromPolicyNS toPolicyNS : ns.NS) :
    (concern.concernPolicy.AddRefFrom cloned refType from_ to_ fromPolicyNS toPolicyNS =
        (cloned, .ok (none, [])) ∧
      (refType ≠ pmp.ResolvesRefType ∨
        concern.IsProposalEligible cloned.PublicClone from_.ID = .ok false ∨
        ∃ st, concern.IsProposalEligible cloned.PublicClone from_.ID = .ok true ∧
          concern.LoadState_Local cloned.Public.Tree toPolicyNS = .ok st ∧
          (⟨refType, from_.ID, to_.ID⟩ : schema.Ref) ∈ st.EligibleProposals)) ∨
    (∃ e, concern.concernPolicy.AddRefFrom cloned refType from_ to_ fromPolicyNS toPolicyNS =
        (cloned, .error e) ∧ refType = pmp.ResolvesRefType ∧
      (concern.IsProposalEligible cloned.PublicClone from_.ID = .error e ∨
        (concern.IsProposalEligible cloned.PublicClone from_.ID = .ok true ∧
          concern.LoadState_Local cloned.Public.Tree toPolicyNS = .error e))) ∨
    (∃ st, refType = pmp.ResolvesRefType ∧
      concern.IsProposalEligible cloned.PublicClone from_.ID = .ok true ∧
      concern.LoadState_Local cloned.Public.Tree toPolicyNS = .ok st ∧
      (⟨refType, from_.ID, to_.ID⟩ : schema.Ref) ∉ st.EligibleProposals ∧
      concern.concernPolicy.AddRefFrom cloned refType from_ to_ fromPolicyNS toPolicyNS =
        (cloned.withTree (concern.SaveState_StageOnly cloned.Public.Tree toPolicyNS
            ⟨st.PriorityPoll, st.EligibleProposals ++ [⟨refType, from_.ID, to_.ID⟩]⟩),
          .ok (none,
            ["This issue has been referenced by an eligible PR, managed as Gov4Git proposal `"
              ++ from_.ID ++ "`."]))) := by
  unfold concern.concernPolicy.AddRefFrom
  by_cases hr : refType = pmp.ResolvesRefType
  · subst hr
    simp only [ne_eq, not_true_eq_false, if_false]
    cases he : concern.IsProposalEligible cloned.PublicClone from_.ID with
    | error e =>
      right; left
      exact ⟨e, rfl, trivial, Or.inl rfl⟩
    | ok b =>
      cases b with
      | false =>
        left
        exact ⟨rfl, Or.inr (Or.inl rfl)⟩
      | true =>
        cases hl : concern.LoadState_Local cloned.Public.Tree toPolicyNS with
        | error e =>
          right; left
          exact ⟨e, rfl, trivial, Or.inr ⟨rfl, rfl⟩⟩
        | ok st =>
          by_cases hm : (⟨pmp.ResolvesRefType, from_.ID, to_.ID⟩ : schema.Ref) ∈
              st.EligibleProposals
          · left
            refine ⟨?_, Or.inr (Or.inr ⟨st, rfl, rfl, hm⟩)⟩
            simp only [schema.Refs.Contains, hm, decide_True, if_true]
          · right; right
            refine ⟨st, trivial, rfl, rfl, hm, ?_⟩
            simp only [schema.Refs.Contains, hm, decide_False, Bool.false_eq_true, if_false,
              notice.Noticef]
  · left
    refine ⟨?_, Or.inl hr⟩
    simp only [hr, ne_eq, not_false_eq_true, if_true]


/-- C22: for a concern whose state loads, `concernPolicy.AddRefFrom` changes
that state if and only if the reference type is `Resolves`, the `From` proposal
is eligible and the reference is not yet in `EligibleProposals`, and then the
state it stages is the previous one with exactly that reference appended, with
one notice; in every other case the clone is returned as it was, and what is
returned, if the call returns, is no report and no notice. Applying
`AddRefFrom` to the clone it leaves, with the same reference, leaves that same
clone. -/
theorem concern.add_ref_from_changes_state_iff (cloned : gov.OwnerCloned)
    (refType : schema.RefType) (from_ to_ : schema.Motion) (fromPolicyNS toPolicyNS : ns.NS)
    (st : concern.ConcernState)
    (hst : concern.LoadState_Local cloned.Public.Tree toPolicyNS = .ok st) :
    (concern.LoadState_Local
        (concern.concernPolicy.AddRefFrom cloned refType from_ to_ fromPolicyNS toPolicyNS).1.Public.Tree
        toPolicyNS ≠ .ok st ↔
      (refType = pmp.ResolvesRefType ∧
        concern.IsProposalEligible cloned.PublicClone from_.ID = .ok true ∧
        (⟨refType, from_.ID, to_.ID⟩ : schema.Ref) ∉ st.EligibleProposals)) ∧
    ((refType = pmp.ResolvesRefType ∧
        concern.IsProposalEligible cloned.PublicClone from_.ID = .ok true ∧
        (⟨refType, from_.ID, to_.ID⟩ : schema.Ref) ∉ st.EligibleProposals) →
      concern.concernPolicy.AddRefFrom cloned refType from_ to_ fromPolicyNS toPolicyNS =
        (cloned.withTree (concern.SaveState_StageOnly cloned.Public.Tree toPolicyNS
            ⟨st.PriorityPoll, st.EligibleProposals ++ [⟨refType, from_.ID, to_.ID⟩]⟩),
          .ok (none,
            ["This issue has been referenced by an eligible PR, managed as Gov4Git proposal `"
              ++ from_.ID ++ "`."])) ∧
      concern.LoadState_Local
          (concern.concernPolicy.AddRefFrom cloned refType from_ to_ fromPolicyNS toPolicyNS).1.Public.Tree
          toPolicyNS =
        .ok ⟨st.PriorityPoll, st.EligibleProposals ++ [⟨refType, from_.ID, to_.ID⟩]⟩) ∧
    (¬ (refType = pmp.ResolvesRefType ∧
        concern.IsProposalEligible cloned.PublicClone from_.ID = .ok true ∧
        (⟨refType, from_.ID, to_.ID⟩ : schema.Ref) ∉ st.EligibleProposals) →
      (concern.concernPolicy.AddRefFrom cloned refType from_ to_ fromPolicyNS toPolicyNS).1 = cloned ∧
      ∀ out, (concern.concernPolicy.AddRefFrom cloned refType from_ to_ fromPolicyNS toPolicyNS).2 = .ok out →
        out = (none, [])) ∧
    ((refType ≠ pmp.ResolvesRefType ∨
        concern.IsProposalEligible cloned.PublicClone from_.ID = .ok false ∨
        (concern.IsProposalEligible cloned.PublicClone from_.ID = .ok true ∧
          (⟨refType, from_.ID, to_.ID⟩ : schema.Ref) ∈ st.EligibleProposals)) →
      concern.concernPolicy.AddRefFrom cloned refType from_ to_ fromPolicyNS toPolicyNS =
        (cloned, .ok (none, []))) ∧
    (concern.concernPolicy.AddRefFrom
        (concern.concernPolicy.AddRefFrom cloned refType from_ to_ fromPolicyNS toPolicyNS).1
        refType from_ to_ fromPolicyNS toPolicyNS).1 =
      (concern.concernPolicy.AddRefFrom cloned refType from_ to_ fromPolicyNS toPolicyNS).1 := by
  have hcases := concern.AddRefFrom_cases cloned refType from_ to_ fromPolicyNS toPolicyNS
  have hsame : ∀ st1 : concern.ConcernState,
      concern.LoadState_Local cloned.Public.Tree toPolicyNS = .ok st1 → st1 = st := by
    intro st1 h1
    rw [hst] at h1
    exact (Except.ok.inj h1).symm
  have hgrow : (⟨st.PriorityPoll, st.EligibleProposals ++ [(⟨refType, from_.ID, to_.ID⟩ : schema.Ref)]⟩ :
      concern.ConcernState) ≠ st := by
    intro h
    have := congrArg (fun x => x.EligibleProposals.length) h
    simp at this
  refine ⟨?_, ?_, ?_, ?_, ?_⟩
  · constructor
    · intro hne
      rcases hcases with ⟨h, _⟩ | ⟨e, h, _⟩ | ⟨st1, h1, h2, h3, h4, _⟩
      · rw [h] at hne
        exact absurd hst hne
      · rw [h] at hne
        exact absurd hst hne
      · have := hsame st1 h3
        subst this
        exact ⟨h1, h2, h4⟩
    · rintro ⟨c1, c2, c3⟩
      rcases hcases with ⟨_, h | h | ⟨st1, _, h3, h4⟩⟩ | ⟨e, _, _, h | ⟨_, h⟩⟩ |
        ⟨st1, _, _, h3, _, h⟩
      · exact absurd c1 h
      · rw [c2] at h; cases h
      · have := hsame st1 h3
        subst this
        exact absurd h4 c3
      · rw [c2] at h; cases h
      · rw [hst] at h; cases h
      · have := hsame st1 h3
        subst this
        rw [h]
        simp only [gov.OwnerCloned.withTree, concern.LoadState_SaveState]
        intro hh
        exact hgrow (Except.ok.inj hh)
  · rintro ⟨c1, c2, c3⟩
    rcases hcases with ⟨_, h | h | ⟨st1, _, h3, h4⟩⟩ | ⟨e, _, _, h | ⟨_, h⟩⟩ |
      ⟨st1, _, _, h3, _, h⟩
    · exact absurd c1 h
    · rw [c2] at h; cases h
    · have := hsame st1 h3
      subst this
      exact absurd h4 c3
    · rw [c2] at h; cases h
    · rw [hst] at h; cases h
    · have := hsame st1 h3
      subst this
      rw [h]
      exact ⟨rfl, by simp only [gov.OwnerCloned.withTree, concern.LoadState_SaveState]⟩
  · intro hn
    rcases hcases with ⟨h, _⟩ | ⟨e, h, _⟩ | ⟨st1, h1, h2, h3, h4, _⟩
    · rw [h]
      exact ⟨rfl, fun out ho => (Except.ok.inj ho).symm⟩
    · rw [h]
      exact ⟨rfl, fun out ho => by cases ho⟩
    · have := hsame st1 h3
      subst this
      exact absurd ⟨h1, h2, h4⟩ hn
  · intro hother
    rcases hcases with ⟨h, _⟩ | ⟨e, _, hr, h | ⟨h1, h⟩⟩ | ⟨st1, h1, h2, h3, h4, _⟩
    · exact h
    · rcases hother with h0 | h0 | ⟨h0, _⟩
      · exact absurd hr h0
      · rw [h] at h0; cases h0
      · rw [h] at h0; cases h0
    · rw [hst] at h; cases h
    · have := hsame st1 h3
      subst this
      rcases hother with h0 | h0 | ⟨_, h0⟩
      · exact absurd h1 h0
      · rw [h2] at h0; cases h0
      · exact absurd h0 h4
  · rcases hcases with ⟨h, _⟩ | ⟨e, h, _⟩ | ⟨st1, h1, _, _, _, h⟩
    · rw [h]
      simp only []
      rw [h]
    · rw [h]
      simp only []
      rw [h]
    · rw [h]
      simp only []
      rcases concern.AddRefFrom_cases
          (cloned.withTree (concern.SaveState_StageOnly cloned.Public.Tree toPolicyNS
            ⟨st1.PriorityPoll, st1.EligibleProposals ++ [⟨refType, from_.ID, to_.ID⟩]⟩))
          refType from_ to_ fromPolicyNS toPolicyNS with
        ⟨k, _⟩ | ⟨e, k, _⟩ | ⟨st2, _, _, k3, k4, _⟩
      · rw [k]
      · rw [k]
      · exfalso
        simp only [gov.OwnerCloned.withTree, concern.LoadState_SaveState] at k3
        have := Except.ok.inj k3
        subst this
        exact k4 (by simp)


/-- C22 at a concrete input: the concern `C1` has no reference yet and the
proposal `R1` has approval score 5; adding `R1 → C1` of type `resolves` stages
the state with that one reference, and adding it again changes nothing; a
reference from `R2`, of approval score 0, is not added. -/
theorem concern.add_ref_from_changes_state_iff_witness :
    concern.LoadState_Local
        (concern.concernPolicy.AddRefFrom (Example.concernCloned [] false) "resolves"
          Example.proposalR1 Example.concernC1 (policy.MotionPolicyNS "R1")
          (policy.MotionPolicyNS "C1")).1.Public.Tree (policy.MotionPolicyNS "C1") =
      .ok ⟨"pp/C1", [Example.refR1C1]⟩ ∧
    concern.concernPolicy.AddRefFrom (Example.concernCloned [Example.refR1C1] false) "resolves"
        Example.proposalR1 Example.concernC1 (policy.MotionPolicyNS "R1")
        (policy.MotionPolicyNS "C1") =
      (Example.concernCloned [Example.refR1C1] false, .ok (none, [])) ∧
    concern.concernPolicy.AddRefFrom (Example.concernCloned [] false) "resolves"
        { Example.proposalR1 with ID := "R2" } Example.concernC1 (policy.MotionPolicyNS "R2")
        (policy.MotionPolicyNS "C1") =
      (Example.concernCloned [] false, .ok (none, [])) :=
  ⟨((concern.add_ref_from_changes_state_iff (Example.concernCloned [] false) "resolves"
      Example.proposalR1 Example.concernC1 (policy.MotionPolicyNS "R1")
      (policy.MotionPolicyNS "C1") ⟨"pp/C1", []⟩ rfl).2.1
      ⟨rfl, rfl, by decide⟩).2,
   rfl, rfl⟩


/-! ## The concern policy: the type of the eligible references -/

theorem concern.RemoveRefFrom_cases (cloned : gov.OwnerCloned) (refType : schema.RefType)
    (from_ to_ : schema.Motion) (fromPolicyNS toPolicyNS : ns.NS) :
    (∃ out, concern.concernPolicy.RemoveRefFrom cloned refType from_ to_ fromPolicyNS
        toPolicyNS = (cloned, out)) ∨
    (∃ st, concern.LoadState_Local cloned.Public.Tree toPolicyNS = .ok st ∧
      (⟨refType, from_.ID, to_.ID⟩ : schema.Ref) ∈ st.EligibleProposals ∧
      concern.concernPolicy.RemoveRefFrom cloned refType from_ to_ fromPolicyNS toPolicyNS =
        (cloned.withTree (concern.SaveState_StageOnly cloned.Public.Tree toPolicyNS
            ⟨st.PriorityPoll, st.EligibleProposals.Remove ⟨refType, from_.ID, to_.ID⟩⟩),
          .ok (none,
            ["This issue is no longer referenced by the PR, managed as Gov4Git proposal `"
              ++ from_.ID ++ "`."]))) := by
  unfold concern.concernPolicy.RemoveRefFrom
  cases hl : concern.LoadState_Local cloned.Public.Tree toPolicyNS with
  | error e => exact Or.inl ⟨_, rfl⟩
  | ok st =>
    by_cases hm : (⟨refType, from_.ID, to_.ID⟩ : schema.Ref) ∈ st.EligibleProposals
    · right
      refine ⟨st, rfl, hm, ?_⟩
      simp only [schema.Refs.Contains, hm, decide_True, Bool.not_true, Bool.false_eq_true,
        if_false, notice.Noticef]
    · left
      refine ⟨.ok (none, []), ?_⟩
      simp only [schema.Refs.Contains, hm, decide_False, Bool.not_false, if_true]

theorem concern.Update_state_mem (cloned : gov.OwnerCloned) (motion : schema.Motion)
    (policyNS : ns.NS) (prev saved : concern.ConcernState)
    (hprev : concern.LoadState_Local cloned.Public.Tree policyNS = .ok prev)
    (hsaved : concern.concernPolicy.Update.state cloned motion policyNS = .ok saved) :
    ∀ r ∈ saved.EligibleProposals, r ∈ prev.EligibleProposals := by
  unfold concern.concernPolicy.Update.state at hsaved
  rw [hprev] at hsaved
  simp only [] at hsaved
  cases hel : concern.concernPolicy.Update.eligible cloned.PublicClone
      prev.EligibleProposals.RefSet with
  | error e => rw [hel] at hsaved; cases hsaved
  | ok el =>
    rw [hel] at hsaved
    have hs := Except.ok.inj hsaved
    subst hs
    obtain ⟨_, hmem⟩ := concern.eligible_spec cloned.PublicClone _ el hel
    intro r hr
    simp only [schema.Refs.Sort, List.mem_insertionSort] at hr
    have := ((hmem r).mp hr).1
    exact List.mem_dedup.mp this

theorem concern.updateFreeze_keeps_state (reg : policy.Registry) (c0 : gov.OwnerCloned)
    (motion : schema.Motion) (st0 : concern.ConcernState)
    (hst : concern.LoadState_Local c0.Public.Tree (policy.MotionPolicyNS motion.ID) = .ok st0)
    (hreg : ∀ stored, schema.MotionKV.Get c0.Public.Tree motion.ID = .ok stored →
      reg stored.Policy = some concern.concernPolicy) :
    (concern.concernPolicy.updateFreeze reg c0 motion
        (policy.MotionPolicyNS motion.ID)).1.Public.Tree.files
        ((policy.MotionPolicyNS motion.ID).Append policy.StateFilebase) =
      c0.Public.Tree.files ((policy.MotionPolicyNS motion.ID).Append policy.StateFilebase) := by
  obtain ⟨hA, hB, hC⟩ := concern.updateFreeze_cases reg c0 motion
    (policy.MotionPolicyNS motion.ID) st0 hst
  have hframe := concern.state_path_frame motion.ID
  by_cases hne : st0.EligibleProposals = []
  · cases hfr : motion.Frozen with
    | false => rw [hC (by simp [hne, hfr])]
    | true =>
      rw [hB hne hfr]
      cases hg : schema.MotionKV.Get c0.Public.Tree motion.ID with
      | error e => simp only [ops.UnfreezeMotion_StageOnly, hg]
      | ok stored =>
        exact (concern.UnfreezeMotion_effect reg c0 motion.ID stored hg (hreg stored hg)).1 _
          hframe.1 hframe.2
  · cases hfr : motion.Frozen with
    | true => rw [hC (by simp [hne, hfr])]
    | false =>
      rw [hA hne hfr]
      cases hg : schema.MotionKV.Get c0.Public.Tree motion.ID with
      | error e => simp only [ops.FreezeMotion_StageOnly, hg]
      | ok stored =>
        exact (concern.FreezeMotion_effect reg c0 motion.ID stored hg (hreg stored hg)).1 _
          hframe.1 hframe.2


/-- C27: if every reference in `EligibleProposals` of the concern state has
the type `Resolves` before a call, then so has every reference of the state in
the tree that `concernPolicy.AddRefFrom` leaves, which appends at most one
reference, of type `Resolves`; of the state in the tree that
`concernPolicy.RemoveRefFrom` leaves, whose references are among the previous
ones; and of the state that `concernPolicy.Update` saves, whose references are
among the previous ones, which is also the state in the tree that `Update`
leaves when the concern policy is registered for the stored motion. This holds
whether the call returns or panics. -/
theorem concern.eligible_proposals_all_resolve (reg : policy.Registry)
    (cloned : gov.OwnerCloned) (refType : schema.RefType) (from_ to_ motion : schema.Motion)
    (fromPolicyNS policyNS : ns.NS) (st : concern.ConcernState)
    (hst : concern.LoadState_Local cloned.Public.Tree policyNS = .ok st)
    (hinv : st.AllResolves) :
    (∀ st1, concern.LoadState_Local
        (concern.concernPolicy.AddRefFrom cloned refType from_ to_ fromPolicyNS
          policyNS).1.Public.Tree policyNS = .ok st1 →
      st1.AllResolves ∧
      (st1 = st ∨ (refType = pmp.ResolvesRefType ∧
        st1.EligibleProposals = st.EligibleProposals ++ [⟨refType, from_.ID, to_.ID⟩]))) ∧
    (∀ st1, concern.LoadState_Local
        (concern.concernPolicy.RemoveRefFrom cloned refType from_ to_ fromPolicyNS
          policyNS).1.Public.Tree policyNS = .ok st1 →
      st1.AllResolves ∧ ∀ r ∈ st1.EligibleProposals, r ∈ st.EligibleProposals) ∧
    (∀ saved, concern.concernPolicy.Update.state cloned motion policyNS = .ok saved →
      saved.AllResolves ∧ ∀ r ∈ saved.EligibleProposals, r ∈ st.EligibleProposals) ∧
    (policyNS = policy.MotionPolicyNS motion.ID →
      (∀ stored, schema.MotionKV.Get cloned.Public.Tree motion.ID = .ok stored →
        reg stored.Policy = some concern.concernPolicy) →
      ∀ st1, concern.LoadState_Local
          (concern.concernPolicy.Update reg cloned motion policyNS).1.Public.Tree policyNS =
            .ok st1 →
        st1.AllResolves) := by
  have hsub : ∀ saved, concern.concernPolicy.Update.state cloned motion policyNS = .ok saved →
      saved.AllResolves ∧ ∀ r ∈ saved.EligibleProposals, r ∈ st.EligibleProposals := by
    intro saved hsaved
    have hm := concern.Update_state_mem cloned motion policyNS st saved hst hsaved
    exact ⟨fun r hr => hinv r (hm r hr), hm⟩
  refine ⟨?_, ?_, hsub, ?_⟩
  · intro st1 h1
    rcases concern.AddRefFrom_cases cloned refType from_ to_ fromPolicyNS policyNS with
      ⟨h, _⟩ | ⟨e, h, _⟩ | ⟨st0, hr, _, h3, _, h⟩
    · rw [h, hst] at h1
      have := Except.ok.inj h1
      subst this
      exact ⟨hinv, Or.inl rfl⟩
    · rw [h, hst] at h1
      have := Except.ok.inj h1
      subst this
      exact ⟨hinv, Or.inl rfl⟩
    · rw [hst] at h3
      have := Except.ok.inj h3
      subst this
      rw [h] at h1
      simp only [gov.OwnerCloned.withTree, concern.LoadState_SaveState] at h1
      have := Except.ok.inj h1
      subst this
      refine ⟨?_, Or.inr ⟨hr, rfl⟩⟩
      intro r hmem
      simp only [List.mem_append, List.mem_singleton] at hmem
      rcases hmem with hmem | hmem
      · exact hinv r hmem
      · rw [hmem]
        exact hr
  · intro st1 h1
    rcases concern.RemoveRefFrom_cases cloned refType from_ to_ fromPolicyNS policyNS with
      ⟨out, h⟩ | ⟨st0, h3, _, h⟩
    · rw [h, hst] at h1
      have := Except.ok.inj h1
      subst this
      exact ⟨hinv, fun r hr => hr⟩
    · rw [hst] at h3
      have := Except.ok.inj h3
      subst this
      rw [h] at h1
      simp only [gov.OwnerCloned.withTree, concern.LoadState_SaveState] at h1
      have := Except.ok.inj h1
      subst this
      have hm : ∀ r ∈ st.EligibleProposals.Remove ⟨refType, from_.ID, to_.ID⟩,
          r ∈ st.EligibleProposals := by
        intro r hmem
        simp only [schema.Refs.Remove, List.mem_filter] at hmem
        exact hmem.1
      exact ⟨fun r hmem => hinv r (hm r hmem), hm⟩
  · intro hns hreg st1 h1
    subst hns
    cases hsaved : concern.concernPolicy.Update.state cloned motion
        (policy.MotionPolicyNS motion.ID) with
    | error e =>
      simp only [concern.concernPolicy.Update, hsaved] at h1
      rw [hst] at h1
      have := Except.ok.inj h1
      subst this
      exact hinv
    | ok saved =>
      have hload := concern.LoadState_SaveState cloned.Public.Tree
        (policy.MotionPolicyNS motion.ID) saved
      have hkeep := concern.updateFreeze_keeps_state reg
        (cloned.withTree (concern.SaveState_StageOnly cloned.Public.Tree
          (policy.MotionPolicyNS motion.ID) saved)) motion saved hload
        (fun stored hg => hreg stored (by
          rw [← hg]
          exact (concern.Get_SaveState cloned.Public.Tree motion.ID saved).symm))
      simp only [concern.concernPolicy.Update, hsaved] at h1
      have h2 : concern.LoadState_Local
          (concern.concernPolicy.updateFreeze reg
            (cloned.withTree (concern.SaveState_StageOnly cloned.Public.Tree
              (policy.MotionPolicyNS motion.ID) saved)) motion
            (policy.MotionPolicyNS motion.ID)).1.Public.Tree
          (policy.MotionPolicyNS motion.ID) = .ok saved := by
        rw [← hload]
        simp only [concern.LoadState_Local, hkeep]
        rfl
      rw [h2] at h1
      have := Except.ok.inj h1
      subst this
      exact (hsub _ hsaved).1

/-- C27 at a concrete input: the state of `C1` lists `R2 → C1` and `R1 → C1`,
both of type `resolves`; after `RemoveRefFrom` of `R2 → C1` the state lists
`R1 → C1`, of type `resolves`. -/
theorem concern.eligible_proposals_all_resolve_witness :
    concern.LoadState_Local
        (concern.concernPolicy.RemoveRefFrom
          (Example.concernCloned [Example.refR2C1, Example.refR1C1] false) "resolves"
          { Example.proposalR1 with ID := "R2" } Example.concernC1 (policy.MotionPolicyNS "R2")
          (policy.MotionPolicyNS "C1")).1.Public.Tree (policy.MotionPolicyNS "C1") =
      .ok ⟨"pp/C1", [Example.refR1C1]⟩ ∧
    (⟨"pp/C1", [Example.refR1C1]⟩ : concern.ConcernState).AllResolves :=
  ⟨rfl,
   ((concern.eligible_proposals_all_resolve Example.registry
      (Example.concernCloned [Example.refR2C1, Example.refR1C1] false) "resolves"
      { Example.proposalR1 with ID := "R2" } Example.concernC1 Example.concernC1
      (policy.MotionPolicyNS "R2") (policy.MotionPolicyNS "C1")
      ⟨"pp/C1", [Example.refR2C1, Example.refR1C1]⟩ rfl
      (by
        intro r hr
        simp only [List.mem_cons, List.mem_singleton, List.not_mem_nil, or_false] at hr
        rcases hr with rfl | rfl <;> rfl)).2.1 ⟨"pp/C1", [Example.refR1C1]⟩ rfl).1⟩


/-! ## The votes that a tally fetches -/

theorem mod.ballot.receiveUnread_fetched (sid : Option mod.id.PublicCredentials)
    (user : member.User) (account : mod.member.Account) :
    ∀ (unread : List mod.mail.SignedEnvelope) (next : mod.mail.SeqNo)
      (st : List mod.ballot.FetchedVote)
      (rr : List (mod.ballot.VoteEnvelope × mod.ballot.VoteEnvelope)),
      ∃ k,
        (mod.mail.receiveUnread sid (mod.ballot.fetchVotes.respond user account) unread next st
            rr).State =
          st ++ (unread.take k).map (fun e =>
            ⟨user, account.Home, e.Payload.Elections⟩) ∧
        (mod.mail.receiveUnread sid (mod.ballot.fetchVotes.respond user account) unread next st
            rr).Responses =
          rr ++ (unread.take k).map (fun e => (e.Payload, e.Payload)) ∧
        (∀ e ∈ unread.take k, mod.mail.failure sid e = none) ∧
        (unread.drop k = [] ∨
          ∃ e rest reason, unread.drop k = e :: rest ∧ mod.mail.failure sid e = some reason) := by
  intro unread
  induction unread with
  | nil =>
    intro next st rr
    exact ⟨0, by simp [mod.mail.receiveUnread], by simp [mod.mail.receiveUnread],
      by simp, Or.inl rfl⟩
  | cons e rest ih =>
    intro next st rr
    unfold mod.mail.receiveUnread
    by_cases hsig : sid = some e.Signature
    · cases hv : e.Payload.VerifyConsistency with
      | true =>
        obtain ⟨k, h1, h2, h3, h4⟩ := ih (next + 1)
          (st ++ [⟨user, account.Home, e.Payload.Elections⟩])
          (rr ++ [(e.Payload, e.Payload)])
        refine ⟨k + 1, ?_, ?_, ?_, ?_⟩
        · simp only [hsig, ne_eq, not_true_eq_false, if_false, mod.ballot.fetchVotes.respond, hv,
            Bool.not_true, Bool.false_eq_true]
          rw [← hsig, h1]
          simp
        · simp only [hsig, ne_eq, not_true_eq_false, if_false, mod.ballot.fetchVotes.respond, hv,
            Bool.not_true, Bool.false_eq_true]
          rw [← hsig, h2]
          simp
        · intro e1 he1
          simp only [List.take_succ_cons, List.mem_cons] at he1
          rcases he1 with rfl | he1
          · simp [mod.mail.failure, hsig, hv]
          · exact h3 e1 he1
        · simpa only [List.drop_succ_cons] using h4
      | false =>
        refine ⟨0, ?_, ?_, by simp, Or.inr ⟨e, rest, "rejected", rfl, ?_⟩⟩
        · simp [hsig, mod.ballot.fetchVotes.respond, hv]
        · simp [hsig, mod.ballot.fetchVotes.respond, hv]
        · simp [mod.mail.failure, hsig, hv]
    · refine ⟨0, ?_, ?_, by simp, Or.inr ⟨e, rest, "signature", rfl, ?_⟩⟩
      · simp [hsig]
      · simp [hsig]
      · simp [mod.mail.failure, hsig]


theorem mod.mail.failure_none_iff (sid : Option mod.id.PublicCredentials)
    (e : mod.mail.SignedEnvelope) :
    mod.mail.failure sid e = none ↔
      sid = some e.Signature ∧ e.Payload.VerifyConsistency = true := by
  unfold mod.mail.failure
  by_cases hsig : sid = some e.Signature
  · cases hv : e.Payload.VerifyConsistency <;> simp [hsig, hv]
  · simp [hsig]

/-- C23: the responder of `fetchVotes` for the user `user` with the account
`account` returns an error on an envelope that fails `VerifyConsistency` and
leaves the fetched votes as they are, and on any other envelope appends the
one vote with `Voter` the user, `Address` the home of the account and
`Elections` the elections of the envelope, and responds with the envelope
itself. When the repository at the home of the account exists and the
government tree has its credentials, `fetchVotes` returns, for the unread
envelopes of the user's stream up to the first that fails its signature or
`VerifyConsistency`, one such vote per envelope, in the order of the stream,
and nothing for the envelope it stops at. -/
theorem mod.ballot.fetched_votes_mirror_received_envelopes
    (world : mod.id.PublicAddress → Option mod.Tree) (govTree : mod.Tree) (ballotName : ns.NS)
    (user : member.User) (account : mod.member.Account) :
    (∀ fetched req, req.VerifyConsistency = false →
      ∃ e, mod.ballot.fetchVotes.respond user account fetched req = (fetched, .error e)) ∧
    (∀ fetched req, req.VerifyConsistency = true →
      mod.ballot.fetchVotes.respond user account fetched req =
        (fetched ++ [⟨user, account.Home, req.Elections⟩], .ok req)) ∧
    (∀ voter me, world account.Home = some voter → govTree.identity = some me →
      ∃ k t1,
        mod.ballot.fetchVotes world govTree ballotName user account =
          (t1, .ok ⟨(((voter.outbox me.PublicKey (mod.ballot.BallotTopic ballotName)).drop
              (govTree.consumed account.Home (mod.ballot.BallotTopic ballotName))).take k).map
              (fun e => ⟨user, account.Home, e.Payload.Elections⟩),
            "Fetched votes from user " ++ user ++ " on ballot " ++
              String.intercalate "/" ballotName⟩) ∧
        (∀ e ∈ ((voter.outbox me.PublicKey (mod.ballot.BallotTopic ballotName)).drop
            (govTree.consumed account.Home (mod.ballot.BallotTopic ballotName))).take k,
          voter.identity = some e.Signature ∧ e.Payload.VerifyConsistency = true) ∧
        (∀ e rest,
          ((voter.outbox me.PublicKey (mod.ballot.BallotTopic ballotName)).drop
            (govTree.consumed account.Home (mod.ballot.BallotTopic ballotName))).drop k =
              e :: rest →
          voter.identity ≠ some e.Signature ∨ e.Payload.VerifyConsistency = false)) := by
  refine ⟨?_, ?_, ?_⟩
  · intro fetched req hv
    exact ⟨.failed "vote envelope is not valid",
      by simp only [mod.ballot.fetchVotes.respond, hv, Bool.not_false, if_true]⟩
  · intro fetched req hv
    simp only [mod.ballot.fetchVotes.respond, hv, Bool.not_true, Bool.false_eq_true, if_false]
  · intro voter me hw hid
    obtain ⟨k, h1, _, h3, h4⟩ := mod.ballot.receiveUnread_fetched voter.identity user account
      ((voter.outbox me.PublicKey (mod.ballot.BallotTopic ballotName)).drop
        (govTree.consumed account.Home (mod.ballot.BallotTopic ballotName)))
      (govTree.consumed account.Home (mod.ballot.BallotTopic ballotName)) [] []
    have hf := (mod.ballot.Receive_fields govTree account.Home voter
      (mod.ballot.BallotTopic ballotName) (mod.ballot.fetchVotes.respond user account) [] me
      hid).1
    rcases hR : mod.mail.ReceiveSignedStageOnly govTree account.Home voter
      (mod.ballot.BallotTopic ballotName) (mod.ballot.fetchVotes.respond user account) []
      with ⟨t1, r⟩
    rw [hR] at hf
    simp only [] at hf
    subst hf
    refine ⟨k, t1, ?_, ?_, ?_⟩
    · simp only [mod.ballot.fetchVotes, hw, hR, h1, List.nil_append]
    · intro e he
      exact (mod.mail.failure_none_iff voter.identity e).mp (h3 e he)
    · intro e rest hd
      rcases h4 with h4 | ⟨e1, rest1, reason, hd1, hfail⟩
      · rw [h4] at hd; cases hd
      · rw [hd] at hd1
        cases hd1
        by_cases hsig : voter.identity = some e.Signature
        · right
          cases hv : e.Payload.VerifyConsistency with
          | false => rfl
          | true =>
            have := (mod.mail.failure_none_iff voter.identity e).mpr ⟨hsig, hv⟩
            rw [this] at hfail
            cases hfail
        · exact Or.inl hsig


/-- C23 at a concrete input: alice has sent one envelope with the election
`(yes, +2)` on the ballot `P1`; `fetchVotes` returns the one vote of alice with
the home of her account and that election, and the responder answers the
envelope with the envelope. -/
theorem mod.ballot.fetched_votes_mirror_received_envelopes_witness :
    (mod.ballot.fetchVotes Example.votedWorld Example.modGovTree ["P1"] "alice"
        ⟨"https://example.com/alice.git"⟩).2 =
      .ok ⟨[⟨"alice", "https://example.com/alice.git", [⟨"yes", 2⟩]⟩],
        "Fetched votes from user alice on ballot P1"⟩ ∧
    mod.ballot.fetchVotes.respond "alice" ⟨"https://example.com/alice.git"⟩ []
        ⟨"c0ffee", Example.modAd ["yes"] false, [⟨"yes", 2⟩]⟩ =
      ([⟨"alice", "https://example.com/alice.git", [⟨"yes", 2⟩]⟩],
        .ok ⟨"c0ffee", Example.modAd ["yes"] false, [⟨"yes", 2⟩]⟩) :=
  ⟨rfl,
   (mod.ballot.fetched_votes_mirror_received_envelopes Example.votedWorld Example.modGovTree
      ["P1"] "alice" ⟨"https://example.com/alice.git"⟩).2.1 []
      ⟨"c0ffee", Example.modAd ["yes"] false, [⟨"yes", 2⟩]⟩ rfl⟩


/-! ## Scoring motions -/

theorem collab.loop_result (govAddr : gov.Address) :
    ∀ (ms : collab.Motions) (t : collab.Tree), collab.PollsExist t.tallies ms →
      (collab.ScoreMotions_StageOnly.loop govAddr t ms).2 = .ok (ms.map (spec.scored t.tallies)) ∧
      (collab.ScoreMotions_StageOnly.loop govAddr t ms).1.tallies = t.tallies := by
  intro ms
  induction ms with
  | nil =>
    intro t _
    exact ⟨rfl, rfl⟩
  | cons m rest ih =>
    intro t hp
    have hrest : ∀ t1 : collab.Tree, t1.tallies = t.tallies → collab.PollsExist t1.tallies rest := by
      intro t1 h1 m1 hm1
      rw [h1]
      exact hp m1 (List.mem_cons_of_mem _ hm1)
    cases hF : m.Scoring.Fixed with
    | some fixed =>
      obtain ⟨i1, i2⟩ := ih (collab.motionKV.Set t m.ID { m with Score := fixed })
        (hrest _ rfl)
      rcases hl : collab.ScoreMotions_StageOnly.loop govAddr
        (collab.motionKV.Set t m.ID { m with Score := fixed }) rest with ⟨t2, r⟩
      rw [hl] at i1 i2
      simp only [] at i1 i2
      subst i1
      simp only [collab.ScoreMotions_StageOnly.loop, hF, hl, List.map_cons, spec.scored]
      exact ⟨rfl, i2⟩
    | none =>
      cases hP : m.Scoring.Poll with
      | some poll =>
        obtain ⟨tally, ht⟩ := hp m (List.mem_cons_self _ _) hF poll hP
        obtain ⟨i1, i2⟩ := ih (collab.motionKV.Set t m.ID
          { m with Score := collab.scoreOf tally.Scores collab.MotionPollBallotChoice })
          (hrest _ rfl)
        rcases hl : collab.ScoreMotions_StageOnly.loop govAddr
          (collab.motionKV.Set t m.ID
            { m with Score := collab.scoreOf tally.Scores collab.MotionPollBallotChoice }) rest
          with ⟨t2, r⟩
        rw [hl] at i1 i2
        simp only [] at i1 i2
        subst i1
        simp only [collab.ScoreMotions_StageOnly.loop, hF, hP, collab.ballot.Show_Local, ht, hl,
          List.map_cons, spec.scored]
        exact ⟨rfl, i2⟩
      | none =>
        obtain ⟨i1, i2⟩ := ih t (hrest _ rfl)
        rcases hl : collab.ScoreMotions_StageOnly.loop govAddr t rest with ⟨t2, r⟩
        rw [hl] at i1 i2
        simp only [] at i1 i2
        subst i1
        simp only [collab.ScoreMotions_StageOnly.loop, hF, hP, hl, List.map_cons, spec.scored]
        exact ⟨trivial, i2⟩

theorem collab.loop_untouched (govAddr : gov.Address) :
    ∀ (ms : collab.Motions) (t : collab.Tree),
      (∀ m ∈ ms, m.Scoring.Fixed = none ∧ m.Scoring.Poll = none) →
      collab.ScoreMotions_StageOnly.loop govAddr t ms = (t, .ok ms) := by
  intro ms
  induction ms with
  | nil => intro t _; rfl
  | cons m rest ih =>
    intro t h
    obtain ⟨hF, hP⟩ := h m (List.mem_cons_self _ _)
    simp only [collab.ScoreMotions_StageOnly.loop, hF, hP,
      ih t (fun m1 hm1 => h m1 (List.mem_cons_of_mem _ hm1))]


theorem collab.scored_ID (tallies : common.BallotName → Option common.Tally)
    (m : collab.Motion) : (spec.scored tallies m).ID = m.ID := by
  unfold spec.scored
  split
  · rfl
  · split <;> rfl
  · rfl

theorem collab.Set_at (t : collab.Tree) (A B : List (collab.MotionID × collab.Motion))
    (e : collab.MotionID × collab.Motion) (m1 : collab.Motion)
    (ht : t.motions = A ++ e :: B)
    (hA : ∀ x ∈ A, x.1 ≠ e.1) (hB : ∀ x ∈ B, x.1 ≠ e.1) :
    (collab.motionKV.Set t e.1 m1).motions = A ++ (e.1, m1) :: B ∧
    (collab.motionKV.Set t e.1 m1).tallies = t.tallies := by
  refine ⟨?_, rfl⟩
  have hany : (A ++ e :: B).any (fun x => decide (x.1 = e.1)) = true := by
    simp
  simp only [collab.motionKV.Set, ht, hany, if_true, List.map_append, List.map_cons]
  congr 1
  · calc A.map (fun x => if x.1 = e.1 then (e.1, m1) else x) = A.map (fun x => x) := by
          apply List.map_congr_left
          intro x hx
          simp [hA x hx]
      _ = A := List.map_id _
  · congr 1
    calc B.map (fun x => if x.1 = e.1 then (e.1, m1) else x) = B.map (fun x => x) := by
          apply List.map_congr_left
          intro x hx
          simp [hB x hx]
      _ = B := List.map_id _

theorem collab.loop_step (govAddr : gov.Address) (t : collab.Tree) (m : collab.Motion)
    (rest : collab.Motions) (hp : collab.PollsExist t.tallies [m]) :
    (m.Scoring.Fixed = none ∧ m.Scoring.Poll = none ∧ spec.scored t.tallies m = m ∧
      (collab.ScoreMotions_StageOnly.loop govAddr t (m :: rest)).1 =
        (collab.ScoreMotions_StageOnly.loop govAddr t rest).1) ∨
    ((collab.ScoreMotions_StageOnly.loop govAddr t (m :: rest)).1 =
      (collab.ScoreMotions_StageOnly.loop govAddr
        (collab.motionKV.Set t m.ID (spec.scored t.tallies m)) rest).1) := by
  cases hF : m.Scoring.Fixed with
  | some fixed =>
    right
    rcases hl : collab.ScoreMotions_StageOnly.loop govAddr
      (collab.motionKV.Set t m.ID { m with Score := fixed }) rest with ⟨t2, r | r⟩ <;>
      simp only [collab.ScoreMotions_StageOnly.loop, hF, hl, spec.scored]
  | none =>
    cases hP : m.Scoring.Poll with
    | some poll =>
      right
      obtain ⟨tally, ht⟩ := hp m (List.mem_singleton.mpr rfl) hF poll hP
      rcases hl : collab.ScoreMotions_StageOnly.loop govAddr
        (collab.motionKV.Set t m.ID
          { m with Score := collab.scoreOf tally.Scores collab.MotionPollBallotChoice }) rest
        with ⟨t2, r | r⟩ <;>
        simp only [collab.ScoreMotions_StageOnly.loop, hF, hP, collab.ballot.Show_Local, ht, hl,
          spec.scored]
    | none =>
      left
      refine ⟨rfl, rfl, by simp only [spec.scored, hF, hP], ?_⟩
      rcases hl : collab.ScoreMotions_StageOnly.loop govAddr t rest with ⟨t2, r | r⟩ <;>
        simp only [collab.ScoreMotions_StageOnly.loop, hF, hP, hl]


theorem collab.loop_motions (govAddr : gov.Address)
    (tallies0 : common.BallotName → Option common.Tally) :
    ∀ (S P : List (collab.MotionID × collab.Motion)) (t : collab.Tree),
      t.tallies = tallies0 →
      t.motions = P.map (fun e => (e.1, spec.scored tallies0 e.2)) ++ S →
      (∀ e ∈ S, e.1 = e.2.ID) →
      ((P ++ S).map (fun e => e.1)).Nodup →
      collab.PollsExist tallies0 (S.map (fun e => e.2)) →
      (collab.ScoreMotions_StageOnly.loop govAddr t (S.map (fun e => e.2))).1.motions =
        P.map (fun e => (e.1, spec.scored tallies0 e.2)) ++
          S.map (fun e => (e.1, spec.scored tallies0 e.2)) := by
  intro S
  induction S with
  | nil =>
    intro P t _ hm _ _ _
    simpa [collab.ScoreMotions_StageOnly.loop] using hm
  | cons e rest ih =>
    intro P t htal hm hkey hnd hp
    have hp1 : collab.PollsExist t.tallies [e.2] := by
      intro m hmem
      rw [List.mem_singleton] at hmem
      subst hmem
      rw [htal]
      exact hp e.2 (by simp)
    have hprest : collab.PollsExist tallies0 (rest.map (fun e => e.2)) := by
      intro m hmem
      exact hp m (by simp only [List.map_cons, List.mem_cons]; exact Or.inr hmem)
    have hkrest : ∀ x ∈ rest, x.1 = x.2.ID := fun x hx => hkey x (List.mem_cons_of_mem _ hx)
    have hnd1 : (((P ++ [e]) ++ rest).map (fun e => e.1)).Nodup := by
      simpa using hnd
    have hnd2 : (P.map (fun x => x.1) ++ e.1 :: rest.map (fun x => x.1)).Nodup := by
      simpa using hnd
    have hPe : ∀ x ∈ P.map (fun e => (e.1, spec.scored tallies0 e.2)), x.1 ≠ e.1 := by
      intro x hx
      rw [List.mem_map] at hx
      obtain ⟨y, hy, rfl⟩ := hx
      intro heq
      have heq1 : y.1 = e.1 := heq
      have h1 : e.1 ∈ P.map (fun x => x.1) := by
        rw [← heq1]
        exact List.mem_map_of_mem (fun x => x.1) hy
      exact (List.nodup_append.mp hnd2).2.2 h1 (List.mem_cons_self _ _)
    have hRe : ∀ x ∈ rest, x.1 ≠ e.1 := by
      intro x hx heq
      have h2 := (List.nodup_cons.mp (List.nodup_append.mp hnd2).2.1).1
      apply h2
      rw [← heq]
      exact List.mem_map_of_mem _ hx
    have hgoal : P.map (fun e => (e.1, spec.scored tallies0 e.2)) ++
        (e :: rest).map (fun e => (e.1, spec.scored tallies0 e.2)) =
        (P ++ [e]).map (fun e => (e.1, spec.scored tallies0 e.2)) ++
          rest.map (fun e => (e.1, spec.scored tallies0 e.2)) := by
      simp
    rw [hgoal, List.map_cons]
    rcases collab.loop_step govAddr t e.2 (rest.map (fun e => e.2)) hp1 with
      ⟨_, _, hsame, hstep⟩ | hstep
    · rw [hstep]
      apply ih (P ++ [e]) t htal ?_ hkrest hnd1 hprest
      rw [hm, List.map_append, List.append_assoc]
      congr 1
      simp only [List.map_cons, List.map_nil, List.singleton_append]
      rw [← htal, hsame]
    · rw [hstep]
      have hs := collab.Set_at t (P.map (fun e => (e.1, spec.scored tallies0 e.2))) rest e
        (spec.scored t.tallies e.2) hm hPe hRe
      rw [hkey e (List.mem_cons_self _ _)] at hs
      apply ih (P ++ [e]) _ (hs.2.trans htal) ?_ hkrest hnd1 hprest
      rw [hs.1, List.map_append, List.append_assoc, htal]
      simp only [List.map_cons, List.map_nil, List.singleton_append]
      rw [← hkey e (List.mem_cons_self _ _)]


/-- C24: when every poll that scoring reads has a tally, `ScoreMotions_StageOnly`
succeeds and returns the listed motions, each with the score that `spec.scored`
gives it (the fixed score, which takes precedence; else the score of the poll's
tally for `MotionPollBallotChoice`, zero without an entry; else unchanged), in
sorted order: the same number of motions with the same ids, highest score
first. The tallies are as before; in a tree whose motions are stored under
their ids the stored motions are the scored ones under the same keys; and when
no listed motion has a fixed score or a poll the tree is returned as it was. -/
theorem collab.score_motions_sets_scores_and_sorts (govAddr : gov.Address) (t : collab.Tree)
    (hp : collab.PollsExist t.tallies (collab.ListMotions_Local t)) :
    ∃ t1 result,
      collab.ScoreMotions_StageOnly govAddr t =
        (t1, .ok ⟨"Score all " ++ toString (collab.ListMotions_Local t).length ++ " motions",
          "collab_score_motions", [], result⟩) ∧
      result = collab.Motions.Sort ((collab.ListMotions_Local t).map (spec.scored t.tallies)) ∧
      result.Perm ((collab.ListMotions_Local t).map (spec.scored t.tallies)) ∧
      result.length = (collab.ListMotions_Local t).length ∧
      (result.map (fun m => m.ID)).Perm ((collab.ListMotions_Local t).map (fun m => m.ID)) ∧
      List.Sorted (fun a b => a.Score ≥ b.Score) result ∧
      t1.tallies = t.tallies ∧
      (t.WellKeyed →
        t1.motions = t.motions.map (fun e => (e.1, spec.scored t.tallies e.2))) ∧
      ((∀ m ∈ collab.ListMotions_Local t, m.Scoring.Fixed = none ∧ m.Scoring.Poll = none) →
        t1 = t) := by
  obtain ⟨h1, h2⟩ := collab.loop_result govAddr (collab.ListMotions_Local t) t hp
  rcases hl : collab.ScoreMotions_StageOnly.loop govAddr t (collab.ListMotions_Local t) with
    ⟨t1, r⟩
  rw [hl] at h1 h2
  simp only [] at h1 h2
  subst h1
  have hperm : (collab.Motions.Sort
      ((collab.ListMotions_Local t).map (spec.scored t.tallies))).Perm
      ((collab.ListMotions_Local t).map (spec.scored t.tallies)) :=
    List.perm_insertionSort _ _
  haveI : IsTotal collab.Motion (fun a b => a.Score ≥ b.Score) :=
    ⟨fun a b => le_total b.Score a.Score⟩
  haveI : IsTrans collab.Motion (fun a b => a.Score ≥ b.Score) :=
    ⟨fun a b c hab hbc => le_trans hbc hab⟩
  refine ⟨t1, _, ?_, rfl, hperm, ?_, ?_, ?_, h2, ?_, ?_⟩
  · simp only [collab.ScoreMotions_StageOnly, hl, List.length_map]
  · rw [hperm.length_eq, List.length_map]
  · have := hperm.map (fun m => m.ID)
    refine this.trans ?_
    rw [List.map_map]
    have hid : (fun m : collab.Motion => m.ID) ∘ spec.scored t.tallies =
        fun m => m.ID := by
      funext m
      exact collab.scored_ID t.tallies m
    rw [hid]
  · exact List.sorted_insertionSort _ _
  · intro hwk
    have := collab.loop_motions govAddr t.tallies t.motions [] t rfl (by simp) hwk.1
      (by simpa using hwk.2) hp
    have hlist : collab.ListMotions_Local t = t.motions.map (fun e => e.2) := rfl
    rw [← hlist, hl] at this
    simpa using this
  · intro hall
    have := collab.loop_untouched govAddr (collab.ListMotions_Local t) t hall
    rw [hl] at this
    exact (Prod.mk.inj this).1

/-- C24 at a concrete input: of the four motions, `A` gets its fixed score 7
although its poll has 100, `B` gets 5 from its poll, `C` keeps 3, `D` gets 0
because the tally of its poll has no entry for `rank`; they are returned in the
order `A`, `B`, `C`, `D`. -/
theorem collab.score_motions_sets_scores_and_sorts_witness :
    (collab.ScoreMotions_StageOnly Example.govAddr Example.collabTree).2 =
      .ok ⟨"Score all 4 motions", "collab_score_motions", [],
        [⟨"A", ⟨some 7, some "pA"⟩, 7⟩, ⟨"B", ⟨none, some "pB"⟩, 5⟩,
         ⟨"C", ⟨none, none⟩, 3⟩, ⟨"D", ⟨none, some "pD"⟩, 0⟩]⟩ ∧
    ∃ t1 result,
      collab.ScoreMotions_StageOnly Example.govAddr Example.collabTree =
        (t1, .ok ⟨"Score all " ++ toString (collab.ListMotions_Local Example.collabTree).length
          ++ " motions", "collab_score_motions", [], result⟩) ∧
      List.Sorted (fun a b => a.Score ≥ b.Score) result :=
  ⟨rfl,
   (collab.score_motions_sets_scores_and_sorts Example.govAddr Example.collabTree
      (by
        intro m hm _ poll hpoll
        simp only [collab.ListMotions_Local, Example.collabTree, List.map_cons, List.map_nil,
          List.mem_cons, List.mem_singleton, List.not_mem_nil, or_false] at hm
        rcases hm with rfl | rfl | rfl | rfl <;> cases hpoll <;> exact ⟨_, rfl⟩)).imp
     (fun _ h => h.imp (fun _ h1 => ⟨h1.1, h1.2.2.2.2.2.1⟩))⟩


/-! ## Setting a property of a user -/

/-- C28: at a concrete input the code writes outside the metadata directory of
the named user. `Set` for the user `alice` with the key `../../bob/meta/email`
writes the one file `.gov/users/bob/meta/email`, because `filepath.Join` cleans
the `..` elements of the key away: the file does not lie inside the metadata
directory of alice, it lies inside the one of bob, and the value bob had there
is overwritten. With the key `email` the file is the one inside the directory
of alice. -/
theorem user.set_writes_into_other_users_directory :
    "alice" ≠ "bob" ∧
    user.metaDir "alice" = ".gov/users/alice/meta" ∧
    user.metaDir "bob" = ".gov/users/bob/meta" ∧
    user.Set.propFile "alice" ("../../bob/" ++ govproto.GovUserMetaDirbase ++ "/email") =
      ".gov/users/bob/meta/email" ∧
    filepath.inside (user.metaDir "alice")
      (user.Set.propFile "alice" ("../../bob/" ++ govproto.GovUserMetaDirbase ++ "/email")) =
      false ∧
    filepath.inside (user.metaDir "bob")
      (user.Set.propFile "alice" ("../../bob/" ++ govproto.GovUserMetaDirbase ++ "/email")) =
      true ∧
    Example.community.Dir ".gov/users/bob/meta/email" = some "bob@example.com" ∧
    (user.Set Example.community "alice"
      ("../../bob/" ++ govproto.GovUserMetaDirbase ++ "/email") "mallory@example.com").Dir
      ".gov/users/bob/meta/email" = some "mallory@example.com" ∧
    (user.Set Example.community "alice"
      ("../../bob/" ++ govproto.GovUserMetaDirbase ++ "/email") "mallory@example.com").Dir
      ".gov/users/alice/meta/email" = none ∧
    user.Set.propFile "alice" "email" = ".gov/users/alice/meta/email" ∧
    filepath.inside (user.metaDir "alice") (user.Set.propFile "alice" "email") = true :=
  ⟨by decide, by decide, by decide, by decide, by decide, by decide, by decide, by decide,
    by decide, by decide, by decide⟩

end Gov4Git
